import Mathlib

/-! # Marian tokenizer core

A shallow embedding of `src/deps/marian_tokenizer_core/src/marian_core.cc`.

Conventions of the embedding.

* C `int` and `long long` values are `Int`. Conversions that can change a value are
  explicit: `to_int` and `to_long_long` for numbers read from JSON, `Int.toNat` for a
  non-negative `int` used as an array index. The casts `(int)ids.size()` are taken at
  their mathematical value: the interface counts ids in `int`, and the embedding covers
  the calls in which these counts fit, that is sequences of fewer than `2 ^ 31` ids.
* The cell offsets `b * max_len` and `row_offset + j` of the batch functions are computed
  in `int`: the product and the sum are taken modulo `2 ^ 32` in two's complement
  (`to_int`), which is what the overflowing operations yield on the usual targets. No
  offset overflows when `batch_size * max_len <= 2 ^ 31`: the largest one computed is
  `batch_size * max_len - 1`.
* A pointer argument is an `Option`: `none` is the null pointer, `some m` is a non-null
  pointer to caller-owned cells, cell `i` holding `m i` for every offset `i >= 0`. A store
  through a negative `int` index (`store_at`) lands before the first of these cells and
  changes none of them. The arrays behind the pointer arguments of one call do not
  overlap.
* `std::vector` is `List`, `std::unordered_map<std::string, long long>` is an
  association list with unique keys, `std::unordered_set<long long>` is a list.
* `std::string` is `String`; its `char`s are the bytes of its UTF-8 encoding
  (`string_bytes`), and a `char` cell of a caller's buffer holds a byte value.
* The collaborators that are not part of the repository (the file system, the JSON
  parser, the SentencePiece models, the iteration order of the hash map, the largest
  vector the allocator accepts) are the fields of `Env`.
* A call either returns a code and leaves the caller-owned cells in some state
  (`Outcome.returned`), or is left by a C++ exception that nothing inside the `extern "C"`
  function catches (`Outcome.threw`).
-/

namespace Marian

/-! ## Machine integers -/

/-- Conversion of an integer to `int` (32 bit, two's complement). -/
def to_int (n : Int) : Int := (n + 2 ^ 31) % 2 ^ 32 - 2 ^ 31

/-- Conversion of an integer to `long long` (64 bit, two's complement). -/
def to_long_long (n : Int) : Int := (n + 2 ^ 63) % 2 ^ 64 - 2 ^ 63

/-! ## JSON values, as far as `parse_config` and `parse_vocab` look at them -/

/-- A parsed `nlohmann::json` value. `number_integer` stands for both integer kinds of the
library; `number_float` carries the value of the double truncated toward zero, which is all
the conversions to `int` and `long long` use. Objects list their members in iteration
order. -/
inductive Json where
  | null
  | boolean (b : Bool)
  | number_integer (n : Int)
  | number_float (truncated : Int)
  | string (s : String)
  | array (elems : List Json)
  | object (members : List (String × Json))

/-- The call `j.at(key)`: the member, or an exception (`none`) when `j` is no object or has no such
key. -/
def Json.at_key (j : Json) (key : String) : Option Json :=
  match j with
  | .object members => members.lookup key
  | _ => none

/-- The call `j.contains(key)`. -/
def Json.contains (j : Json) (key : String) : Bool :=
  match j with
  | .object members => (members.lookup key).isSome
  | _ => false

/-- The call `j.get<int>()`: defined on numbers and booleans, an exception otherwise. -/
def Json.get_int (j : Json) : Option Int :=
  match j with
  | .boolean b => some (if b then 1 else 0)
  | .number_integer n => some (to_int n)
  | .number_float t => some (to_int t)
  | _ => none

/-- The call `j.get<long long>()`: defined on numbers and booleans, an exception otherwise. -/
def Json.get_long_long (j : Json) : Option Int :=
  match j with
  | .boolean b => some (if b then 1 else 0)
  | .number_integer n => some (to_long_long n)
  | .number_float t => some (to_long_long t)
  | _ => none

/-- The call `j.value(key, dflt)` at type `int`: the converted member when the key is present, the
default when it is absent, an exception when `j` is no object or the member does not
convert. -/
def Json.value_int (j : Json) (key : String) (dflt : Int) : Option Int :=
  match j with
  | .object members =>
    match members.lookup key with
    | some v => v.get_int
    | none => some dflt
  | _ => none

/-- The call `j.value(key, dflt)` at type `long long`. -/
def Json.value_long_long (j : Json) (key : String) (dflt : Int) : Option Int :=
  match j with
  | .object members =>
    match members.lookup key with
    | some v => v.get_long_long
    | none => some dflt
  | _ => none

/-- The elements a range-`for` over a JSON value visits: the elements of an array, the
member values of an object, nothing for `null`, the value itself for any other value. -/
def Json.elements (j : Json) : List Json :=
  match j with
  | .null => []
  | .array elems => elems
  | .object members => members.map Prod.snd
  | v => [v]

/-- The `(it.key(), it.value())` pairs of an iterator loop from `j.begin()` to `j.end()`.
`it.key()` throws for an iterator that is not over an object, so the loop succeeds only on
an object or on a value with no element to visit. -/
def Json.entries (j : Json) : Option (List (String × Json)) :=
  match j with
  | .object members => some members
  | .null => some []
  | .array [] => some []
  | _ => none

/-! ## The data model of `marian_core.cc` -/

/-- The struct `MarianCoreConfig`. -/
structure MarianCoreConfig where
  vocab_size : Int := 0
  decoder_vocab_size : Int := 0
  eos_id : Int := 0
  bos_id : Int := 0
  pad_id : Int := 0
  decoder_start_id : Int := 0
  max_length : Int := 512
  model_max_length : Int := 512
  bad_words_ids : List (List Int) := []

/-- The two operations of `sentencepiece::SentencePieceProcessor` the core calls; `none` is
a status that is not `ok()`. -/
structure SentencePieceProcessor where
  Encode : String → Option (List String)
  Decode : List String → Option String

/-- The struct `MarianCore`. -/
structure MarianCore where
  sp_source : SentencePieceProcessor
  sp_target : SentencePieceProcessor
  cfg : MarianCoreConfig
  cfg_json : String
  token2id : List (String × Int)
  id2token : List String
  unk_id : Int := 1
  special_ids : List Int

/-- What the core takes from outside the repository. -/
structure Env where
  /-- Contents of the file at a path, `none` when it cannot be opened. -/
  file : String → Option String
  /-- The function `json::parse`; `none` when it throws. -/
  json_parse : String → Option Json
  /-- The method `SentencePieceProcessor::Load` at a path; `none` when the status is not
  `ok()`. -/
  sp_load : String → Option SentencePieceProcessor
  /-- The order in which a range-`for` visits the entries of the hash map. -/
  hash_order : List (String × Int) → List (String × Int)
  /-- The largest length `std::vector<std::string>::assign` accepts without throwing. -/
  max_size : Nat

/-- The result of a call of an `extern "C"` function. -/
inductive Outcome (σ : Type) where
  /-- The call returns `code`; the caller-owned cells are `mem`. -/
  | returned (code : Int) (mem : σ)
  /-- An exception leaves the call; no code is returned. -/
  | threw

/-! ## Containers -/

/-- The call `m.find(tok)` on the hash map: the mapped value, `none` for `m.end()`. -/
def find (m : List (String × Int)) (tok : String) : Option Int :=
  match m with
  | [] => none
  | (k, v) :: rest => if k = tok then some v else find rest tok

/-- The assignment `m[tok] = id` on the hash map. -/
def assign (m : List (String × Int)) (tok : String) (id : Int) : List (String × Int) :=
  match m with
  | [] => [(tok, id)]
  | (k, v) :: rest => if k = tok then (k, id) :: rest else (k, v) :: assign rest tok id

/-- The call `ids.resize(n)` for an `int` `n`: the argument is converted to `size_t`, so a negative
one asks for more than `max_size()` elements and `std::length_error` is thrown (`none`). -/
def resize (ids : List Int) (n : Int) : Option (List Int) :=
  if n < 0 then none
  else some (ids.take n.toNat ++ List.replicate (n.toNat - ids.length) 0)

/-- The assignment `p[i] = v` on caller-owned cells. -/
def store {α : Type} (p : Nat → α) (i : Nat) (v : α) : Nat → α :=
  fun k => if k = i then v else p k

/-- The assignment `p[i] = v` where the index `i` is an `int`: cell `i` of the caller's
cells when `i` is not negative; a negative index addresses memory before the first cell,
and the cells behind `p` stay as they are. -/
def store_at {α : Type} (p : Nat → α) (i : Int) (v : α) : Nat → α :=
  if i < 0 then p else store p i.toNat v

/-- The loop `for (; j < hi; ++j) body`, entered with `j = lo`, given its number
`n = hi - lo` of iterations. -/
def for_range {σ : Type} (body : Nat → σ → σ) : Nat → Nat → σ → σ
  | 0, _, s => s
  | n + 1, j, s => for_range body n (j + 1) (body j s)

/-! ## Loading -/

/-- The function `load_file`: the contents of the file, `none` for `false`. -/
def load_file (env : Env) (path : String) : Option String :=
  env.file path

/-- The loop over `j["bad_words_ids"]` of `parse_config`. -/
def parse_bad_words_ids (j : Json) : Option (List (List Int)) :=
  if j.contains "bad_words_ids" then
    ((j.at_key "bad_words_ids").getD Json.null).elements.mapM
      (fun seq => seq.elements.mapM Json.get_long_long)
  else some []

/-- The function `parse_config`: the filled configuration, `none` for `false` (an exception
was caught). -/
def parse_config (env : Env) (json_str : String) : Option MarianCoreConfig :=
  match env.json_parse json_str with
  | none => none
  | some j =>
  match (j.at_key "vocab_size").bind Json.get_int with
  | none => none
  | some vocab_size =>
  match j.value_int "decoder_vocab_size" vocab_size with
  | none => none
  | some decoder_vocab_size =>
  match (j.at_key "eos_token_id").bind Json.get_long_long with
  | none => none
  | some eos_id =>
  match j.value_long_long "bos_token_id" eos_id with
  | none => none
  | some bos_id =>
  match (j.at_key "pad_token_id").bind Json.get_long_long with
  | none => none
  | some pad_id =>
  match (j.at_key "decoder_start_token_id").bind Json.get_long_long with
  | none => none
  | some decoder_start_id =>
  match j.value_int "max_length" 512 with
  | none => none
  | some max_length =>
  match j.value_int "model_max_length" max_length with
  | none => none
  | some model_max_length =>
  match parse_bad_words_ids j with
  | none => none
  | some bad_words_ids =>
  some
    { vocab_size := vocab_size
      decoder_vocab_size := decoder_vocab_size
      eos_id := eos_id
      bos_id := bos_id
      pad_id := pad_id
      decoder_start_id := decoder_start_id
      max_length := max_length
      model_max_length := model_max_length
      bad_words_ids := bad_words_ids }

/-- The first loop of `parse_vocab`: fills the map and tracks the largest id; `none` when
a value does not convert. -/
def parse_vocab_fill :
    List (String × Json) → List (String × Int) → Int → Option (List (String × Int) × Int)
  | [], token2id, max_id => some (token2id, max_id)
  | (tok, value) :: rest, token2id, max_id =>
    match value.get_long_long with
    | none => none
    | some id =>
      parse_vocab_fill rest (assign token2id tok id) (if id > max_id then id else max_id)

/-- The second loop of `parse_vocab`: writes every token of the map at the slot of its
id. -/
def parse_vocab_reverse : List (String × Int) → List String → List String
  | [], id2token => id2token
  | (tok, id) :: rest, id2token =>
    if id ≥ 0 ∧ id < (id2token.length : Int) then
      parse_vocab_reverse rest (id2token.set id.toNat tok)
    else
      parse_vocab_reverse rest id2token

/-- The function `parse_vocab`: the pair `(token2id, id2token)`, `none` for `false` (an
exception was caught). `id2token.assign(max_id + 1, "")` throws when asked for more than
`max_size` elements. -/
def parse_vocab (env : Env) (json_str : String) :
    Option (List (String × Int) × List String) :=
  match env.json_parse json_str with
  | none => none
  | some j =>
  match j.entries with
  | none => none
  | some entries =>
  match parse_vocab_fill entries [] (-1) with
  | none => none
  | some (token2id, max_id) =>
  if (max_id + 1).toNat ≤ env.max_size then
    some (token2id,
      parse_vocab_reverse (env.hash_order token2id) (List.replicate (max_id + 1).toNat ""))
  else none

/-- The function `marian_tok_new`: the created instance, `none` for `nullptr`. -/
def marian_tok_new (env : Env) (model_dir_cstr : Option String) : Option MarianCore :=
  match model_dir_cstr with
  | none => none
  | some model_dir =>
  -- 1) config.json
  match load_file env (model_dir ++ "/config.json") with
  | none => none
  | some cfg_str =>
  match parse_config env cfg_str with
  | none => none
  | some cfg =>
  -- 2) vocab.json
  match load_file env (model_dir ++ "/vocab.json") with
  | none => none
  | some vocab_str =>
  match parse_vocab env vocab_str with
  | none => none
  | some (token2id, id2token) =>
  -- 3) sentencepiece models
  match env.sp_load (model_dir ++ "/source.spm") with
  | none => none
  | some sp_source =>
  match env.sp_load (model_dir ++ "/target.spm") with
  | none => none
  | some sp_target =>
  -- 4) special tokens
  let unk_id := match find token2id "<unk>" with
    | some id => id
    | none => 1
  some
    { sp_source := sp_source
      sp_target := sp_target
      cfg := cfg
      cfg_json := cfg_str
      token2id := token2id
      id2token := id2token
      unk_id := unk_id
      special_ids := (([] : List Int).insert cfg.eos_id |>.insert cfg.pad_id).insert unk_id }

/-! ## Encoding -/

/-- The function `marian_tok_encode`. The caller-owned cells are those behind `out_ids`. -/
def marian_tok_encode (handle : Option MarianCore) (text : Option String)
    (out_ids : Option (Nat → Int)) (max_ids : Int) (add_eos : Int) :
    Outcome (Option (Nat → Int)) :=
  match handle, text, out_ids with
  | some core, some text, some out =>
    if max_ids ≤ 0 then .returned (-1) out_ids
    else
      match core.sp_source.Encode text with
      | none => .returned (-2) out_ids
      | some pieces =>
        let ids : List Int := pieces.foldl
          (fun ids p =>
            match find core.token2id p with
            | some id => ids ++ [id]
            | none => ids ++ [core.unk_id])
          []
        let ids := if add_eos ≠ 0 then ids ++ [core.cfg.eos_id] else ids
        let resized :=
          if (ids.length : Int) > core.cfg.model_max_length then
            resize ids core.cfg.model_max_length
          else some ids
        match resized with
        | none => .threw
        | some ids =>
          if (ids.length : Int) > max_ids then
            .returned (-3) out_ids -- output buffer is too small
          else
            .returned (ids.length : Int)
              (some (for_range (fun i out => store out i (ids.getD i 0)) ids.length 0 out))
  | _, _, _ => .returned (-1) out_ids

/-- The body of the row loop of `marian_tok_encode_batch`, run for the `n` rows from `b`
on: the state is `global_max_len` and the cells behind `out_ids` and `out_seq_lens`. The
offsets `row_offset = b * max_len` and `row_offset + j` are `int` values, as in the
source. -/
def encode_batch_rows (core : MarianCore) (texts : Nat → Option String) (max_len : Int)
    (add_eos : Int) :
    Nat → Nat → Int → (Nat → Int) → (Nat → Int) → Outcome ((Nat → Int) × (Nat → Int))
  | 0, _, global_max_len, out_ids, out_seq_lens =>
    -- actual maximum sequence length in the batch
    .returned global_max_len (out_ids, out_seq_lens)
  | n + 1, b, global_max_len, out_ids, out_seq_lens =>
    match texts b with
    | none => encode_batch_rows core texts max_len add_eos n (b + 1) global_max_len out_ids
        (store out_seq_lens b 0)
    | some t =>
      match core.sp_source.Encode t with
      | none => .returned (-2) (out_ids, out_seq_lens)
      | some pieces =>
        let ids : List Int := pieces.foldl
          (fun ids p =>
            match find core.token2id p with
            | some id => ids ++ [id]
            | none => ids ++ [core.unk_id])
          []
        let ids := if add_eos ≠ 0 then ids ++ [core.cfg.eos_id] else ids
        -- truncate by model_max_length
        let resized :=
          if (ids.length : Int) > core.cfg.model_max_length then
            resize ids core.cfg.model_max_length
          else some ids
        match resized with
        | none => .threw
        | some ids =>
          let seq_len : Int := ids.length
          if seq_len > max_len then
            -- buffer is too small
            .returned (-3) (out_ids, out_seq_lens)
          else
            let out_seq_lens := store out_seq_lens b seq_len
            let global_max_len := if seq_len > global_max_len then seq_len else global_max_len
            let row_offset : Int := to_int (b * max_len)
            let out_ids := for_range
              (fun j out => store_at out (to_int (row_offset + j)) (ids.getD j 0))
              seq_len.toNat 0 out_ids
            let out_ids := for_range
              (fun j out => store_at out (to_int (row_offset + j)) core.cfg.pad_id)
              (max_len - seq_len).toNat seq_len.toNat out_ids
            encode_batch_rows core texts max_len add_eos n (b + 1) global_max_len out_ids
              out_seq_lens

/-- The function `marian_tok_encode_batch`. The caller-owned cells are those behind
`out_ids` and `out_seq_lens`. -/
def marian_tok_encode_batch (handle : Option MarianCore) (texts : Option (Nat → Option String))
    (batch_size : Int) (max_len : Int) (out_ids : Option (Nat → Int))
    (out_seq_lens : Option (Nat → Int)) (add_eos : Int) :
    Outcome (Option (Nat → Int) × Option (Nat → Int)) :=
  match handle, texts, out_ids, out_seq_lens with
  | some core, some texts, some ids, some lens =>
    if batch_size ≤ 0 ∨ max_len ≤ 0 then .returned (-1) (out_ids, out_seq_lens)
    else
      match encode_batch_rows core texts max_len add_eos batch_size.toNat 0 0 ids lens with
      | .returned code (ids, lens) => .returned code (some ids, some lens)
      | .threw => .threw
  | _, _, _, _ => .returned (-1) (out_ids, out_seq_lens)

/-- The function `marian_tok_build_attention_mask`: the returned code and the cells behind
`out_mask` after the call, for arrays `seq_lens` and `out_mask` that do not overlap. The
offsets `row_offset = b * max_len` and `row_offset + j` are `int` values, as in the
source. -/
def marian_tok_build_attention_mask (seq_lens : Option (Nat → Int)) (batch_size : Int)
    (max_len : Int) (out_mask : Option (Nat → Int)) : Int × Option (Nat → Int) :=
  match seq_lens, out_mask with
  | some seq_lens, some mask =>
    if batch_size ≤ 0 ∨ max_len ≤ 0 then (-1, out_mask)
    else
      (0, some (for_range
        (fun b mask =>
          let len := seq_lens b
          let len := if len < 0 then 0 else len
          let len := if len > max_len then max_len else len
          let row_offset : Int := to_int (b * max_len)
          let mask := for_range (fun j mask => store_at mask (to_int (row_offset + j)) 1)
            len.toNat 0 mask
          for_range (fun j mask => store_at mask (to_int (row_offset + j)) 0)
            (max_len - len).toNat len.toNat mask)
        batch_size.toNat 0 mask))
  | _, _ => (-1, out_mask)

/-! ## Decoding -/

/-- The `char`s of a `std::string`: the bytes of the UTF-8 encoding of the text. Its
length is `size()`. -/
def string_bytes (s : String) : List Nat :=
  s.data.foldr (fun c acc => (String.utf8EncodeChar c).map UInt8.toNat ++ acc) []

/-- The function `marian_tok_decode`. The caller-owned cells are the `char`s behind
`out_text`, each holding a byte value. -/
def marian_tok_decode (handle : Option MarianCore) (ids : Option (Nat → Int)) (len : Int)
    (skip_special : Int) (out_text : Option (Nat → Nat)) (max_text_len : Int) :
    Outcome (Option (Nat → Nat)) :=
  match handle, ids, out_text with
  | some core, some ids, some out =>
    if len ≤ 0 ∨ max_text_len ≤ 0 then .returned (-1) out_text
    else
      let pieces : List String := for_range
        (fun i pieces =>
          let id := ids i
          if skip_special ≠ 0 ∧ id ∈ core.special_ids then pieces
          else if id < 0 ∨ id.toNat ≥ core.id2token.length
              ∨ core.id2token.getD id.toNat "" = "" then
            pieces ++ ["<unk>"]
          else
            pieces ++ [core.id2token.getD id.toNat ""])
        len.toNat 0 []
      if pieces = [] then
        .returned 0 (some (if max_text_len > 0 then store out 0 0 else out))
      else
        match core.sp_target.Decode pieces with
        | none => .returned (-2) out_text
        | some result =>
          if ((string_bytes result).length : Int) + 1 > max_text_len then
            .returned (-3) out_text -- output buffer is too small
          else
            .returned ((string_bytes result).length : Int)
              (some (for_range
                (fun i out => store out i ((string_bytes result ++ [0]).getD i 0))
                ((string_bytes result).length + 1) 0 out))
  | _, _, _ => .returned (-1) out_text

/-! ## The claims' own words, to compare the code with -/

/-- The id the claims call `lookup(p)`: the vocabulary id of `p` if `p` is a key of the
forward mapping, `unk_id` otherwise. -/
def spec_lookup (token2id : List (String × Int)) (unk_id : Int) (p : String) : Int :=
  (find token2id p).getD unk_id

/-- The id the claims call `unk_id`: the id bound to the token `<unk>` in the vocabulary,
or 1 if that token is absent. -/
def spec_unk_id (token2id : List (String × Int)) : Int :=
  (find token2id "<unk>").getD 1

/-- The sequence the claims give for an encoding of the piece list `P`:
`take(model_max_length, map(lookup, P) ++ (if add_eos then [eos_id] else []))`. -/
def spec_encode (core : MarianCore) (P : List String) (add_eos : Bool) : List Int :=
  (P.map (spec_lookup core.token2id (spec_unk_id core.token2id))
    ++ (if add_eos then [core.cfg.eos_id] else [])).take core.cfg.model_max_length.toNat

/-- The row of the attention mask the claims give for a length `len` and stride `max_len`:
1 at the positions below `min(max(len, 0), max_len)`, 0 elsewhere. -/
def spec_mask (len : Int) (max_len : Int) (j : Nat) : Int :=
  if (j : Int) < min (max len 0) max_len then 1 else 0

/-- The special-id set the claims name: `id` is in `{eos_id, pad_id, unk_id}`. -/
def spec_special (core : MarianCore) (id : Int) : Bool :=
  id = core.cfg.eos_id ∨ id = core.cfg.pad_id ∨ id = spec_unk_id core.token2id

/-- The token the claims give for a kept id: `id2token[id]` when `0 <= id < len(id2token)`
and that slot is non-empty, the literal token `<unk>` otherwise. -/
def spec_token (core : MarianCore) (id : Int) : String :=
  match (if 0 ≤ id then core.id2token[id.toNat]? else none) with
  | some tok => if tok = "" then "<unk>" else tok
  | none => "<unk>"

/-- The list the claims say is passed to the target piece-decoder: scan the ids in order,
drop an id iff `skip_special` is set and the id is special, map every kept id to its
token. -/
def spec_decode_pieces (core : MarianCore) (ids : List Int) (skip_special : Bool) :
    List String :=
  (ids.filter (fun id => !(skip_special && spec_special core id))).map (spec_token core)

/-- The first `len` elements of the array behind a pointer. -/
def array_list {α : Type} (p : Nat → α) (len : Int) : List α :=
  (List.range len.toNat).map p

/-- The given value of an integer field of a configuration object, `none` when the field
is absent. -/
def spec_field (members : List (String × Json)) (key : String) : Option Int :=
  match members.lookup key with
  | some (.number_integer n) => some n
  | _ => none

/-- The given `bad_words_ids` of a configuration object: its sequences in order, each with
its ids in order; the empty list when the field is absent. -/
def spec_bad_words_ids (members : List (String × Json)) : List (List Int) :=
  match members.lookup "bad_words_ids" with
  | some (.array seqs) =>
    seqs.map (fun seq =>
      match seq with
      | .array xs => xs.map (fun x =>
          match x with
          | .number_integer n => n
          | _ => 0)
      | _ => [])
  | _ => []

/-- The configuration the claims give for a configuration object: the given value of every
field that is present, and for an omitted optional field its default:
`decoder_vocab_size = vocab_size`, `bos_id = eos_id`, `max_length = 512`,
`model_max_length = max_length`, `bad_words_ids` empty. -/
def spec_parse_config (members : List (String × Json)) : MarianCoreConfig :=
  { vocab_size := (spec_field members "vocab_size").getD 0
    decoder_vocab_size := (spec_field members "decoder_vocab_size").getD
      ((spec_field members "vocab_size").getD 0)
    eos_id := (spec_field members "eos_token_id").getD 0
    bos_id := (spec_field members "bos_token_id").getD
      ((spec_field members "eos_token_id").getD 0)
    pad_id := (spec_field members "pad_token_id").getD 0
    decoder_start_id := (spec_field members "decoder_start_token_id").getD 0
    max_length := (spec_field members "max_length").getD 512
    model_max_length := (spec_field members "model_max_length").getD
      ((spec_field members "max_length").getD 512)
    bad_words_ids := spec_bad_words_ids members }

/-- The field `key` of a configuration object is an integer with `lo <= n < hi`, or it is
absent and not required. -/
def field_fits (members : List (String × Json)) (key : String) (required : Bool)
    (lo hi : Int) : Bool :=
  match members.lookup key with
  | none => !required
  | some (.number_integer n) => decide (lo ≤ n ∧ n < hi)
  | some _ => false

/-- The field `bad_words_ids` of a configuration object is absent, or an array of arrays of
integers that fit `long long`. -/
def bad_words_fit (members : List (String × Json)) : Bool :=
  match members.lookup "bad_words_ids" with
  | none => true
  | some (.array seqs) =>
    seqs.all (fun seq =>
      match seq with
      | .array xs => xs.all (fun x =>
          match x with
          | .number_integer n => decide (-(2 : Int) ^ 63 ≤ n ∧ n < 2 ^ 63)
          | _ => false)
      | _ => false)
  | some _ => false

/-- A configuration object has the four required fields, every field that is present has
a value of its kind, and every value fits the C type of its field: `int` for `vocab_size`,
`decoder_vocab_size`, `max_length` and `model_max_length`, `long long` for the ids. -/
def config_fits (members : List (String × Json)) : Bool :=
  field_fits members "vocab_size" true (-(2 : Int) ^ 31) (2 ^ 31) &&
  field_fits members "decoder_vocab_size" false (-(2 : Int) ^ 31) (2 ^ 31) &&
  field_fits members "eos_token_id" true (-(2 : Int) ^ 63) (2 ^ 63) &&
  field_fits members "bos_token_id" false (-(2 : Int) ^ 63) (2 ^ 63) &&
  field_fits members "pad_token_id" true (-(2 : Int) ^ 63) (2 ^ 63) &&
  field_fits members "decoder_start_token_id" true (-(2 : Int) ^ 63) (2 ^ 63) &&
  field_fits members "max_length" false (-(2 : Int) ^ 31) (2 ^ 31) &&
  field_fits members "model_max_length" false (-(2 : Int) ^ 31) (2 ^ 31) &&
  bad_words_fit members

/-! ## Vocabulary of the statements on the encoding functions -/

/-- The id sequence `marian_tok_encode` holds before the truncation: the ids of the pieces,
then `eos_id` when asked for. -/
def encode_ids (core : MarianCore) (P : List String) (add_eos : Int) : List Int :=
  P.map (spec_lookup core.token2id core.unk_id)
    ++ (if add_eos ≠ 0 then [core.cfg.eos_id] else [])

/-- The id sequence a row or a single call ends with: `encode_ids` cut to
`model_max_length`. -/
def truncated_ids (core : MarianCore) (P : List String) (add_eos : Int) : List Int :=
  (encode_ids core P add_eos).take core.cfg.model_max_length.toNat

/-- Row `r` has its length in `out_seq_lens`: 0 for a row without text, and for a row with
text the length of its truncated sequence, which fits the stride. -/
def row_len (core : MarianCore) (texts : Nat → Option String) (max_len add_eos : Int)
    (lens : Nat → Int) (r : Nat) : Prop :=
  (texts r = none → lens r = 0) ∧
  ∀ t, texts r = some t →
    ∃ P, core.sp_source.Encode t = some P ∧ 0 ≤ core.cfg.model_max_length ∧
      ((truncated_ids core P add_eos).length : Int) ≤ max_len ∧
      lens r = ((truncated_ids core P add_eos).length : Int)

/-- Row `r` has been written by the row loop: a row without text has length 0; a row with
text holds the ids of its truncated sequence, then `pad_id` up to the stride, and its
length. -/
def row_done (core : MarianCore) (texts : Nat → Option String) (max_len add_eos : Int)
    (ids lens : Nat → Int) (r : Nat) : Prop :=
  (texts r = none → lens r = 0) ∧
  ∀ t, texts r = some t →
    ∃ P, core.sp_source.Encode t = some P ∧ 0 ≤ core.cfg.model_max_length ∧
      ((truncated_ids core P add_eos).length : Int) ≤ max_len ∧
      lens r = ((truncated_ids core P add_eos).length : Int) ∧
      (∀ j (h : j < (truncated_ids core P add_eos).length),
        ids (r * max_len.toNat + j) = (truncated_ids core P add_eos)[j]) ∧
      ∀ j, (truncated_ids core P add_eos).length ≤ j → j < max_len.toNat →
        ids (r * max_len.toNat + j) = core.cfg.pad_id

/-- Row `r` makes the row loop return the error `code`: its text is rejected by the
segmentation (-2), or its truncated sequence is longer than the stride (-3). -/
def row_fails (core : MarianCore) (texts : Nat → Option String) (max_len add_eos : Int)
    (r : Nat) (code : Int) : Prop :=
  ∃ t, texts r = some t ∧
    ((core.sp_source.Encode t = none ∧ code = -2) ∨
      ∃ P, core.sp_source.Encode t = some P ∧ 0 ≤ core.cfg.model_max_length ∧
        ((truncated_ids core P add_eos).length : Int) > max_len ∧ code = -3)

/-! ## Vocabulary of the statements on the loaders -/

/-- The ids of the members of a vocabulary object, each converted by `get<long long>()`;
`none` when a value does not convert. -/
def convert_entries : List (String × Json) → Option (List (String × Int))
  | [] => some []
  | (tok, value) :: rest =>
    match value.get_long_long, convert_entries rest with
    | some id, some ids => some ((tok, id) :: ids)
    | _, _ => none

/-- The largest id of a forward mapping, -1 when it is empty or all its ids are below -1:
the value `max_id` has after the first loop of `parse_vocab`. -/
def max_id_of (token2id : List (String × Int)) : Int :=
  token2id.foldl (fun max_id kv => if kv.2 > max_id then kv.2 else max_id) (-1)

/-! ## A small model directory, to evaluate the definitions on -/

/-- A segmenter that cuts a text at blanks. -/
def demo_pieces : List Char → List Char → List String
  | [], cur => if cur.isEmpty then [] else [String.mk cur.reverse]
  | c :: cs, cur =>
    if c = ' ' then
      (if cur.isEmpty then demo_pieces cs [] else String.mk cur.reverse :: demo_pieces cs [])
    else demo_pieces cs (c :: cur)

/-- A subword model: pieces are the words of the text, and the text `"?"` is rejected. -/
def demo_sp : SentencePieceProcessor where
  Encode := fun text => if text = "?" then none else some (demo_pieces text.data [])
  Decode := fun pieces => some (String.intercalate " " pieces)

/-- The bytes of `config.json` in the demo directory. -/
def demo_config_json (model_max_length : Int) : String :=
  "\x7b\"vocab_size\": 5, \"eos_token_id\": 0, \"pad_token_id\": 4, "
    ++ "\"decoder_start_token_id\": 4, \"model_max_length\": "
    ++ toString model_max_length ++ "\x7d"

/-- The bytes of `vocab.json` in the demo directory. -/
def demo_vocab_json : String :=
  "\x7b\"</s>\": 0, \"<pad>\": 4, \"<unk>\": 1, \"hello\": 2, \"world\": 3\x7d"

/-- The demo directory `m`, with a configurable `model_max_length`. -/
def demo_env (model_max_length : Int) : Env where
  file := fun path =>
    if path = "m/config.json" then some (demo_config_json model_max_length)
    else if path = "m/vocab.json" then some demo_vocab_json
    else none
  json_parse := fun s =>
    if s = demo_vocab_json then
      some (.object [("</s>", .number_integer 0), ("<pad>", .number_integer 4),
        ("<unk>", .number_integer 1), ("hello", .number_integer 2),
        ("world", .number_integer 3)])
    else if s = demo_config_json model_max_length then
      some (.object [("decoder_start_token_id", .number_integer 4),
        ("eos_token_id", .number_integer 0),
        ("model_max_length", .number_integer model_max_length),
        ("pad_token_id", .number_integer 4), ("vocab_size", .number_integer 5)])
    else none
  sp_load := fun path =>
    if path = "m/source.spm" ∨ path = "m/target.spm" then some demo_sp else none
  hash_order := fun m => m
  max_size := 2 ^ 58

/-- The instance `marian_tok_new` creates from the demo directory. -/
def demo_core (model_max_length : Int) : MarianCore where
  sp_source := demo_sp
  sp_target := demo_sp
  cfg :=
    { vocab_size := 5
      decoder_vocab_size := 5
      eos_id := 0
      bos_id := 0
      pad_id := 4
      decoder_start_id := 4
      max_length := 512
      model_max_length := model_max_length
      bad_words_ids := [] }
  cfg_json := demo_config_json model_max_length
  token2id := [("</s>", 0), ("<pad>", 4), ("<unk>", 1), ("hello", 2), ("world", 3)]
  id2token := ["</s>", "<unk>", "hello", "world", "<pad>"]
  unk_id := 1
  special_ids := [1, 4, 0]

/-- The cells of a caller's buffer before a call: cell `i` holds `-1 - i`, a value no id of
the demo vocabulary has. -/
def demo_cells : Nat → Int := fun i => -1 - i

/-- The array behind an `ids` pointer that holds the list `l`. -/
def demo_ids (l : List Int) : Nat → Int := fun i => l.getD i 0

/-- The `char` cells of a caller's text buffer before a call: cell `i` holds `200 + i`. -/
def demo_text_cells : Nat → Nat := fun i => 200 + i

/-- An environment whose JSON parser knows the listed documents and nothing else, with the
vector limit of a 64-bit platform for strings of 32 bytes. -/
def demo_parser_env (documents : List (String × Json)) : Env where
  file := fun _ => none
  json_parse := fun s => documents.lookup s
  sp_load := fun _ => none
  hash_order := fun m => m
  max_size := 2 ^ 58 - 1

/-- The bytes of a vocabulary in which the tokens `a` and `b` share the id 0 and no token
has the id 1. -/
def demo_duplicate_vocab_json : String :=
  "\x7b\"a\": 0, \"b\": 0, \"c\": 2\x7d"

/-- The members of the parsed `demo_duplicate_vocab_json`. -/
def demo_duplicate_vocab : List (String × Json) :=
  [("a", .number_integer 0), ("b", .number_integer 0), ("c", .number_integer 2)]

/-- The bytes of a configuration that has every required field but `pad_token_id`. -/
def demo_config_without_pad_json : String :=
  "\x7b\"vocab_size\": 5, \"eos_token_id\": 0, \"decoder_start_token_id\": 4, "
    ++ "\"max_length\": 64\x7d"

/-- The parsed `demo_config_without_pad_json`. -/
def demo_config_without_pad : Json :=
  .object [("decoder_start_token_id", .number_integer 4), ("eos_token_id", .number_integer 0),
    ("max_length", .number_integer 64), ("vocab_size", .number_integer 5)]

/-- The bytes of a configuration with every field, `bad_words_ids` included. -/
def demo_full_config_json : String :=
  "\x7b\"vocab_size\": 5, \"decoder_vocab_size\": 6, \"eos_token_id\": 0, "
    ++ "\"bos_token_id\": 7, \"pad_token_id\": 4, \"decoder_start_token_id\": 4, "
    ++ "\"max_length\": 64, \"model_max_length\": 32, "
    ++ "\"bad_words_ids\": [[4], [3, 2]]\x7d"

/-- The members of the parsed `demo_full_config_json`. -/
def demo_full_config : List (String × Json) :=
  [("bad_words_ids", .array [.array [.number_integer 4],
      .array [.number_integer 3, .number_integer 2]]),
    ("bos_token_id", .number_integer 7), ("decoder_start_token_id", .number_integer 4),
    ("decoder_vocab_size", .number_integer 6), ("eos_token_id", .number_integer 0),
    ("max_length", .number_integer 64), ("model_max_length", .number_integer 32),
    ("pad_token_id", .number_integer 4), ("vocab_size", .number_integer 5)]

/-- The bytes of a configuration with the four required fields only, whose `vocab_size`
is `2 ^ 32`. -/
def demo_wide_config_json : String :=
  "\x7b\"vocab_size\": 4294967296, \"eos_token_id\": 0, \"pad_token_id\": 4, "
    ++ "\"decoder_start_token_id\": 4\x7d"

/-- The members of the parsed `demo_wide_config_json`. -/
def demo_wide_config : List (String × Json) :=
  [("decoder_start_token_id", .number_integer 4), ("eos_token_id", .number_integer 0),
    ("pad_token_id", .number_integer 4), ("vocab_size", .number_integer 4294967296)]

/-- The bytes of a configuration with the four required fields and a `max_length` that is
a string. -/
def demo_string_config_json : String :=
  "\x7b\"vocab_size\": 5, \"eos_token_id\": 0, \"pad_token_id\": 4, "
    ++ "\"decoder_start_token_id\": 4, \"max_length\": \"long\"\x7d"

/-- The members of the parsed `demo_string_config_json`. -/
def demo_string_config : List (String × Json) :=
  [("decoder_start_token_id", .number_integer 4), ("eos_token_id", .number_integer 0),
    ("max_length", .string "long"), ("pad_token_id", .number_integer 4),
    ("vocab_size", .number_integer 5)]

/-- The members of a configuration with the four required fields only. -/
def demo_required_config : List (String × Json) :=
  [("decoder_start_token_id", .number_integer 4), ("eos_token_id", .number_integer 0),
    ("pad_token_id", .number_integer 4), ("vocab_size", .number_integer 5)]

/-- The lengths `[3, 0, 10]`. -/
def demo_seq_lens : Nat → Int := fun b => [3, 0, 10].getD b 0

/-- The texts `["hello", "?", null]`; the segmentation rejects the second. -/
def demo_texts_rejected : Nat → Option String := fun b =>
  if b = 0 then some "hello" else if b = 1 then some "?" else none

/-- The texts `["hello", null, "world"]`. -/
def demo_texts : Nat → Option String := fun b =>
  if b = 0 then some "hello" else if b = 2 then some "world" else none

/-- A batch in which every text is `"hello"`. -/
def demo_texts_hello : Nat → Option String := fun _ => some "hello"

/-- An array of lengths in which every length is 3. -/
def demo_seq_lens_three : Nat → Int := fun _ => 3


/-! ## Lemmas on the containers and loops -/

theorem store_same {α : Type} (p : Nat → α) (i : Nat) (v : α) : store p i v i = v := by
  simp [store]

theorem store_other {α : Type} (p : Nat → α) (i k : Nat) (v : α) (h : k ≠ i) :
    store p i v k = p k := by
  simp [store, h]

/-- A loop of stores leaves alone every cell that none of its iterations addresses. -/
theorem for_range_store_miss {α : Type} (g : Nat → Nat) (f : Nat → α) (k : Nat) :
    ∀ (n lo : Nat) (out : Nat → α), (∀ j, lo ≤ j → j < lo + n → g j ≠ k) →
      for_range (fun j out => store out (g j) (f j)) n lo out k = out k := by
  intro n
  induction n with
  | zero => intro lo out _; rfl
  | succ n ih =>
    intro lo out h
    simp only [for_range]
    rw [ih (lo + 1) _ (fun j h1 h2 => h j (by omega) (by omega))]
    exact store_other _ _ _ _ (fun e => h lo (Nat.le_refl _) (by omega) e.symm)

/-- A loop of stores at pairwise distinct cells leaves in cell `g j` the value `f j`. -/
theorem for_range_store_hit {α : Type} (g : Nat → Nat) (f : Nat → α)
    (hg : ∀ i j, g i = g j → i = j) :
    ∀ (n lo : Nat) (out : Nat → α) (j : Nat), lo ≤ j → j < lo + n →
      for_range (fun j out => store out (g j) (f j)) n lo out (g j) = f j := by
  intro n
  induction n with
  | zero => intro lo out j h1 h2; omega
  | succ n ih =>
    intro lo out j h1 h2
    simp only [for_range]
    by_cases hj : j = lo
    · subst hj
      rw [for_range_store_miss g f (g j) n (j + 1) _
        (fun i h3 _ e => by have := hg _ _ e; omega)]
      exact store_same _ _ _
    · exact ih (lo + 1) _ j (by omega) (by omega)

/-- A store through an index that is not negative is the store at that cell. -/
theorem store_at_of_nonneg {α : Type} (p : Nat → α) (i : Int) (v : α) (h : 0 ≤ i) :
    store_at p i v = store p i.toNat v := by
  unfold store_at
  rw [if_neg (by omega)]

/-- A store through an `int` index leaves alone every cell but the one it addresses. -/
theorem store_at_other {α : Type} (p : Nat → α) (i : Int) (k : Nat) (v : α)
    (h : i ≠ (k : Int)) : store_at p i v k = p k := by
  unfold store_at
  split
  · rfl
  · exact store_other _ _ _ _ (by omega)

/-- Two loop bodies that agree on the turns of a loop give the same loop. -/
theorem for_range_congr {σ : Type} (f g : Nat → σ → σ) :
    ∀ (n lo : Nat) (s : σ), (∀ j s, lo ≤ j → j < lo + n → f j s = g j s) →
      for_range f n lo s = for_range g n lo s := by
  intro n
  induction n with
  | zero => intro lo s _; rfl
  | succ n ih =>
    intro lo s h
    simp only [for_range]
    rw [h lo s (Nat.le_refl _) (by omega)]
    exact ih (lo + 1) _ (fun j s h1 h2 => h j s (by omega) (by omega))

/-- A loop of stores through `int` indices leaves alone every cell that none of its
iterations addresses. -/
theorem for_range_store_at_miss {α : Type} (g : Nat → Int) (f : Nat → α) (k : Nat) :
    ∀ (n lo : Nat) (out : Nat → α), (∀ j, lo ≤ j → j < lo + n → g j ≠ (k : Int)) →
      for_range (fun j out => store_at out (g j) (f j)) n lo out k = out k := by
  intro n
  induction n with
  | zero => intro lo out _; rfl
  | succ n ih =>
    intro lo out h
    simp only [for_range]
    rw [ih (lo + 1) _ (fun j h1 h2 => h j (by omega) (by omega))]
    exact store_at_other _ _ _ _ (h lo (Nat.le_refl _) (by omega))

/-- The loop that maps pieces to ids pushes `lookup(p)` for every piece in order. -/
theorem foldl_push_eq_map (token2id : List (String × Int)) (unk_id : Int) :
    ∀ (pieces : List String) (init : List Int),
      pieces.foldl
          (fun ids p =>
            match find token2id p with
            | some id => ids ++ [id]
            | none => ids ++ [unk_id])
          init
        = init ++ pieces.map (spec_lookup token2id unk_id) := by
  intro pieces
  induction pieces with
  | nil => intro init; simp
  | cons p ps ih =>
    intro init
    simp only [List.foldl_cons, List.map_cons]
    rw [ih]
    cases h : find token2id p <;> simp [spec_lookup, h]

/-- Step 4 of `marian_tok_new`: the `unk_id` of a created instance is the id of `<unk>` in
its vocabulary, or 1. -/
theorem marian_tok_new_unk_id (env : Env) (dir : Option String) (core : MarianCore)
    (h : marian_tok_new env dir = some core) : core.unk_id = spec_unk_id core.token2id := by
  unfold marian_tok_new at h
  split at h
  · cases h
  split at h
  · cases h
  split at h
  · cases h
  split at h
  · cases h
  split at h
  · cases h
  split at h
  · cases h
  split at h
  · cases h
  simp only [Option.some.injEq] at h
  subst h
  simp only [spec_unk_id]
  split <;> simp_all


theorem spec_encode_eq (core : MarianCore) (P : List String) (add_eos : Int)
    (h : core.unk_id = spec_unk_id core.token2id) :
    spec_encode core P (decide (add_eos ≠ 0))
      = (encode_ids core P add_eos).take core.cfg.model_max_length.toNat := by
  unfold spec_encode encode_ids
  rw [← h]
  by_cases e : add_eos = 0 <;> simp [e]

/-- The copy loop of `marian_tok_encode` writes `ids` at the cells `0 .. ids.size()` and
nothing else. -/
theorem copy_loop_cells (ids : List Int) (out : Nat → Int) :
    (∀ i (h : i < ids.length),
        for_range (fun i out => store out i (ids.getD i 0)) ids.length 0 out i = ids[i])
      ∧ ∀ i, ids.length ≤ i →
        for_range (fun i out => store out i (ids.getD i 0)) ids.length 0 out i = out i := by
  constructor
  · intro i h
    have := for_range_store_hit (fun i => i) (fun i => ids.getD i 0) (fun _ _ e => e)
      ids.length 0 out i (Nat.zero_le _) (by omega)
    simp only at this
    rw [this]
    simp [List.getD_eq_getElem?_getD, List.getElem?_eq_getElem h]
  · intro i h
    exact for_range_store_miss (fun i => i) (fun i => ids.getD i 0) i ids.length 0 out
      (fun j _ h2 => by simp only; omega)

/-- What `marian_tok_encode` does on valid arguments once the segmentation succeeded. -/
theorem marian_tok_encode_eq (core : MarianCore) (text : String) (P : List String)
    (out : Nat → Int) (max_ids add_eos : Int) (hmax : 0 < max_ids)
    (hP : core.sp_source.Encode text = some P) :
    marian_tok_encode (some core) (some text) (some out) max_ids add_eos =
      if core.cfg.model_max_length < 0 then .threw
      else if (((encode_ids core P add_eos).take core.cfg.model_max_length.toNat).length : Int)
          > max_ids then
        .returned (-3) (some out)
      else
        .returned (((encode_ids core P add_eos).take core.cfg.model_max_length.toNat).length : Int)
          (some (for_range
            (fun i out => store out i
              (((encode_ids core P add_eos).take core.cfg.model_max_length.toNat).getD i 0))
            ((encode_ids core P add_eos).take core.cfg.model_max_length.toNat).length 0 out)) := by
  have hfull : (if add_eos ≠ 0 then
        List.foldl
          (fun ids p =>
            match find core.token2id p with
            | some id => ids ++ [id]
            | none => ids ++ [core.unk_id]) [] P ++ [core.cfg.eos_id]
      else
        List.foldl
          (fun ids p =>
            match find core.token2id p with
            | some id => ids ++ [id]
            | none => ids ++ [core.unk_id]) [] P) = encode_ids core P add_eos := by
    rw [foldl_push_eq_map]
    unfold encode_ids
    by_cases e : add_eos = 0 <;> simp [e]
  unfold marian_tok_encode
  simp only [hP, if_neg (not_le.mpr hmax), hfull]
  generalize encode_ids core P add_eos = full
  by_cases hneg : core.cfg.model_max_length < 0
  · have hgt : (full.length : Int) > core.cfg.model_max_length := by omega
    simp [hneg, hgt, resize]
  · by_cases hgt : (full.length : Int) > core.cfg.model_max_length
    · have h0 : core.cfg.model_max_length.toNat - full.length = 0 := by omega
      simp only [hgt, if_true, resize, if_neg hneg, h0, List.replicate_zero, List.append_nil]
    · have htake : full.take core.cfg.model_max_length.toNat = full :=
        List.take_of_length_le (by omega)
      simp only [hgt, if_false, if_neg hneg, htake]


/-! ## Claims on `marian_tok_encode` -/

/-- C1: for every loaded tokenizer, every text whose source segmentation succeeds with
piece list `P` and every `add_eos` flag, a successful `marian_tok_encode` writes exactly
the sequence `take(model_max_length, map(lookup, P) ++ (if add_eos then [eos_id] else []))`
at the start of `out_ids`, leaves every other cell alone, and returns the length of that
sequence; `lookup` falls back to `unk_id`, the id of `<unk>` in the vocabulary or 1. -/
theorem encode_writes_spec_sequence (env : Env) (dir : Option String) (core : MarianCore)
    (hload : marian_tok_new env dir = some core)
    (text : String) (P : List String) (hP : core.sp_source.Encode text = some P)
    (out_ids : Nat → Int) (max_ids add_eos n : Int) (mem : Option (Nat → Int))
    (hret : marian_tok_encode (some core) (some text) (some out_ids) max_ids add_eos
      = .returned n mem)
    (hn : 0 ≤ n) :
    n = ((spec_encode core P (decide (add_eos ≠ 0))).length : Int) ∧
      ∃ out, mem = some out ∧
        (∀ i (h : i < (spec_encode core P (decide (add_eos ≠ 0))).length),
          out i = (spec_encode core P (decide (add_eos ≠ 0)))[i]) ∧
        ∀ i, (spec_encode core P (decide (add_eos ≠ 0))).length ≤ i → out i = out_ids i := by
  have hmax : 0 < max_ids := by
    by_contra hc
    simp [marian_tok_encode, not_lt.mp hc] at hret
    omega
  rw [marian_tok_encode_eq core text P out_ids max_ids add_eos hmax hP] at hret
  rw [spec_encode_eq core P add_eos (marian_tok_new_unk_id env dir core hload)]
  generalize (encode_ids core P add_eos).take core.cfg.model_max_length.toNat = seq at hret ⊢
  split at hret
  · cases hret
  split at hret
  · cases hret; omega
  · cases hret
    exact ⟨rfl, _, rfl, (copy_loop_cells seq out_ids).1, (copy_loop_cells seq out_ids).2⟩

/-- C2: for every tokenizer instance, so for every loaded one whatever the configuration
the loader accepted, every text and every `add_eos` flag, a non-negative count returned by
`marian_tok_encode` never exceeds the configured `model_max_length`. -/
theorem encode_count_le_model_max_length (core : MarianCore)
    (text : Option String) (out_ids : Option (Nat → Int)) (max_ids add_eos n : Int)
    (mem : Option (Nat → Int))
    (hret : marian_tok_encode (some core) text out_ids max_ids add_eos = .returned n mem)
    (hn : 0 ≤ n) :
    n ≤ core.cfg.model_max_length := by
  cases text with
  | none => simp [marian_tok_encode] at hret; omega
  | some text =>
  cases out_ids with
  | none => simp [marian_tok_encode] at hret; omega
  | some out =>
  by_cases hmax : 0 < max_ids
  · cases hP : core.sp_source.Encode text with
    | none => simp [marian_tok_encode, hP, not_le.mpr hmax] at hret; omega
    | some P =>
      rw [marian_tok_encode_eq core text P out max_ids add_eos hmax hP] at hret
      split at hret
      · cases hret
      split at hret
      · cases hret; omega
      · cases hret
        have := List.length_take_le core.cfg.model_max_length.toNat (encode_ids core P add_eos)
        omega
  · simp [marian_tok_encode, not_lt.mp hmax] at hret
    omega

/-- Witness of C1: `"hello big world"` in the demo directory with `add_eos = 1`, where
`big` is not in the vocabulary. -/
theorem encode_writes_spec_sequence_witness :
    marian_tok_new (demo_env 512) (some "m") = some (demo_core 512) ∧
    (demo_core 512).sp_source.Encode "hello big world" = some ["hello", "big", "world"] ∧
    marian_tok_encode (some (demo_core 512)) (some "hello big world") (some demo_cells) 8 1
      = .returned 4 (some (store (store (store (store demo_cells 0 2) 1 1) 2 3) 3 0)) ∧
    spec_encode (demo_core 512) ["hello", "big", "world"] true = [2, 1, 3, 0] ∧
    ((4 : Int) = ((spec_encode (demo_core 512) ["hello", "big", "world"]
        (decide ((1 : Int) ≠ 0))).length : Int) ∧
      ∃ out, some (store (store (store (store demo_cells 0 2) 1 1) 2 3) 3 0) = some out ∧
        (∀ i (h : i < (spec_encode (demo_core 512) ["hello", "big", "world"]
            (decide ((1 : Int) ≠ 0))).length),
          out i = (spec_encode (demo_core 512) ["hello", "big", "world"]
            (decide ((1 : Int) ≠ 0)))[i]) ∧
        ∀ i, (spec_encode (demo_core 512) ["hello", "big", "world"]
            (decide ((1 : Int) ≠ 0))).length ≤ i → out i = demo_cells i) :=
  ⟨rfl, rfl, rfl, by decide,
    encode_writes_spec_sequence (demo_env 512) (some "m") (demo_core 512) rfl
      "hello big world" ["hello", "big", "world"] rfl demo_cells 8 1 4 _ rfl (by decide)⟩

/-- Witness of C2: the instance loaded with `model_max_length = 2` cuts
`"hello big world"` with EOS to 2 ids. -/
theorem encode_count_le_model_max_length_witness :
    marian_tok_new (demo_env 2) (some "m") = some (demo_core 2) ∧
    marian_tok_encode (some (demo_core 2)) (some "hello big world") (some demo_cells) 8 1
      = .returned 2 (some (store (store demo_cells 0 2) 1 1)) ∧
    (0 : Int) ≤ 2 ∧ (2 : Int) ≤ (demo_core 2).cfg.model_max_length :=
  ⟨rfl, rfl, by decide,
    encode_count_le_model_max_length (demo_core 2) (some "hello big world") (some demo_cells)
      8 1 2 _ rfl (by decide)⟩

/-- C3 fails where the last piece itself maps to `eos_id`: in the demo directory with
`model_max_length = 2`, the text `"hello </s>"` yields exactly 2 pieces, the call with
`add_eos = 1` and capacity 8 returns 2, and the last id written is `eos_id`. -/
theorem encode_at_limit_last_id_is_eos :
    marian_tok_new (demo_env 2) (some "m") = some (demo_core 2) ∧
    (demo_core 2).sp_source.Encode "hello </s>" = some ["hello", "</s>"] ∧
    ((["hello", "</s>"] : List String).length : Int) = (demo_core 2).cfg.model_max_length ∧
    marian_tok_encode (some (demo_core 2)) (some "hello </s>") (some demo_cells) 8 1
      = .returned 2 (some (store (store demo_cells 0 2) 1 0)) ∧
    store (store demo_cells 0 2) 1 0 (2 - 1) = (demo_core 2).cfg.eos_id :=
  ⟨rfl, rfl, rfl, rfl, rfl⟩

/-- C3, amended: for every text whose source segmentation yields exactly `model_max_length`
pieces (`model_max_length >= 1`), `marian_tok_encode` with `add_eos = 1` and a capacity of
at least `model_max_length` returns `model_max_length` and writes the ids of the pieces and
nothing else: the appended EOS is the entry truncated away, and the last id written is the
id of the last piece, so it differs from `eos_id` exactly when that piece does not itself
map to `eos_id`. -/
theorem encode_at_limit_drops_eos (env : Env) (dir : Option String) (core : MarianCore)
    (hload : marian_tok_new env dir = some core)
    (text : String) (P : List String) (hP : core.sp_source.Encode text = some P)
    (hlen : (P.length : Int) = core.cfg.model_max_length)
    (hpos : 1 ≤ core.cfg.model_max_length)
    (out_ids : Nat → Int) (max_ids : Int) (hcap : core.cfg.model_max_length ≤ max_ids) :
    ∃ out,
      marian_tok_encode (some core) (some text) (some out_ids) max_ids 1
        = .returned core.cfg.model_max_length (some out) ∧
      (∀ i (h : i < P.length),
        out i = spec_lookup core.token2id (spec_unk_id core.token2id) P[i]) ∧
      (∀ i, P.length ≤ i → out i = out_ids i) ∧
      ∀ (h : P.length - 1 < P.length),
        (out (P.length - 1) ≠ core.cfg.eos_id ↔
          spec_lookup core.token2id (spec_unk_id core.token2id) P[P.length - 1]
            ≠ core.cfg.eos_id) := by
  have hunk := marian_tok_new_unk_id env dir core hload
  have hseq : (encode_ids core P 1).take core.cfg.model_max_length.toNat
      = P.map (spec_lookup core.token2id (spec_unk_id core.token2id)) := by
    unfold encode_ids
    rw [hunk, List.take_append_of_le_length (by simp; omega)]
    exact List.take_of_length_le (by simp; omega)
  rw [marian_tok_encode_eq core text P out_ids max_ids 1 (by omega) hP, hseq]
  have hl : (P.map (spec_lookup core.token2id (spec_unk_id core.token2id))).length
      = P.length := List.length_map _ _
  rw [if_neg (by omega), if_neg (by rw [hl]; omega)]
  have hcells := copy_loop_cells
    (P.map (spec_lookup core.token2id (spec_unk_id core.token2id))) out_ids
  have hwritten : ∀ i (h : i < P.length),
      for_range
        (fun i out => store out i
          ((P.map (spec_lookup core.token2id (spec_unk_id core.token2id))).getD i 0))
        (P.map (spec_lookup core.token2id (spec_unk_id core.token2id))).length 0 out_ids i
        = spec_lookup core.token2id (spec_unk_id core.token2id) P[i] := by
    intro i h
    rw [hcells.1 i (by rw [hl]; exact h)]
    simp
  refine ⟨_, ?_, hwritten, ?_, ?_⟩
  · rw [hl, hlen]
  · intro i h
    exact hcells.2 i (by rw [hl]; exact h)
  · intro h
    rw [hwritten _ h]

/-- Witness of the amended C3: `"hello world"` with `model_max_length = 2`. -/
theorem encode_at_limit_drops_eos_witness :
    marian_tok_new (demo_env 2) (some "m") = some (demo_core 2) ∧
    (demo_core 2).sp_source.Encode "hello world" = some ["hello", "world"] ∧
    ((["hello", "world"] : List String).length : Int) = (demo_core 2).cfg.model_max_length ∧
    1 ≤ (demo_core 2).cfg.model_max_length ∧ (demo_core 2).cfg.model_max_length ≤ 8 ∧
    ∃ out,
      marian_tok_encode (some (demo_core 2)) (some "hello world") (some demo_cells) 8 1
        = .returned (demo_core 2).cfg.model_max_length (some out) ∧
      (∀ i (h : i < (["hello", "world"] : List String).length),
        out i = spec_lookup (demo_core 2).token2id (spec_unk_id (demo_core 2).token2id)
          (["hello", "world"] : List String)[i]) ∧
      (∀ i, (["hello", "world"] : List String).length ≤ i → out i = demo_cells i) ∧
      ∀ (h : (["hello", "world"] : List String).length - 1
          < (["hello", "world"] : List String).length),
        (out ((["hello", "world"] : List String).length - 1) ≠ (demo_core 2).cfg.eos_id ↔
          spec_lookup (demo_core 2).token2id (spec_unk_id (demo_core 2).token2id)
            (["hello", "world"] : List String)[(["hello", "world"] : List String).length - 1]
            ≠ (demo_core 2).cfg.eos_id) :=
  ⟨rfl, rfl, rfl, by decide, by decide,
    encode_at_limit_drops_eos (demo_env 2) (some "m") (demo_core 2) rfl "hello world"
      ["hello", "world"] rfl rfl (by decide) demo_cells 8 (by decide)⟩


/-- C4 fails for a configuration with a negative `model_max_length`, which the loader
accepts: in the demo directory with `model_max_length = -1` the one id of `"hello"` is more
than the limit and the claim's truncated sequence is empty and fits the capacity 8, but
`ids.resize(-1)` throws `std::length_error`, which nothing in the function catches: the
call returns neither a count nor one of the error codes its documentation promises. -/
theorem encode_negative_limit_throws :
    marian_tok_new (demo_env (-1)) (some "m") = some (demo_core (-1)) ∧
    (demo_core (-1)).sp_source.Encode "hello" = some ["hello"] ∧
    (demo_core (-1)).cfg.model_max_length < ((["hello"] : List String).length : Int) ∧
    ((spec_encode (demo_core (-1)) ["hello"] false).length : Int) ≤ 8 ∧
    marian_tok_encode (some (demo_core (-1))) (some "hello") (some demo_cells) 8 0
      = .threw :=
  ⟨rfl, rfl, by decide, by decide, rfl⟩

/-- The buffer-too-small code of `marian_tok_encode`: for every call with valid arguments
whose segmentation succeeds, the call returns -3 if and only if the id sequence obtained after
EOS append and truncation to `model_max_length` is longer than `max_ids`; in that case
nothing is written to `out_ids`; the call never returns the segmentation-failure code -2 or
the invalid-argument code -1; and when `model_max_length` is not negative, a sequence that
fits in `max_ids`, shortened by `model_max_length` or not, is returned as success with its
length as the count. -/
theorem encode_buffer_too_small_iff (env : Env) (dir : Option String) (core : MarianCore)
    (hload : marian_tok_new env dir = some core)
    (text : String) (P : List String) (hP : core.sp_source.Encode text = some P)
    (out_ids : Nat → Int) (max_ids add_eos : Int) (hmax : 0 < max_ids) :
    ((∃ mem, marian_tok_encode (some core) (some text) (some out_ids) max_ids add_eos
          = .returned (-3) mem)
        ↔ ((spec_encode core P (decide (add_eos ≠ 0))).length : Int) > max_ids) ∧
      (∀ mem, marian_tok_encode (some core) (some text) (some out_ids) max_ids add_eos
          = .returned (-3) mem → mem = some out_ids) ∧
      (∀ n mem, marian_tok_encode (some core) (some text) (some out_ids) max_ids add_eos
          = .returned n mem → n ≠ -2 ∧ n ≠ -1) ∧
      (0 ≤ core.cfg.model_max_length →
        ((spec_encode core P (decide (add_eos ≠ 0))).length : Int) ≤ max_ids →
        ∃ out, marian_tok_encode (some core) (some text) (some out_ids) max_ids add_eos
          = .returned ((spec_encode core P (decide (add_eos ≠ 0))).length : Int)
              (some out)) := by
  rw [marian_tok_encode_eq core text P out_ids max_ids add_eos hmax hP,
    spec_encode_eq core P add_eos (marian_tok_new_unk_id env dir core hload)]
  generalize hseq : (encode_ids core P add_eos).take core.cfg.model_max_length.toNat = seq
  by_cases hneg : core.cfg.model_max_length < 0
  · have hnil : seq = [] := by
      rw [← hseq]
      have : core.cfg.model_max_length.toNat = 0 := by omega
      rw [this]
      rfl
    subst hnil
    simp only [if_pos hneg]
    refine ⟨?_, ?_, ?_, ?_⟩
    · constructor
      · rintro ⟨mem, h⟩
        cases h
      · intro h
        simp at h
        omega
    · intro mem h
      cases h
    · intro n mem h
      cases h
    · intro h
      omega
  · simp only [if_neg hneg]
    by_cases hbig : (seq.length : Int) > max_ids
    · simp only [if_pos hbig]
      refine ⟨?_, ?_, ?_, ?_⟩
      · exact ⟨fun _ => hbig, fun _ => ⟨_, rfl⟩⟩
      · intro mem h
        cases h
        rfl
      · intro n mem h
        cases h
        decide
      · intro _ h
        omega
    · simp only [if_neg hbig]
      refine ⟨?_, ?_, ?_, ?_⟩
      · constructor
        · rintro ⟨mem, h⟩
          cases h
        · intro h
          exact absurd h hbig
      · intro mem h
        cases h
      · intro n mem h
        cases h
        constructor <;> omega
      · intro _ _
        exact ⟨_, rfl⟩

/-- The text `"hello big world"` with `model_max_length = 2` and `max_ids = 1`: the two
ids left by the truncation do not fit. -/
theorem encode_buffer_too_small_iff_witness :
    marian_tok_new (demo_env 2) (some "m") = some (demo_core 2) ∧
    (demo_core 2).sp_source.Encode "hello big world" = some ["hello", "big", "world"] ∧
    (0 : Int) < 1 ∧
    marian_tok_encode (some (demo_core 2)) (some "hello big world") (some demo_cells) 1 1
      = .returned (-3) (some demo_cells) ∧
    ((spec_encode (demo_core 2) ["hello", "big", "world"] true).length : Int) = 2 ∧
    ((∃ mem, marian_tok_encode (some (demo_core 2)) (some "hello big world")
          (some demo_cells) 1 1 = .returned (-3) mem)
      ↔ ((spec_encode (demo_core 2) ["hello", "big", "world"]
          (decide ((1 : Int) ≠ 0))).length : Int) > 1) :=
  ⟨rfl, rfl, by decide, rfl, by decide,
    (encode_buffer_too_small_iff (demo_env 2) (some "m") (demo_core 2) rfl "hello big world"
      ["hello", "big", "world"] rfl demo_cells 1 1 (by decide)).1⟩


/-! ## Lemmas on the row loop of `marian_tok_encode_batch` -/

/-- The cell index `row_offset + j` of row `b`. -/
theorem row_index (b j : Nat) (max_len : Int) (h : 0 ≤ max_len) :
    ((b : Int) * max_len + (j : Int)).toNat = b * max_len.toNat + j := by
  obtain ⟨L, rfl⟩ := Int.eq_ofNat_of_zero_le h
  have : ((b : Int) * (L : Int) + (j : Int)) = ((b * L + j : Nat) : Int) := by push_cast; rfl
  rw [this, Int.toNat_ofNat, Int.toNat_ofNat]

/-- Rows below the row count of a batch whose cells an `int` can index end within the
range of `int`. -/
theorem row_fits (r N : Nat) (max_len : Int) (h0 : 0 ≤ max_len) (hr : r < N)
    (hfit : (N : Int) * max_len ≤ 2 ^ 31) : ((r : Int) + 1) * max_len ≤ 2 ^ 31 := by
  have h1 : (r : Int) + 1 ≤ (N : Int) := by omega
  exact le_trans (mul_le_mul_of_nonneg_right h1 h0) hfit

/-- The bound on the cells of a batch, as the row loop meets it. -/
theorem batch_fits (batch_size max_len : Int) (hB : 0 < batch_size)
    (hfit : batch_size * max_len ≤ 2 ^ 31) :
    ((0 + batch_size.toNat : Nat) : Int) * max_len ≤ 2 ^ 31 := by
  rw [Nat.zero_add, Int.toNat_of_nonneg (by omega)]
  exact hfit

/-- The `int` arithmetic of the cell index `row_offset + j` of row `b` is exact when the
row ends within the range of `int`. -/
theorem to_int_row_index (b j : Nat) (max_len : Int) (hj : (j : Int) < max_len)
    (hfit : ((b : Int) + 1) * max_len ≤ 2 ^ 31) :
    to_int (to_int ((b : Int) * max_len) + (j : Int)) = ((b * max_len.toNat + j : Nat) : Int) := by
  have h0 : 0 ≤ (b : Int) * max_len := mul_nonneg (Int.ofNat_nonneg b) (by omega)
  have h1 : (b : Int) * max_len + max_len ≤ 2 ^ 31 := by
    have h2 : ((b : Int) + 1) * max_len = (b : Int) * max_len + max_len := by ring
    rw [h2] at hfit
    exact hfit
  have h3 : ((b * max_len.toNat + j : Nat) : Int) = (b : Int) * max_len + (j : Int) := by
    rw [← row_index b j max_len (by omega)]
    exact Int.toNat_of_nonneg (by omega)
  rw [h3]
  generalize (b : Int) * max_len = x at h0 h1
  unfold to_int
  norm_num at h1 ⊢
  omega

/-- The stores of a row whose cells an `int` can index are the stores at the cells
`b * max_len + j`. -/
theorem row_loop_of_fit (b : Nat) (max_len : Int) (f : Nat → Int)
    (hfit : ((b : Int) + 1) * max_len ≤ 2 ^ 31) (n lo : Nat)
    (hn : ((lo + n : Nat) : Int) ≤ max_len) (out : Nat → Int) :
    for_range
        (fun j out => store_at out (to_int (to_int ((b : Int) * max_len) + (j : Int))) (f j))
        n lo out
      = for_range (fun j out => store out ((b : Int) * max_len + (j : Int)).toNat (f j))
          n lo out := by
  apply for_range_congr
  intro j s h1 h2
  have hj : (j : Int) < max_len := by omega
  rw [to_int_row_index b j max_len hj hfit, store_at_of_nonneg _ _ _ (Int.ofNat_nonneg _),
    Int.toNat_ofNat, row_index b j max_len (by omega)]

/-- The two inner loops of a row: the values `f j` at the first `c` cells of the row,
`fill` from there up to the stride, and no cell outside the row touched. -/
theorem row_cells (c : Nat) (f : Nat → Int) (max_len : Int) (hlen : (c : Int) ≤ max_len)
    (b : Nat) (fill : Int) (ids : Nat → Int) :
    (∀ j, j < c →
      for_range (fun j out => store out ((b : Int) * max_len + (j : Int)).toNat fill)
        (max_len - (c : Int)).toNat c
        (for_range (fun j out => store out ((b : Int) * max_len + (j : Int)).toNat (f j))
          c 0 ids) (b * max_len.toNat + j) = f j) ∧
    (∀ j, c ≤ j → j < max_len.toNat →
      for_range (fun j out => store out ((b : Int) * max_len + (j : Int)).toNat fill)
        (max_len - (c : Int)).toNat c
        (for_range (fun j out => store out ((b : Int) * max_len + (j : Int)).toNat (f j))
          c 0 ids) (b * max_len.toNat + j) = fill) ∧
    (∀ k, (∀ j, j < max_len.toNat → k ≠ b * max_len.toNat + j) →
      for_range (fun j out => store out ((b : Int) * max_len + (j : Int)).toNat fill)
        (max_len - (c : Int)).toNat c
        (for_range (fun j out => store out ((b : Int) * max_len + (j : Int)).toNat (f j))
          c 0 ids) k = ids k) := by
  have h0 : 0 ≤ max_len := by omega
  have hinj : ∀ i j : Nat, b * max_len.toNat + i = b * max_len.toNat + j → i = j := by
    intro i j e
    omega
  have e1 : ∀ (f : Nat → Int) (n lo : Nat) (out : Nat → Int),
      for_range (fun j out => store out ((b : Int) * max_len + (j : Int)).toNat (f j)) n lo out
        = for_range (fun j out => store out ((fun j => b * max_len.toNat + j) j) (f j))
            n lo out := by
    intro f n lo out
    have : (fun (j : Nat) (out : Nat → Int) =>
          store out ((b : Int) * max_len + (j : Int)).toNat (f j))
        = fun j out => store out ((fun j => b * max_len.toNat + j) j) (f j) := by
      funext j out
      rw [row_index b j max_len h0]
    rw [this]
  rw [e1 (fun _ => fill), e1 f]
  refine ⟨?_, ?_, ?_⟩
  · intro j h
    rw [for_range_store_miss _ _ _ _ _ _ (fun i h1 _ => by omega)]
    exact for_range_store_hit (fun j => b * max_len.toNat + j) f hinj c 0 ids j
      (Nat.zero_le _) (by omega)
  · intro j h1 h2
    exact for_range_store_hit (fun j => b * max_len.toNat + j) (fun _ => fill) hinj
      (max_len - (c : Int)).toNat c _ j h1 (by omega)
  · intro k hk
    rw [for_range_store_miss _ _ _ _ _ _ (fun i _ h2 e => hk i (by omega) e.symm)]
    exact for_range_store_miss _ _ _ _ _ _ (fun i _ h2 e => hk i (by omega) e.symm)

/-- One turn of the row loop at a row without text. -/
theorem encode_batch_rows_null (core : MarianCore) (texts : Nat → Option String)
    (max_len add_eos : Int) (n b : Nat) (g : Int) (ids lens : Nat → Int)
    (ht : texts b = none) :
    encode_batch_rows core texts max_len add_eos (n + 1) b g ids lens
      = encode_batch_rows core texts max_len add_eos n (b + 1) g ids (store lens b 0) := by
  simp only [encode_batch_rows, ht]

/-- One turn of the row loop at a row whose text is rejected by the segmentation. -/
theorem encode_batch_rows_reject (core : MarianCore) (texts : Nat → Option String)
    (max_len add_eos : Int) (n b : Nat) (g : Int) (ids lens : Nat → Int) (t : String)
    (ht : texts b = some t) (hP : core.sp_source.Encode t = none) :
    encode_batch_rows core texts max_len add_eos (n + 1) b g ids lens
      = .returned (-2) (ids, lens) := by
  simp only [encode_batch_rows, ht, hP]

/-- One turn of the row loop at a row whose text is segmented into `P`. -/
theorem encode_batch_rows_text (core : MarianCore) (texts : Nat → Option String)
    (max_len add_eos : Int) (n b : Nat) (g : Int) (ids lens : Nat → Int) (t : String)
    (P : List String) (ht : texts b = some t) (hP : core.sp_source.Encode t = some P)
    (seq : List Int)
    (hseq : (encode_ids core P add_eos).take core.cfg.model_max_length.toNat = seq) :
    encode_batch_rows core texts max_len add_eos (n + 1) b g ids lens =
      if core.cfg.model_max_length < 0 then .threw
      else if (seq.length : Int) > max_len then .returned (-3) (ids, lens)
      else
        encode_batch_rows core texts max_len add_eos n (b + 1)
          (if (seq.length : Int) > g then (seq.length : Int) else g)
          (for_range
            (fun j out => store_at out (to_int (to_int ((b : Int) * max_len) + (j : Int)))
              core.cfg.pad_id)
            (max_len - (seq.length : Int)).toNat seq.length
            (for_range
              (fun j out => store_at out (to_int (to_int ((b : Int) * max_len) + (j : Int)))
                (seq.getD j 0)) seq.length 0 ids))
          (store lens b (seq.length : Int)) := by
  have hfull : (if add_eos ≠ 0 then
        List.foldl
          (fun ids p =>
            match find core.token2id p with
            | some id => ids ++ [id]
            | none => ids ++ [core.unk_id]) [] P ++ [core.cfg.eos_id]
      else
        List.foldl
          (fun ids p =>
            match find core.token2id p with
            | some id => ids ++ [id]
            | none => ids ++ [core.unk_id]) [] P) = encode_ids core P add_eos := by
    rw [foldl_push_eq_map]
    unfold encode_ids
    by_cases e : add_eos = 0 <;> simp [e]
  subst hseq
  simp only [encode_batch_rows, ht, hP, hfull]
  generalize encode_ids core P add_eos = full
  by_cases hneg : core.cfg.model_max_length < 0
  · have hgt : (full.length : Int) > core.cfg.model_max_length := by omega
    simp [hneg, hgt, resize]
  · by_cases hgt : (full.length : Int) > core.cfg.model_max_length
    · have h0 : core.cfg.model_max_length.toNat - full.length = 0 := by omega
      simp only [hgt, if_true, resize, if_neg hneg, h0, List.replicate_zero, List.append_nil,
        Int.toNat_ofNat]
    · have htake : full.take core.cfg.model_max_length.toNat = full :=
        List.take_of_length_le (by omega)
      simp only [hgt, if_false, if_neg hneg, htake, Int.toNat_ofNat]


/-- Cells of different rows are different cells. -/
theorem row_cell_ne (L r r' j j' : Nat) (hj : j < L) (hj' : j' < L) (hr : r ≠ r') :
    r * L + j ≠ r' * L + j' := by
  intro e
  rcases Nat.lt_or_gt_of_ne hr with h | h
  · have := Nat.mul_le_mul_right L (Nat.succ_le_of_lt h)
    rw [Nat.succ_mul] at this
    omega
  · have := Nat.mul_le_mul_right L (Nat.succ_le_of_lt h)
    rw [Nat.succ_mul] at this
    omega

/-- What the row loop has done when it returns, whatever the size of the batch: it has set
the lengths of the first `m` of its rows and stored only through the `int` indices of the
rows with text among them, and either ran through all rows and returns the largest length,
or stopped at row `b + m`, which fails. When an `int` can index the cells of all rows, the
rows with text hold their ids and their padding. -/
theorem encode_batch_rows_inv (core : MarianCore) (texts : Nat → Option String)
    (max_len add_eos : Int) (hL : 0 < max_len) :
    ∀ (n b : Nat) (g : Int) (ids lens : Nat → Int) (code : Int) (ids' lens' : Nat → Int),
      0 ≤ g →
      encode_batch_rows core texts max_len add_eos n b g ids lens
          = .returned code (ids', lens') →
      ∃ m, m ≤ n ∧
        (∀ r, b ≤ r → r < b + m → row_len core texts max_len add_eos lens' r) ∧
        (∀ k : Nat, (∀ r j : Nat, b ≤ r → r < b + m → texts r ≠ none → (j : Int) < max_len →
            to_int (to_int ((r : Int) * max_len) + (j : Int)) ≠ (k : Int)) → ids' k = ids k) ∧
        (∀ r, (r < b ∨ b + m ≤ r) → lens' r = lens r) ∧
        (0 ≤ code → m = n ∧ g ≤ code ∧ (∀ r, b ≤ r → r < b + n → lens' r ≤ code) ∧
          (code = g ∨ ∃ r, b ≤ r ∧ r < b + n ∧ lens' r = code)) ∧
        (code < 0 → m < n ∧ row_fails core texts max_len add_eos (b + m) code) ∧
        (((b + n : Nat) : Int) * max_len ≤ 2 ^ 31 →
          ∀ r t P, b ≤ r → r < b + m → texts r = some t → core.sp_source.Encode t = some P →
            (∀ j (h : j < (truncated_ids core P add_eos).length),
              ids' (r * max_len.toNat + j) = (truncated_ids core P add_eos)[j]) ∧
            ∀ j, (truncated_ids core P add_eos).length ≤ j → j < max_len.toNat →
              ids' (r * max_len.toNat + j) = core.cfg.pad_id) := by
  intro n
  induction n with
  | zero =>
    intro b g ids lens code ids' lens' hg h
    simp only [encode_batch_rows, Outcome.returned.injEq, Prod.mk.injEq] at h
    obtain ⟨rfl, rfl, rfl⟩ := h
    refine ⟨0, Nat.le_refl _, ?_, ?_, ?_, ?_, ?_, ?_⟩
    · intro r h1 h2; omega
    · intro k _; rfl
    · intro r _; rfl
    · intro hc
      exact ⟨rfl, Int.le_refl _, fun r h1 h2 => by omega, Or.inl rfl⟩
    · intro hc
      omega
    · intro _ r t P h1 h2
      omega
  | succ n ih =>
    intro b g ids lens code ids' lens' hg h
    have hcast : ((b + 1 + n : Nat) : Int) = ((b + (n + 1) : Nat) : Int) := by
      push_cast
      ring
    cases ht : texts b with
    | none =>
      rw [encode_batch_rows_null core texts max_len add_eos n b g ids lens ht] at h
      obtain ⟨m, hm, hlen, hcells, hlens, hok, herr, hhit⟩ :=
        ih (b + 1) g ids _ code ids' lens' hg h
      have hb : lens' b = 0 := by
        rw [hlens b (Or.inl (Nat.lt_succ_self b))]
        exact store_same _ _ _
      refine ⟨m + 1, by omega, ?_, ?_, ?_, ?_, ?_, ?_⟩
      · intro r h1 h2
        by_cases hr : r = b
        · subst hr
          exact ⟨fun _ => hb, fun t e => by rw [ht] at e; cases e⟩
        · exact hlen r (by omega) (by omega)
      · intro k hk
        exact hcells k (fun r j h1 h2 => hk r j (by omega) (by omega))
      · intro r hr
        rw [hlens r (by omega)]
        exact store_other _ _ _ _ (by omega)
      · intro hc
        obtain ⟨h1, h2, h3, h4⟩ := hok hc
        refine ⟨by omega, h2, ?_, ?_⟩
        · intro r hr1 hr2
          by_cases hr : r = b
          · subst hr
            omega
          · exact h3 r (by omega) (by omega)
        · rcases h4 with h4 | ⟨r, hr1, hr2, hr3⟩
          · exact Or.inl h4
          · exact Or.inr ⟨r, by omega, by omega, hr3⟩
      · intro hc
        obtain ⟨h1, h2⟩ := herr hc
        refine ⟨by omega, ?_⟩
        have e : b + (m + 1) = b + 1 + m := by omega
        rw [e]
        exact h2
      · intro hfit r t P h1 h2 hrt hP
        by_cases hr : r = b
        · subst hr
          rw [ht] at hrt
          cases hrt
        · exact hhit (by rw [hcast]; exact hfit) r t P (by omega) (by omega) hrt hP
    | some t =>
      cases hP : core.sp_source.Encode t with
      | none =>
        rw [encode_batch_rows_reject core texts max_len add_eos n b g ids lens t ht hP] at h
        simp only [Outcome.returned.injEq, Prod.mk.injEq] at h
        obtain ⟨rfl, rfl, rfl⟩ := h
        refine ⟨0, Nat.zero_le _, ?_, ?_, ?_, ?_, ?_, ?_⟩
        · intro r h1 h2; omega
        · intro k _; rfl
        · intro r _; rfl
        · intro hc
          omega
        · intro _
          exact ⟨Nat.succ_pos n, t, ht, Or.inl ⟨hP, rfl⟩⟩
        · intro _ r t P h1 h2
          omega
      | some P =>
        rw [encode_batch_rows_text core texts max_len add_eos n b g ids lens t P ht hP
          (truncated_ids core P add_eos) rfl] at h
        by_cases hneg : core.cfg.model_max_length < 0
        · rw [if_pos hneg] at h
          cases h
        rw [if_neg hneg] at h
        by_cases hbig : ((truncated_ids core P add_eos).length : Int) > max_len
        · rw [if_pos hbig] at h
          simp only [Outcome.returned.injEq, Prod.mk.injEq] at h
          obtain ⟨rfl, rfl, rfl⟩ := h
          refine ⟨0, Nat.zero_le _, ?_, ?_, ?_, ?_, ?_, ?_⟩
          · intro r h1 h2; omega
          · intro k _; rfl
          · intro r _; rfl
          · intro hc
            omega
          · intro _
            exact ⟨Nat.succ_pos n, t, ht, Or.inr ⟨P, hP, by omega, hbig, rfl⟩⟩
          · intro _ r t P h1 h2
            omega
        rw [if_neg hbig] at h
        have hg1 : 0 ≤ (if ((truncated_ids core P add_eos).length : Int) > g
            then ((truncated_ids core P add_eos).length : Int) else g) := by
          split <;> omega
        obtain ⟨m, hm, hlen, hcells, hlens, hok, herr, hhit⟩ :=
          ih (b + 1) _ _ _ code ids' lens' hg1 h
        have hb : lens' b = ((truncated_ids core P add_eos).length : Int) := by
          rw [hlens b (Or.inl (Nat.lt_succ_self b))]
          exact store_same _ _ _
        have hne : texts b ≠ none := by
          rw [ht]
          exact fun e => by cases e
        have hrowb : ((b + (n + 1) : Nat) : Int) * max_len ≤ 2 ^ 31 →
            (∀ j (h : j < (truncated_ids core P add_eos).length),
              ids' (b * max_len.toNat + j) = (truncated_ids core P add_eos)[j]) ∧
            ∀ j, (truncated_ids core P add_eos).length ≤ j → j < max_len.toNat →
              ids' (b * max_len.toNat + j) = core.cfg.pad_id := by
          intro hfit
          have hfitb := row_fits b (b + (n + 1)) max_len (by omega) (by omega) hfit
          have hrow := row_cells (truncated_ids core P add_eos).length
            (fun j => (truncated_ids core P add_eos).getD j 0) max_len (by omega) b
            core.cfg.pad_id ids
          have hkeep : ∀ j, j < max_len.toNat →
              ids' (b * max_len.toNat + j)
                = for_range (fun j out => store out ((b : Int) * max_len + (j : Int)).toNat
                    core.cfg.pad_id)
                  (max_len - ((truncated_ids core P add_eos).length : Int)).toNat
                  (truncated_ids core P add_eos).length
                  (for_range (fun j out => store out ((b : Int) * max_len + (j : Int)).toNat
                    ((truncated_ids core P add_eos).getD j 0))
                    (truncated_ids core P add_eos).length 0 ids) (b * max_len.toNat + j) := by
            intro j hj
            rw [← row_loop_of_fit b max_len (fun j => (truncated_ids core P add_eos).getD j 0)
                hfitb (truncated_ids core P add_eos).length 0 (by omega) ids,
              ← row_loop_of_fit b max_len (fun _ => core.cfg.pad_id) hfitb
                (max_len - ((truncated_ids core P add_eos).length : Int)).toNat
                (truncated_ids core P add_eos).length (by omega)]
            refine hcells _ (fun r' j' h3 h4 _ hj' e => ?_)
            rw [to_int_row_index r' j' max_len hj'
              (row_fits r' (b + (n + 1)) max_len (by omega) (by omega) hfit)] at e
            exact row_cell_ne _ _ _ _ _ (by omega) hj (by omega) (Int.ofNat_inj.mp e)
          refine ⟨?_, ?_⟩
          · intro j hj
            rw [hkeep j (by omega), hrow.1 j hj]
            simp [List.getD_eq_getElem?_getD, List.getElem?_eq_getElem hj]
          · intro j hj1 hj2
            rw [hkeep j hj2]
            exact hrow.2.1 j hj1 hj2
        refine ⟨m + 1, by omega, ?_, ?_, ?_, ?_, ?_, ?_⟩
        · intro r h1 h2
          by_cases hr : r = b
          · subst hr
            refine ⟨fun e => (by rw [ht] at e; cases e), fun t' e => ?_⟩
            rw [ht] at e
            cases e
            exact ⟨P, hP, by omega, by omega, hb⟩
          · exact hlen r (by omega) (by omega)
        · intro k hk
          rw [hcells k (fun r j h1 h2 => hk r j (by omega) (by omega))]
          rw [for_range_store_at_miss
            (fun j => to_int (to_int ((b : Int) * max_len) + (j : Int)))
            (fun _ => core.cfg.pad_id) k _ _ _
            (fun j _ h2 => hk b j (Nat.le_refl _) (by omega) hne (by omega))]
          exact for_range_store_at_miss
            (fun j => to_int (to_int ((b : Int) * max_len) + (j : Int)))
            (fun j => (truncated_ids core P add_eos).getD j 0) k _ _ _
            (fun j _ h2 => hk b j (Nat.le_refl _) (by omega) hne (by omega))
        · intro r hr
          rw [hlens r (by omega)]
          exact store_other _ _ _ _ (by omega)
        · intro hc
          obtain ⟨h1, h2, h3, h4⟩ := hok hc
          have hge : g ≤ code ∧ ((truncated_ids core P add_eos).length : Int) ≤ code := by
            split at h2 <;> omega
          refine ⟨by omega, hge.1, ?_, ?_⟩
          · intro r hr1 hr2
            by_cases hr : r = b
            · subst hr
              omega
            · exact h3 r (by omega) (by omega)
          · rcases h4 with h4 | ⟨r, hr1, hr2, hr3⟩
            · split at h4
              · exact Or.inr ⟨b, Nat.le_refl _, by omega, by omega⟩
              · exact Or.inl h4
            · exact Or.inr ⟨r, by omega, by omega, hr3⟩
        · intro hc
          obtain ⟨h1, h2⟩ := herr hc
          refine ⟨by omega, ?_⟩
          have e : b + (m + 1) = b + 1 + m := by omega
          rw [e]
          exact h2
        · intro hfit r t' P' h1 h2 hrt hP'
          by_cases hr : r = b
          · subst hr
            rw [ht] at hrt
            cases hrt
            rw [hP] at hP'
            cases hP'
            exact hrowb hfit
          · exact hhit (by rw [hcast]; exact hfit) r t' P' (by omega) (by omega) hrt hP'

/-- What the row loop has done when it returns, for a batch whose cells an `int` can
index: it has written the first `m` of its rows, touched nothing else, and either ran
through all rows and returns the largest length, or stopped at row `b + m`, which
fails. -/
theorem encode_batch_rows_post (core : MarianCore) (texts : Nat → Option String)
    (max_len add_eos : Int) (hL : 0 < max_len) :
    ∀ (n b : Nat) (g : Int) (ids lens : Nat → Int) (code : Int) (ids' lens' : Nat → Int),
      0 ≤ g → ((b + n : Nat) : Int) * max_len ≤ 2 ^ 31 →
      encode_batch_rows core texts max_len add_eos n b g ids lens
          = .returned code (ids', lens') →
      ∃ m, m ≤ n ∧
        (∀ r, b ≤ r → r < b + m → row_done core texts max_len add_eos ids' lens' r) ∧
        (∀ k, (∀ r j, b ≤ r → r < b + m → texts r ≠ none → j < max_len.toNat →
            k ≠ r * max_len.toNat + j) → ids' k = ids k) ∧
        (∀ r, (r < b ∨ b + m ≤ r) → lens' r = lens r) ∧
        (0 ≤ code → m = n ∧ g ≤ code ∧ (∀ r, b ≤ r → r < b + n → lens' r ≤ code) ∧
          (code = g ∨ ∃ r, b ≤ r ∧ r < b + n ∧ lens' r = code)) ∧
        (code < 0 → m < n ∧ row_fails core texts max_len add_eos (b + m) code) := by
  intro n b g ids lens code ids' lens' hg hfit h
  obtain ⟨m, hm, hlen, hcells, hlens, hok, herr, hhit⟩ :=
    encode_batch_rows_inv core texts max_len add_eos hL n b g ids lens code ids' lens' hg h
  refine ⟨m, hm, ?_, ?_, hlens, hok, herr⟩
  · intro r h1 h2
    obtain ⟨hnull, htext⟩ := hlen r h1 h2
    refine ⟨hnull, fun t ht => ?_⟩
    obtain ⟨P, hP, hmml, hle, hlr⟩ := htext t ht
    obtain ⟨hids, hpad⟩ := hhit hfit r t P h1 h2 ht hP
    exact ⟨P, hP, hmml, hle, hlr, hids, hpad⟩
  · intro k hk
    refine hcells k (fun r j h1 h2 hne hj e => ?_)
    rw [to_int_row_index r j max_len hj
      (row_fits r (b + n) max_len (by omega) (by omega) hfit)] at e
    exact hk r j h1 h2 hne (by omega) (Int.ofNat_inj.mp e).symm

/-- A call of `marian_tok_encode_batch` on valid arguments returns what its row loop
returns. -/
theorem marian_tok_encode_batch_rows (core : MarianCore) (texts : Nat → Option String)
    (batch_size max_len : Int) (ids lens : Nat → Int) (add_eos code : Int)
    (mem : Option (Nat → Int) × Option (Nat → Int))
    (hb : 0 < batch_size) (hL : 0 < max_len)
    (hret : marian_tok_encode_batch (some core) (some texts) batch_size max_len (some ids)
      (some lens) add_eos = .returned code mem) :
    ∃ ids' lens', mem = (some ids', some lens') ∧
      encode_batch_rows core texts max_len add_eos batch_size.toNat 0 0 ids lens
        = .returned code (ids', lens') := by
  unfold marian_tok_encode_batch at hret
  simp only [not_le.mpr hb, not_le.mpr hL, or_self, if_false] at hret
  split at hret
  · rename_i c i l e
    cases hret
    exact ⟨i, l, rfl, e⟩
  · cases hret

/-- A call of `marian_tok_encode_batch` that does not return -1 was given valid
arguments. -/
theorem marian_tok_encode_batch_valid (core : MarianCore) (texts : Nat → Option String)
    (batch_size max_len : Int) (ids lens : Nat → Int) (add_eos code : Int)
    (mem : Option (Nat → Int) × Option (Nat → Int))
    (hret : marian_tok_encode_batch (some core) (some texts) batch_size max_len (some ids)
      (some lens) add_eos = .returned code mem)
    (hcode : code ≠ -1) : 0 < batch_size ∧ 0 < max_len := by
  by_contra hc
  have : batch_size ≤ 0 ∨ max_len ≤ 0 := by omega
  simp only [marian_tok_encode_batch, this, if_true, Outcome.returned.injEq] at hret
  exact hcode hret.1.symm

/-- The single-sequence call on the text of a row that the row loop has written. -/
theorem encode_of_row_done (core : MarianCore) (t : String) (P : List String)
    (max_len add_eos : Int) (buf : Nat → Int) (hL : 0 < max_len)
    (hP : core.sp_source.Encode t = some P) (hm : 0 ≤ core.cfg.model_max_length)
    (hfit : ((truncated_ids core P add_eos).length : Int) ≤ max_len) :
    ∃ out, marian_tok_encode (some core) (some t) (some buf) max_len add_eos
        = .returned ((truncated_ids core P add_eos).length : Int) (some out) ∧
      ∀ j (h : j < (truncated_ids core P add_eos).length),
        out j = (truncated_ids core P add_eos)[j] := by
  rw [marian_tok_encode_eq core t P buf max_len add_eos hL hP]
  rw [if_neg (by omega)]
  unfold truncated_ids at hfit ⊢
  rw [if_neg (by omega)]
  exact ⟨_, rfl, (copy_loop_cells _ buf).1⟩

/-- A call of `marian_tok_encode_batch` that succeeds was given non-null arguments. -/
theorem marian_tok_encode_batch_success_args (handle : Option MarianCore)
    (texts : Option (Nat → Option String)) (batch_size max_len : Int)
    (out_ids out_seq_lens : Option (Nat → Int)) (add_eos code : Int)
    (mem : Option (Nat → Int) × Option (Nat → Int))
    (hret : marian_tok_encode_batch handle texts batch_size max_len out_ids out_seq_lens
      add_eos = .returned code mem)
    (hcode : 0 ≤ code) :
    ∃ core txt ids lens, handle = some core ∧ texts = some txt ∧ out_ids = some ids ∧
      out_seq_lens = some lens := by
  cases handle with
  | none => simp [marian_tok_encode_batch] at hret; omega
  | some core =>
  cases texts with
  | none => simp [marian_tok_encode_batch] at hret; omega
  | some txt =>
  cases out_ids with
  | none => simp [marian_tok_encode_batch] at hret; omega
  | some ids =>
  cases out_seq_lens with
  | none => simp [marian_tok_encode_batch] at hret; omega
  | some lens => exact ⟨core, txt, ids, lens, rfl, rfl, rfl, rfl⟩

/-- What a successful call of `marian_tok_encode_batch` leaves behind, whatever the size
of the batch: the length of every row, the largest of them as code, and every cell of
`out_ids` that no `int` index of a row with text addresses as it was. -/
theorem marian_tok_encode_batch_success_lens (handle : Option MarianCore)
    (texts : Option (Nat → Option String)) (batch_size max_len : Int)
    (out_ids out_seq_lens : Option (Nat → Int)) (add_eos code : Int)
    (mem : Option (Nat → Int) × Option (Nat → Int))
    (hret : marian_tok_encode_batch handle texts batch_size max_len out_ids out_seq_lens
      add_eos = .returned code mem)
    (hcode : 0 ≤ code) :
    ∃ (core : MarianCore) (txt : Nat → Option String) (ids ids' lens' : Nat → Int),
      handle = some core ∧ texts = some txt ∧ out_ids = some ids ∧
      mem = (some ids', some lens') ∧ 0 < batch_size ∧ 0 < max_len ∧
      (∀ b : Nat, (b : Int) < batch_size → row_len core txt max_len add_eos lens' b) ∧
      (∀ b : Nat, (b : Int) < batch_size → lens' b ≤ code) ∧
      (code = 0 ∨ ∃ b : Nat, (b : Int) < batch_size ∧ lens' b = code) ∧
      ∀ k : Nat, (∀ r j : Nat, (r : Int) < batch_size → txt r ≠ none → (j : Int) < max_len →
          to_int (to_int ((r : Int) * max_len) + (j : Int)) ≠ (k : Int)) → ids' k = ids k := by
  obtain ⟨core, txt, ids, lens, rfl, rfl, rfl, rfl⟩ := marian_tok_encode_batch_success_args
    handle texts batch_size max_len out_ids out_seq_lens add_eos code mem hret hcode
  obtain ⟨hB, hL⟩ := marian_tok_encode_batch_valid core txt batch_size max_len ids lens
    add_eos code mem hret (by omega)
  obtain ⟨ids', lens', rfl, hrows⟩ := marian_tok_encode_batch_rows core txt batch_size
    max_len ids lens add_eos code _ hB hL hret
  have hbn : ∀ b : Nat, (b : Int) < batch_size → b < 0 + batch_size.toNat := by
    intro b hb
    omega
  obtain ⟨m, -, hlen, hcells, -, hok, -, -⟩ := encode_batch_rows_inv core txt max_len add_eos
    hL batch_size.toNat 0 0 ids lens code ids' lens' (Int.le_refl 0) hrows
  obtain ⟨hm, -, hle, hmax⟩ := hok hcode
  subst hm
  refine ⟨core, txt, ids, ids', lens', rfl, rfl, rfl, rfl, hB, hL,
    fun b hb => hlen b (Nat.zero_le _) (hbn b hb),
    fun b hb => hle b (Nat.zero_le _) (hbn b hb), ?_, ?_⟩
  · rcases hmax with h0 | ⟨r, -, hr, hrc⟩
    · exact Or.inl h0
    · exact Or.inr ⟨r, by omega, hrc⟩
  · intro k hk
    exact hcells k (fun r j _ hr hne hj => hk r j (by omega) hne hj)

/-- What a successful call of `marian_tok_encode_batch` leaves behind when an `int` can
index the cells of the batch: every row of the batch is written, and the code is the
largest length. -/
theorem marian_tok_encode_batch_success (handle : Option MarianCore)
    (texts : Option (Nat → Option String)) (batch_size max_len : Int)
    (out_ids out_seq_lens : Option (Nat → Int)) (add_eos code : Int)
    (mem : Option (Nat → Int) × Option (Nat → Int))
    (hret : marian_tok_encode_batch handle texts batch_size max_len out_ids out_seq_lens
      add_eos = .returned code mem)
    (hcode : 0 ≤ code) (hfit : batch_size * max_len ≤ 2 ^ 31) :
    ∃ (core : MarianCore) (txt : Nat → Option String) (ids' lens' : Nat → Int),
      handle = some core ∧ texts = some txt ∧ mem = (some ids', some lens') ∧
      0 < batch_size ∧ 0 < max_len ∧
      (∀ b : Nat, (b : Int) < batch_size → row_done core txt max_len add_eos ids' lens' b) ∧
      (∀ b : Nat, (b : Int) < batch_size → lens' b ≤ code) ∧
      (code = 0 ∨ ∃ b : Nat, (b : Int) < batch_size ∧ lens' b = code) := by
  obtain ⟨core, txt, ids, lens, rfl, rfl, rfl, rfl⟩ := marian_tok_encode_batch_success_args
    handle texts batch_size max_len out_ids out_seq_lens add_eos code mem hret hcode
  obtain ⟨hB, hL⟩ := marian_tok_encode_batch_valid core txt batch_size max_len ids lens
    add_eos code mem hret (by omega)
  obtain ⟨ids', lens', rfl, hrows⟩ := marian_tok_encode_batch_rows core txt batch_size
    max_len ids lens add_eos code _ hB hL hret
  have hbn : ∀ b : Nat, (b : Int) < batch_size → b < 0 + batch_size.toNat := by
    intro b hb
    omega
  obtain ⟨m, -, hdone, -, -, hok, -⟩ := encode_batch_rows_post core txt max_len add_eos hL
    batch_size.toNat 0 0 ids lens code ids' lens' (Int.le_refl 0)
    (batch_fits batch_size max_len hB hfit) hrows
  obtain ⟨hm, -, hle, hmax⟩ := hok hcode
  subst hm
  refine ⟨core, txt, ids', lens', rfl, rfl, rfl, hB, hL,
    fun b hb => hdone b (Nat.zero_le _) (hbn b hb),
    fun b hb => hle b (Nat.zero_le _) (hbn b hb), ?_⟩
  rcases hmax with h0 | ⟨r, -, hr, hrc⟩
  · exact Or.inl h0
  · exact Or.inr ⟨r, by omega, hrc⟩

/-- The row loop returns a count when every text it meets is segmented and its truncated
sequence fits the stride. -/
theorem encode_batch_rows_runs (core : MarianCore) (texts : Nat → Option String)
    (max_len add_eos : Int)
    (hrows : ∀ r t, texts r = some t →
      ∃ P, core.sp_source.Encode t = some P ∧ 0 ≤ core.cfg.model_max_length ∧
        ((truncated_ids core P add_eos).length : Int) ≤ max_len) :
    ∀ (n b : Nat) (g : Int) (ids lens : Nat → Int), 0 ≤ g →
      ∃ code ids' lens', 0 ≤ code ∧
        encode_batch_rows core texts max_len add_eos n b g ids lens
          = .returned code (ids', lens') := by
  intro n
  induction n with
  | zero =>
    intro b g ids lens hg
    exact ⟨g, ids, lens, hg, rfl⟩
  | succ n ih =>
    intro b g ids lens hg
    cases ht : texts b with
    | none =>
      rw [encode_batch_rows_null core texts max_len add_eos n b g ids lens ht]
      exact ih (b + 1) g ids _ hg
    | some t =>
      obtain ⟨P, hP, hmml, hle⟩ := hrows b t ht
      rw [encode_batch_rows_text core texts max_len add_eos n b g ids lens t P ht hP
        (truncated_ids core P add_eos) rfl, if_neg (by omega), if_neg (by omega)]
      exact ih (b + 1) _ _ _ (by split <;> omega)

/-- A call of `marian_tok_encode_batch` on valid arguments returns a count when every text
is segmented and its truncated sequence fits the stride. -/
theorem marian_tok_encode_batch_runs (core : MarianCore) (texts : Nat → Option String)
    (batch_size max_len : Int) (ids lens : Nat → Int) (add_eos : Int)
    (hB : 0 < batch_size) (hL : 0 < max_len)
    (hrows : ∀ r t, texts r = some t →
      ∃ P, core.sp_source.Encode t = some P ∧ 0 ≤ core.cfg.model_max_length ∧
        ((truncated_ids core P add_eos).length : Int) ≤ max_len) :
    ∃ code ids' lens', 0 ≤ code ∧
      marian_tok_encode_batch (some core) (some texts) batch_size max_len (some ids)
        (some lens) add_eos = .returned code (some ids', some lens') := by
  obtain ⟨code, ids', lens', hc, h⟩ := encode_batch_rows_runs core texts max_len add_eos hrows
    batch_size.toNat 0 0 ids lens (Int.le_refl 0)
  refine ⟨code, ids', lens', hc, ?_⟩
  simp only [marian_tok_encode_batch, not_le.mpr hB, not_le.mpr hL, or_self, if_false, h]

/-- The batch of 65537 texts `"hello"` with `max_len = 32768` and `add_eos = 1`, which has
`2^31 + 32768` cells: the call returns 2, every row has the length 2, and the cells of row
65536, whose `row_offset` wraps to `-2^31`, are as the caller left them. -/
theorem demo_batch_past_int_range :
    ∃ ids' lens',
      marian_tok_encode_batch (some (demo_core 512)) (some demo_texts_hello) 65537 32768
        (some demo_cells) (some demo_cells) 1 = .returned 2 (some ids', some lens') ∧
      (∀ b : Nat, (b : Int) < 65537 → lens' b = 2) ∧
      ∀ j : Nat, j < 32768 → ids' (65536 * 32768 + j) = demo_cells (65536 * 32768 + j) := by
  have hE : (demo_core 512).sp_source.Encode "hello" = some ["hello"] := rfl
  have hrows : ∀ (r : Nat) (t : String), demo_texts_hello r = some t →
      ∃ P, (demo_core 512).sp_source.Encode t = some P ∧
        0 ≤ (demo_core 512).cfg.model_max_length ∧
        ((truncated_ids (demo_core 512) P 1).length : Int) ≤ 32768 := by
    intro r t ht
    cases ht
    exact ⟨["hello"], hE, by decide, by decide⟩
  obtain ⟨code, ids', lens', hc, hcall⟩ := marian_tok_encode_batch_runs (demo_core 512)
    demo_texts_hello 65537 32768 demo_cells demo_cells 1 (by decide) (by decide) hrows
  obtain ⟨core, txt, ids, ids1, lens1, h1, h2, h3, h4, -, -, hlen, hle, hmax, hframe⟩ :=
    marian_tok_encode_batch_success_lens _ _ _ _ _ _ _ _ _ hcall hc
  cases h1
  cases h2
  cases h3
  cases h4
  have hrow : ∀ b : Nat, (b : Int) < 65537 → lens' b = 2 := by
    intro b hb
    obtain ⟨P, hP, -, -, hl⟩ := (hlen b hb).2 "hello" rfl
    rw [hE] at hP
    cases hP
    exact hl
  have hcode : code = 2 := by
    rcases hmax with h0 | ⟨b, hb, hbc⟩
    · have h5 := hle 0 (by decide)
      rw [hrow 0 (by decide)] at h5
      omega
    · rw [← hbc, hrow b hb]
  subst hcode
  refine ⟨ids', lens', hcall, hrow, ?_⟩
  intro j hj
  refine hframe _ (fun r j' hr _ hj' e => ?_)
  unfold to_int at e
  push_cast at e
  omega

/-! ## Claims on `marian_tok_encode_batch` -/

/-- C5 fails for a batch with more cells than an `int` can index. With 65537 texts
`"hello"`, `max_len = 32768` and `add_eos = 1` the call succeeds and returns 2, and row
65536 has the length 2 of the single call on `"hello"`, which writes the ids `[2, 0]`; but
`row_offset = 65536 * 32768` is `2^31`, which wraps to `-2^31` in `int`, the stores of the
row go through negative indices, and `out_ids[65536 * 32768 + j]` still holds the caller's
value for every `j < max_len`: neither the ids nor `pad_id = 4` are there. -/
theorem encode_batch_row_past_int_range :
    ∃ ids' lens',
      marian_tok_encode_batch (some (demo_core 512)) (some demo_texts_hello) 65537 32768
        (some demo_cells) (some demo_cells) 1 = .returned 2 (some ids', some lens') ∧
      marian_tok_encode (some (demo_core 512)) (some "hello") (some demo_cells) 32768 1
        = .returned 2 (some (store (store demo_cells 0 2) 1 0)) ∧
      lens' 65536 = 2 ∧ to_int (65536 * 32768) = -2147483648 ∧
      (∀ j : Nat, j < 32768 → ids' (65536 * 32768 + j) = demo_cells (65536 * 32768 + j)) ∧
      ids' (65536 * 32768) = -2147483649 ∧ ids' (65536 * 32768 + 2) = -2147483651 ∧
      (demo_core 512).cfg.pad_id = 4 := by
  obtain ⟨ids', lens', hcall, hlen, hframe⟩ := demo_batch_past_int_range
  refine ⟨ids', lens', hcall, rfl, hlen 65536 (by decide), by decide, hframe, ?_, ?_, rfl⟩
  · rw [hframe 0 (by decide)]
    decide
  · rw [hframe 2 (by decide)]
    decide

/-- The rows of a batch whose cells an `int` can index, `batch_size * max_len <= 2^31`:
for every successful `marian_tok_encode_batch` call and every row `b` whose text is
non-null, `out_seq_lens[b]` is the count `n` that `marian_tok_encode` returns for the same
text and `add_eos` flag with capacity `max_len`, `out_ids[b*max_len + j]` is the `j`-th id
that call writes for every `j < n`, and it is `pad_id` for every `n <= j < max_len`. -/
theorem encode_batch_row_eq_encode (handle : Option MarianCore)
    (texts : Option (Nat → Option String)) (batch_size max_len : Int)
    (out_ids out_seq_lens : Option (Nat → Int)) (add_eos code : Int)
    (mem : Option (Nat → Int) × Option (Nat → Int))
    (hret : marian_tok_encode_batch handle texts batch_size max_len out_ids out_seq_lens
      add_eos = .returned code mem)
    (hcode : 0 ≤ code) (hfit : batch_size * max_len ≤ 2 ^ 31) :
    ∃ (core : MarianCore) (txt : Nat → Option String) (ids' lens' : Nat → Int),
      handle = some core ∧ texts = some txt ∧ mem = (some ids', some lens') ∧
      ∀ (b : Nat) (t : String), (b : Int) < batch_size → txt b = some t →
        ∀ buf : Nat → Int, ∃ (n : Nat) (out : Nat → Int),
          marian_tok_encode handle (some t) (some buf) max_len add_eos
            = .returned (n : Int) (some out) ∧
          lens' b = (n : Int) ∧
          (∀ j : Nat, j < n → ids' ((b : Int) * max_len + (j : Int)).toNat = out j) ∧
          ∀ j : Nat, n ≤ j → (j : Int) < max_len →
            ids' ((b : Int) * max_len + (j : Int)).toNat = core.cfg.pad_id := by
  obtain ⟨core, txt, ids', lens', rfl, rfl, rfl, -, hL, hdone, -, -⟩ :=
    marian_tok_encode_batch_success handle texts batch_size max_len out_ids out_seq_lens
      add_eos code mem hret hcode hfit
  refine ⟨core, txt, ids', lens', rfl, rfl, rfl, ?_⟩
  intro b t hb ht buf
  obtain ⟨P, hP, hmml, hfit, hlen, hcells, hpad⟩ := (hdone b hb).2 t ht
  obtain ⟨out, hcall, hout⟩ := encode_of_row_done core t P max_len add_eos buf hL hP hmml hfit
  refine ⟨(truncated_ids core P add_eos).length, out, hcall, hlen, ?_, ?_⟩
  · intro j hj
    rw [row_index b j max_len (by omega), hcells j hj, hout j hj]
  · intro j hj1 hj2
    rw [row_index b j max_len (by omega)]
    exact hpad j hj1 (by omega)

/-- Row 2 of `["hello", null, "world"]` against the single call on `"world"`: both give
the ids `[3, 0]`. -/
theorem encode_batch_row_eq_encode_witness :
    marian_tok_encode (some (demo_core 512)) (some "world") (some demo_cells) 8 1
      = .returned 2 (some (store (store demo_cells 0 3) 1 0)) ∧
    ∃ mem,
      marian_tok_encode_batch (some (demo_core 512)) (some demo_texts) 3 8
        (some demo_cells) (some demo_cells) 1 = .returned 2 mem ∧
      (0 : Int) ≤ 2 ∧ (3 : Int) * 8 ≤ 2 ^ 31 ∧
      ∃ (core : MarianCore) (txt : Nat → Option String) (ids' lens' : Nat → Int),
        some (demo_core 512) = some core ∧ some demo_texts = some txt ∧
        mem = (some ids', some lens') ∧
        ∀ (b : Nat) (t : String), (b : Int) < 3 → txt b = some t →
          ∀ buf : Nat → Int, ∃ (n : Nat) (out : Nat → Int),
            marian_tok_encode (some (demo_core 512)) (some t) (some buf) 8 1
              = .returned (n : Int) (some out) ∧
            lens' b = (n : Int) ∧
            (∀ j : Nat, j < n → ids' ((b : Int) * 8 + (j : Int)).toNat = out j) ∧
            ∀ j : Nat, n ≤ j → (j : Int) < 8 →
              ids' ((b : Int) * 8 + (j : Int)).toNat = core.cfg.pad_id :=
  ⟨rfl, _, rfl, by decide, by decide,
    encode_batch_row_eq_encode (some (demo_core 512)) (some demo_texts) 3 8 (some demo_cells)
      (some demo_cells) 1 2 _ rfl (by decide) (by decide)⟩

/-- C7 fails at the claim's own input, `texts = ["hello", null, "world"]`, `max_len = 8`,
`add_eos = 1`: the call succeeds, row 1 has length 0, and its first cell still holds the
caller's value -9, not `pad_id = 4`. -/
theorem batch_leaves_null_row_unpadded :
    ∃ ids' lens',
      marian_tok_encode_batch (some (demo_core 512)) (some demo_texts) 3 8 (some demo_cells)
        (some demo_cells) 1 = .returned 2 (some ids', some lens') ∧
      demo_texts 1 = none ∧ lens' 1 = 0 ∧
      ids' ((1 : Int) * 8 + 0).toNat = -9 ∧ (demo_core 512).cfg.pad_id = 4 :=
  ⟨_, _, rfl, rfl, rfl, rfl, rfl⟩

/-- C7, amended: for every successful `marian_tok_encode_batch` call on a batch whose
cells an `int` can index, `batch_size * max_len <= 2^31`, every row of `out_ids` whose text
is non-null is right-padded with `pad_id` out to `max_len`: for every such row `b` and
every position `j` with `out_seq_lens[b] <= j < max_len`, `out_ids[b*max_len + j]` equals
`pad_id`. -/
theorem encode_batch_text_rows_padded (handle : Option MarianCore)
    (texts : Option (Nat → Option String)) (batch_size max_len : Int)
    (out_ids out_seq_lens : Option (Nat → Int)) (add_eos code : Int)
    (mem : Option (Nat → Int) × Option (Nat → Int))
    (hret : marian_tok_encode_batch handle texts batch_size max_len out_ids out_seq_lens
      add_eos = .returned code mem)
    (hcode : 0 ≤ code) (hfit : batch_size * max_len ≤ 2 ^ 31) :
    ∃ (core : MarianCore) (txt : Nat → Option String) (ids' lens' : Nat → Int),
      handle = some core ∧ texts = some txt ∧ mem = (some ids', some lens') ∧
      ∀ b : Nat, (b : Int) < batch_size → txt b ≠ none →
        ∀ j : Nat, lens' b ≤ (j : Int) → (j : Int) < max_len →
          ids' ((b : Int) * max_len + (j : Int)).toNat = core.cfg.pad_id := by
  obtain ⟨core, txt, ids', lens', rfl, rfl, rfl, -, hL, hdone, -, -⟩ :=
    marian_tok_encode_batch_success handle texts batch_size max_len out_ids out_seq_lens
      add_eos code mem hret hcode hfit
  refine ⟨core, txt, ids', lens', rfl, rfl, rfl, ?_⟩
  intro b hb ht j hj1 hj2
  cases htb : txt b with
  | none => exact absurd htb ht
  | some t =>
    obtain ⟨P, -, -, -, hlen, -, hpad⟩ := (hdone b hb).2 t htb
    rw [row_index b j max_len (by omega)]
    exact hpad j (by omega) (by omega)

/-- Witness of the amended C7, at the claim's input. -/
theorem encode_batch_text_rows_padded_witness :
    ∃ mem,
      marian_tok_encode_batch (some (demo_core 512)) (some demo_texts) 3 8
        (some demo_cells) (some demo_cells) 1 = .returned 2 mem ∧
      (0 : Int) ≤ 2 ∧ (3 : Int) * 8 ≤ 2 ^ 31 ∧
      ∃ (core : MarianCore) (txt : Nat → Option String) (ids' lens' : Nat → Int),
        some (demo_core 512) = some core ∧ some demo_texts = some txt ∧
        mem = (some ids', some lens') ∧
        ∀ b : Nat, (b : Int) < 3 → txt b ≠ none →
          ∀ j : Nat, lens' b ≤ (j : Int) → (j : Int) < 8 →
            ids' ((b : Int) * 8 + (j : Int)).toNat = core.cfg.pad_id :=
  ⟨_, rfl, by decide, by decide,
    encode_batch_text_rows_padded (some (demo_core 512)) (some demo_texts) 3 8
      (some demo_cells) (some demo_cells) 1 2 _ rfl (by decide) (by decide)⟩

/-- C8 fails when a row before the null row makes the call fail: with
`texts = ["hello", "?", null]` the arguments are valid, the call returns -2 at row 1, and
`out_seq_lens[2]` still holds the caller's value -3, not 0. -/
theorem batch_skips_len_of_null_row_after_failure :
    ∃ ids' lens',
      marian_tok_encode_batch (some (demo_core 512)) (some demo_texts_rejected) 3 8
        (some demo_cells) (some demo_cells) 1 = .returned (-2) (some ids', some lens') ∧
      demo_texts_rejected 2 = none ∧ lens' 2 = -3 :=
  ⟨_, _, rfl, rfl, rfl⟩

/-- C8, amended: for every `marian_tok_encode_batch` call with valid arguments that
returns, on a batch whose cells an `int` can index, `batch_size * max_len <= 2^31`, and
every row `b` whose text is null, every slot `out_ids[b*max_len .. b*max_len + max_len)`
keeps the value the caller had stored there; `out_seq_lens[b]` is set to 0 when the call
succeeds, and more generally whenever no row before `b` makes the call fail. -/
theorem encode_batch_null_row (core : MarianCore) (texts : Nat → Option String)
    (batch_size max_len : Int) (ids lens : Nat → Int) (add_eos code : Int)
    (mem : Option (Nat → Int) × Option (Nat → Int))
    (hB : 0 < batch_size) (hL : 0 < max_len) (hfit : batch_size * max_len ≤ 2 ^ 31)
    (hret : marian_tok_encode_batch (some core) (some texts) batch_size max_len (some ids)
      (some lens) add_eos = .returned code mem)
    (b : Nat) (hb : (b : Int) < batch_size) (ht : texts b = none) :
    ∃ ids' lens', mem = (some ids', some lens') ∧
      (∀ j : Nat, (j : Int) < max_len →
        ids' ((b : Int) * max_len + (j : Int)).toNat
          = ids ((b : Int) * max_len + (j : Int)).toNat) ∧
      ((0 ≤ code ∨ ∀ r, r < b → ∀ c, ¬ row_fails core texts max_len add_eos r c) →
        lens' b = 0) := by
  obtain ⟨ids', lens', rfl, hrows⟩ := marian_tok_encode_batch_rows core texts batch_size
    max_len ids lens add_eos code _ hB hL hret
  have hbn : b < 0 + batch_size.toNat := by omega
  obtain ⟨m, hmn, hdone, hcells, -, hok, herr⟩ := encode_batch_rows_post core texts max_len
    add_eos hL batch_size.toNat 0 0 ids lens code ids' lens' (Int.le_refl 0)
    (batch_fits batch_size max_len hB hfit) hrows
  refine ⟨ids', lens', rfl, ?_, ?_⟩
  · intro j hj
    rw [row_index b j max_len (by omega)]
    exact hcells _ (fun r j' _ _ hr hj' =>
      row_cell_ne _ _ _ _ _ (by omega) hj' (fun e => hr (by rw [← e]; exact ht)))
  · intro h
    by_cases hc : 0 ≤ code
    · obtain ⟨hm, -⟩ := hok hc
      subst hm
      exact (hdone b (Nat.zero_le _) hbn).1 ht
    · obtain ⟨-, hfail⟩ := herr (by omega)
      rcases h with h | h
      · exact absurd h hc
      · have hmb : b < 0 + m := by
          by_contra hlt
          rcases Nat.lt_or_ge m b with h1 | h1
          · exact h m h1 code (by simpa using hfail)
          · have hm : 0 + m = b := by omega
            rw [hm] at hfail
            obtain ⟨t, ht', -⟩ := hfail
            rw [ht] at ht'
            cases ht'
        exact (hdone b (Nat.zero_le _) hmb).1 ht

/-- Witness of the amended C8: row 1 of `["hello", null, "world"]`. -/
theorem encode_batch_null_row_witness :
    ∃ mem,
      (0 : Int) < 3 ∧ (0 : Int) < 8 ∧ (3 : Int) * 8 ≤ 2 ^ 31 ∧
      marian_tok_encode_batch (some (demo_core 512)) (some demo_texts) 3 8
        (some demo_cells) (some demo_cells) 1 = .returned 2 mem ∧
      ((1 : Nat) : Int) < 3 ∧ demo_texts 1 = none ∧
      ∃ ids' lens', mem = (some ids', some lens') ∧
        (∀ j : Nat, (j : Int) < 8 →
          ids' (((1 : Nat) : Int) * 8 + (j : Int)).toNat
            = demo_cells (((1 : Nat) : Int) * 8 + (j : Int)).toNat) ∧
        (((0 : Int) ≤ 2 ∨
            ∀ r, r < 1 → ∀ c, ¬ row_fails (demo_core 512) demo_texts 8 1 r c) →
          lens' 1 = 0) :=
  ⟨_, by decide, by decide, by decide, rfl, by decide, rfl,
    encode_batch_null_row (demo_core 512) demo_texts 3 8 demo_cells demo_cells 1 2 _
      (by decide) (by decide) (by decide) rfl 1 (by decide) rfl⟩


/-- C9 fails when a row after a valid row makes the call fail: with
`texts = ["hello", "?", null]` the call returns the error -2 at row 1, and row 0 has been
written: `out_ids[0]` holds the id 2 instead of the caller's -1, and `out_seq_lens[0]`
holds 2 instead of the caller's -1. -/
theorem batch_error_after_written_row :
    ∃ ids' lens',
      marian_tok_encode_batch (some (demo_core 512)) (some demo_texts_rejected) 3 8
        (some demo_cells) (some demo_cells) 1 = .returned (-2) (some ids', some lens') ∧
      ids' 0 = 2 ∧ demo_cells 0 = -1 ∧ lens' 0 = 2 :=
  ⟨_, _, rfl, rfl, rfl, rfl⟩

/-- C9, amended: for every `marian_tok_encode_batch` call that returns an error code, on
a batch whose cells an `int` can index, `batch_size * max_len <= 2^31`, either the code is
-1 (invalid argument) and the caller's `out_ids` and `out_seq_lens` are exactly as before
the call, or the arguments are valid and the code is that of the first failing row `k` (-2
for a segmentation failure, -3 for a row longer than `max_len`): then the cells of row `k`
and of every later row of `out_ids`, the entries of `out_seq_lens` from `k` on, and the
cells of the rows before `k` without text are exactly as before the call, while the rows
before `k` have been written as in a successful call. -/
theorem encode_batch_error_keeps_rest (handle : Option MarianCore)
    (texts : Option (Nat → Option String)) (batch_size max_len : Int)
    (out_ids out_seq_lens : Option (Nat → Int)) (add_eos code : Int)
    (mem : Option (Nat → Int) × Option (Nat → Int))
    (hret : marian_tok_encode_batch handle texts batch_size max_len out_ids out_seq_lens
      add_eos = .returned code mem)
    (hcode : code < 0) (hfit : batch_size * max_len ≤ 2 ^ 31) :
    (code = -1 ∧ mem = (out_ids, out_seq_lens)) ∨
    ∃ (core : MarianCore) (txt : Nat → Option String) (ids lens ids' lens' : Nat → Int)
        (k : Nat),
      handle = some core ∧ texts = some txt ∧ out_ids = some ids ∧ out_seq_lens = some lens ∧
      mem = (some ids', some lens') ∧ 0 < batch_size ∧ 0 < max_len ∧
      (k : Int) < batch_size ∧ row_fails core txt max_len add_eos k code ∧
      (∀ r, r < k → row_done core txt max_len add_eos ids' lens' r) ∧
      (∀ i, k * max_len.toNat ≤ i → ids' i = ids i) ∧
      (∀ r, k ≤ r → lens' r = lens r) ∧
      ∀ r, r < k → txt r = none → ∀ j : Nat, (j : Int) < max_len →
        ids' ((r : Int) * max_len + (j : Int)).toNat
          = ids ((r : Int) * max_len + (j : Int)).toNat := by
  by_cases hinv : code = -1
  · left
    refine ⟨hinv, ?_⟩
    subst hinv
    unfold marian_tok_encode_batch at hret
    split at hret
    · rename_i core txt ids lens
      split at hret
      · cases hret
        rfl
      · rename_i hvalid
        have hB : 0 < batch_size := by omega
        have hL : 0 < max_len := by omega
        split at hret
        · rename_i c i l e
          simp only [Outcome.returned.injEq] at hret
          obtain ⟨hc, -⟩ := hret
          subst hc
          obtain ⟨m, -, -, -, -, -, herr, -⟩ := encode_batch_rows_inv core txt max_len
            add_eos hL batch_size.toNat 0 0 ids lens (-1) i l (Int.le_refl 0) e
          obtain ⟨-, t, -, hf⟩ := herr (by decide)
          rcases hf with ⟨-, h⟩ | ⟨P, -, -, -, h⟩ <;> cases h
        · cases hret
    · cases hret
      rfl
  · right
    cases handle with
    | none => simp [marian_tok_encode_batch] at hret; exact absurd hret.1.symm hinv
    | some core =>
    cases texts with
    | none => simp [marian_tok_encode_batch] at hret; exact absurd hret.1.symm hinv
    | some txt =>
    cases out_ids with
    | none => simp [marian_tok_encode_batch] at hret; exact absurd hret.1.symm hinv
    | some ids =>
    cases out_seq_lens with
    | none => simp [marian_tok_encode_batch] at hret; exact absurd hret.1.symm hinv
    | some lens =>
    obtain ⟨hB, hL⟩ := marian_tok_encode_batch_valid core txt batch_size max_len ids lens
      add_eos code mem hret hinv
    obtain ⟨ids', lens', rfl, hrows⟩ := marian_tok_encode_batch_rows core txt batch_size
      max_len ids lens add_eos code _ hB hL hret
    obtain ⟨m, -, hdone, hcells, hlens, -, herr⟩ := encode_batch_rows_post core txt max_len
      add_eos hL batch_size.toNat 0 0 ids lens code ids' lens' (Int.le_refl 0)
      (batch_fits batch_size max_len hB hfit) hrows
    obtain ⟨hmn, hfail⟩ := herr hcode
    rw [Nat.zero_add] at hfail
    refine ⟨core, txt, ids, lens, ids', lens', m, rfl, rfl, rfl, rfl, rfl, hB, hL, by omega,
      hfail, ?_, ?_, ?_, ?_⟩
    · intro r hr
      exact hdone r (Nat.zero_le _) (by omega)
    · intro i hi
      refine hcells i (fun r j _ hr _ hj e => ?_)
      have := Nat.mul_le_mul_right max_len.toNat (Nat.succ_le_of_lt (show r < m by omega))
      rw [Nat.succ_mul] at this
      omega
    · intro r hr
      exact hlens r (Or.inr (by omega))
    · intro r hr ht j hj
      rw [row_index r j max_len (by omega)]
      exact hcells _ (fun r' j' _ _ hr' hj' =>
        row_cell_ne _ _ _ _ _ (by omega) hj' (fun e => hr' (by rw [← e]; exact ht)))

/-- Witness of the amended C9: `texts = ["hello", "?", null]` fails at row 1 with -2. -/
theorem encode_batch_error_keeps_rest_witness :
    ∃ mem,
      marian_tok_encode_batch (some (demo_core 512)) (some demo_texts_rejected) 3 8
        (some demo_cells) (some demo_cells) 1 = .returned (-2) mem ∧
      (-2 : Int) < 0 ∧ (3 : Int) * 8 ≤ 2 ^ 31 ∧
      (((-2 : Int) = -1 ∧ mem = (some demo_cells, some demo_cells)) ∨
      ∃ (core : MarianCore) (txt : Nat → Option String) (ids lens ids' lens' : Nat → Int)
          (k : Nat),
        some (demo_core 512) = some core ∧ some demo_texts_rejected = some txt ∧
        some demo_cells = some ids ∧ some demo_cells = some lens ∧
        mem = (some ids', some lens') ∧ (0 : Int) < 3 ∧ (0 : Int) < 8 ∧
        (k : Int) < 3 ∧ row_fails core txt 8 1 k (-2) ∧
        (∀ r, r < k → row_done core txt 8 1 ids' lens' r) ∧
        (∀ i, k * (8 : Int).toNat ≤ i → ids' i = ids i) ∧
        (∀ r, k ≤ r → lens' r = lens r) ∧
        ∀ r, r < k → txt r = none → ∀ j : Nat, (j : Int) < 8 →
          ids' ((r : Int) * 8 + (j : Int)).toNat = ids ((r : Int) * 8 + (j : Int)).toNat) :=
  ⟨_, rfl, by decide, by decide,
    encode_batch_error_keeps_rest (some (demo_core 512)) (some demo_texts_rejected) 3 8
      (some demo_cells) (some demo_cells) 1 (-2) _ rfl (by decide) (by decide)⟩


/-! ## Claims on `marian_tok_build_attention_mask` -/

/-- The row loop of `marian_tok_build_attention_mask`, whatever the size of the batch: it
stores only through the `int` indices of its rows. -/
theorem mask_rows_frame (seq_lens : Nat → Int) (max_len : Int) :
    ∀ (n b0 : Nat) (mask : Nat → Int) (k : Nat),
      (∀ r j : Nat, b0 ≤ r → r < b0 + n → (j : Int) < max_len →
        to_int (to_int ((r : Int) * max_len) + (j : Int)) ≠ (k : Int)) →
      for_range
        (fun b mask =>
          let len := seq_lens b
          let len := if len < 0 then 0 else len
          let len := if len > max_len then max_len else len
          let row_offset : Int := to_int (b * max_len)
          let mask := for_range (fun j mask => store_at mask (to_int (row_offset + j)) 1)
            len.toNat 0 mask
          for_range (fun j mask => store_at mask (to_int (row_offset + j)) 0)
            (max_len - len).toNat len.toNat mask)
        n b0 mask k = mask k := by
  intro n
  induction n with
  | zero => intro b0 mask k _; rfl
  | succ n ih =>
    intro b0 mask k hk
    simp only [for_range]
    rw [ih (b0 + 1) _ k (fun r j h1 h2 => hk r j (by omega) (by omega))]
    generalize hlen : (if (if seq_lens b0 < 0 then 0 else seq_lens b0) > max_len then max_len
      else (if seq_lens b0 < 0 then 0 else seq_lens b0)) = len
    have hlen0 : len ≤ max_len ∧ (0 ≤ len ∨ len = max_len) := by
      rw [← hlen]
      split <;> split <;> omega
    rw [for_range_store_at_miss
      (fun j => to_int (to_int ((b0 : Int) * max_len) + (j : Int))) (fun _ => 0) k _ _ _
      (fun j h1 h2 => hk b0 j (Nat.le_refl _) (by omega) (by omega))]
    exact for_range_store_at_miss
      (fun j => to_int (to_int ((b0 : Int) * max_len) + (j : Int))) (fun _ => 1) k _ _ _
      (fun j _ h2 => hk b0 j (Nat.le_refl _) (by omega) (by omega))

/-- The row loop of `marian_tok_build_attention_mask` on rows whose cells an `int` can
index: every row it runs over holds the mask of its clamped length, and no other cell is
touched. -/
theorem mask_rows_post (seq_lens : Nat → Int) (max_len : Int) (hL : 0 < max_len) :
    ∀ (n b0 : Nat) (mask : Nat → Int), ((b0 + n : Nat) : Int) * max_len ≤ 2 ^ 31 →
      (∀ r j, b0 ≤ r → r < b0 + n → j < max_len.toNat →
        for_range
          (fun b mask =>
            let len := seq_lens b
            let len := if len < 0 then 0 else len
            let len := if len > max_len then max_len else len
            let row_offset : Int := to_int (b * max_len)
            let mask := for_range (fun j mask => store_at mask (to_int (row_offset + j)) 1)
              len.toNat 0 mask
            for_range (fun j mask => store_at mask (to_int (row_offset + j)) 0)
              (max_len - len).toNat len.toNat mask)
          n b0 mask (r * max_len.toNat + j) = spec_mask (seq_lens r) max_len j) ∧
      ∀ k, (∀ r j, b0 ≤ r → r < b0 + n → j < max_len.toNat → k ≠ r * max_len.toNat + j) →
        for_range
          (fun b mask =>
            let len := seq_lens b
            let len := if len < 0 then 0 else len
            let len := if len > max_len then max_len else len
            let row_offset : Int := to_int (b * max_len)
            let mask := for_range (fun j mask => store_at mask (to_int (row_offset + j)) 1)
              len.toNat 0 mask
            for_range (fun j mask => store_at mask (to_int (row_offset + j)) 0)
              (max_len - len).toNat len.toNat mask)
          n b0 mask k = mask k := by
  intro n
  induction n with
  | zero =>
    intro b0 mask _
    exact ⟨fun r j h1 h2 => by omega, fun k _ => rfl⟩
  | succ n ih =>
    intro b0 mask hfit
    have hcast : ((b0 + 1 + n : Nat) : Int) = ((b0 + (n + 1) : Nat) : Int) := by
      push_cast
      ring
    have hfitb := row_fits b0 (b0 + (n + 1)) max_len (by omega) (by omega) hfit
    simp only [for_range]
    generalize hlen : (if (if seq_lens b0 < 0 then 0 else seq_lens b0) > max_len then max_len
      else (if seq_lens b0 < 0 then 0 else seq_lens b0)) = len
    have hlen0 : 0 ≤ len ∧ len ≤ max_len ∧ len = min (max (seq_lens b0) 0) max_len := by
      rw [← hlen]
      split <;> split <;> omega
    obtain ⟨c, hc⟩ := Int.eq_ofNat_of_zero_le hlen0.1
    have hrow := row_cells c (fun _ => 1) max_len (by omega) b0 0 mask
    rw [hc, Int.toNat_ofNat,
      row_loop_of_fit b0 max_len (fun _ => 1) hfitb c 0 (by omega) mask,
      row_loop_of_fit b0 max_len (fun _ => 0) hfitb (max_len - (c : Int)).toNat c (by omega)]
    obtain ⟨ih1, ih2⟩ := ih (b0 + 1)
      (for_range (fun j mask => store mask ((b0 : Int) * max_len + (j : Int)).toNat 0)
        (max_len - (c : Int)).toNat c
        (for_range (fun j mask => store mask ((b0 : Int) * max_len + (j : Int)).toNat 1)
          c 0 mask)) (by rw [hcast]; exact hfit)
    constructor
    · intro r j h1 h2 hj
      by_cases hr : r = b0
      · subst hr
        rw [ih2 _ (fun r' j' h3 _ hj' => row_cell_ne _ _ _ _ _ hj hj' (by omega))]
        unfold spec_mask
        rw [← hlen0.2.2, hc]
        by_cases hjc : j < c
        · rw [hrow.1 j hjc, if_pos (by omega)]
        · rw [hrow.2.1 j (by omega) hj, if_neg (by omega)]
      · exact ih1 r j (by omega) (by omega) hj
    · intro k hk
      rw [ih2 k (fun r j h1 h2 hj => hk r j (by omega) (by omega) hj)]
      exact hrow.2.2 k (fun j hj => hk b0 j (Nat.le_refl _) (by omega) hj)

/-- A call of `marian_tok_build_attention_mask` on valid arguments returns 0, whatever the
size of the batch, and leaves as it was every cell of `out_mask` that no `int` index of a
row addresses. -/
theorem marian_tok_build_attention_mask_frame (lens mask : Nat → Int)
    (batch_size max_len : Int) (hB : 0 < batch_size) (hL : 0 < max_len) :
    ∃ mask', marian_tok_build_attention_mask (some lens) batch_size max_len (some mask)
        = (0, some mask') ∧
      ∀ k : Nat, (∀ r j : Nat, (r : Int) < batch_size → (j : Int) < max_len →
          to_int (to_int ((r : Int) * max_len) + (j : Int)) ≠ (k : Int)) → mask' k = mask k := by
  have h : ¬ (batch_size ≤ 0 ∨ max_len ≤ 0) := by omega
  simp only [marian_tok_build_attention_mask, h, if_false]
  refine ⟨_, rfl, ?_⟩
  intro k hk
  exact mask_rows_frame lens max_len batch_size.toNat 0 mask k
    (fun r j _ hr hj => hk r j (by omega) hj)

/-- A call of `marian_tok_build_attention_mask` on valid arguments, for a batch whose cells
an `int` can index: it returns 0 and every row holds the mask of its clamped length. -/
theorem marian_tok_build_attention_mask_rows (lens mask : Nat → Int)
    (batch_size max_len : Int) (hB : 0 < batch_size) (hL : 0 < max_len)
    (hfit : batch_size * max_len ≤ 2 ^ 31) :
    ∃ mask', marian_tok_build_attention_mask (some lens) batch_size max_len (some mask)
        = (0, some mask') ∧
      ∀ b j : Nat, (b : Int) < batch_size → (j : Int) < max_len →
        mask' ((b : Int) * max_len + (j : Int)).toNat = spec_mask (lens b) max_len j := by
  have h : ¬ (batch_size ≤ 0 ∨ max_len ≤ 0) := by omega
  simp only [marian_tok_build_attention_mask, h, if_false]
  refine ⟨_, rfl, ?_⟩
  intro b j hb hj
  rw [row_index b j max_len (by omega)]
  exact (mask_rows_post lens max_len hL batch_size.toNat 0 mask
    (batch_fits batch_size max_len hB hfit)).1 b j (Nat.zero_le _) (by omega) (by omega)

/-- C10 fails for a batch with more cells than an `int` can index. With
`batch_size = 65537`, `max_len = 32768` and every length 3 the call returns 0, and the
claim gives `out_mask[65536 * 32768 + j]` the value 1 for `j < 3` and 0 from there on; but
`row_offset = 65536 * 32768` is `2^31`, which wraps to `-2^31` in `int`, the stores of row
65536 go through negative indices, and every cell `out_mask[65536 * 32768 + j]` of the row
still holds the caller's value, which is neither 1 nor 0. -/
theorem attention_mask_row_past_int_range :
    ∃ mask',
      marian_tok_build_attention_mask (some demo_seq_lens_three) 65537 32768
        (some demo_cells) = (0, some mask') ∧
      to_int (65536 * 32768) = -2147483648 ∧
      (∀ j : Nat, j < 32768 → mask' (65536 * 32768 + j) = demo_cells (65536 * 32768 + j)) ∧
      spec_mask (demo_seq_lens_three 65536) 32768 0 = 1 ∧ mask' (65536 * 32768) = -2147483649 ∧
      spec_mask (demo_seq_lens_three 65536) 32768 3 = 0 ∧
      mask' (65536 * 32768 + 3) = -2147483652 := by
  obtain ⟨mask', hcall, hframe⟩ := marian_tok_build_attention_mask_frame demo_seq_lens_three
    demo_cells 65537 32768 (by decide) (by decide)
  have hrow : ∀ j : Nat, j < 32768 →
      mask' (65536 * 32768 + j) = demo_cells (65536 * 32768 + j) := by
    intro j hj
    refine hframe _ (fun r j' hr hj' e => ?_)
    unfold to_int at e
    push_cast at e
    omega
  refine ⟨mask', hcall, by decide, hrow, by decide, ?_, by decide, ?_⟩
  · rw [hrow 0 (by decide)]
    decide
  · rw [hrow 3 (by decide)]
    decide

/-- The mask of a batch whose cells an `int` can index: `marian_tok_build_attention_mask`
returns an error only when a buffer is null, `batch_size <= 0` or `max_len <= 0`; for
`batch_size > 0`, `max_len > 0` with `batch_size * max_len <= 2^31` and every array
`seq_lens` (negative values and values above `max_len` included) it returns 0 and sets
`out_mask[b*max_len + j]`, for every row `b` and position `j < max_len`, to 1 if
`j < min(max(seq_lens[b], 0), max_len)` and to 0 otherwise. -/
theorem build_attention_mask_spec (seq_lens out_mask : Option (Nat → Int))
    (batch_size max_len : Int) :
    ((marian_tok_build_attention_mask seq_lens batch_size max_len out_mask).1 ≠ 0 ↔
      (seq_lens = none ∨ out_mask = none ∨ batch_size ≤ 0 ∨ max_len ≤ 0)) ∧
    ∀ lens mask, seq_lens = some lens → out_mask = some mask → 0 < batch_size →
      0 < max_len → batch_size * max_len ≤ 2 ^ 31 →
      ∃ mask', marian_tok_build_attention_mask seq_lens batch_size max_len out_mask
          = (0, some mask') ∧
        ∀ b j : Nat, (b : Int) < batch_size → (j : Int) < max_len →
          mask' ((b : Int) * max_len + (j : Int)).toNat = spec_mask (lens b) max_len j := by
  constructor
  · cases seq_lens with
    | none => simp [marian_tok_build_attention_mask]
    | some lens =>
      cases out_mask with
      | none => simp [marian_tok_build_attention_mask]
      | some mask =>
        by_cases h : batch_size ≤ 0 ∨ max_len ≤ 0
        · simp [marian_tok_build_attention_mask, h]
        · have hB : ¬ batch_size ≤ 0 := fun e => h (Or.inl e)
          have hL : ¬ max_len ≤ 0 := fun e => h (Or.inr e)
          simp [marian_tok_build_attention_mask, hB, hL]
  · intro lens mask h1 h2 hB hL hfit
    subst h1 h2
    exact marian_tok_build_attention_mask_rows lens mask batch_size max_len hB hL hfit

/-- The example `seq_lens = [3, 0, 10]` with `max_len = 5`: the rows are `[1,1,1,0,0]`,
`[0,0,0,0,0]` and `[1,1,1,1,1]`. -/
theorem build_attention_mask_spec_witness :
    (0 : Int) < 3 ∧ (0 : Int) < 5 ∧ (3 : Int) * 5 ≤ 2 ^ 31 ∧
    (∃ mask', marian_tok_build_attention_mask (some demo_seq_lens) 3 5 (some demo_cells)
        = (0, some mask') ∧
      (List.range 15).map mask' = [1, 1, 1, 0, 0, 0, 0, 0, 0, 0, 1, 1, 1, 1, 1]) ∧
    ∃ mask', marian_tok_build_attention_mask (some demo_seq_lens) 3 5 (some demo_cells)
        = (0, some mask') ∧
      ∀ b j : Nat, (b : Int) < 3 → (j : Int) < 5 →
        mask' ((b : Int) * 5 + (j : Int)).toNat = spec_mask (demo_seq_lens b) 5 j :=
  ⟨by decide, by decide, by decide, ⟨_, rfl, rfl⟩,
    (build_attention_mask_spec (some demo_seq_lens) (some demo_cells) 3 5).2 demo_seq_lens
      demo_cells rfl rfl (by decide) (by decide) (by decide)⟩


/-! ## Lemmas on `marian_tok_decode` -/

/-- A loop that appends `g i` in turn `i` appends the `g i` in order. -/
theorem for_range_append {α : Type} (g : Nat → List α) :
    ∀ (n lo : Nat) (init : List α),
      for_range (fun i acc => acc ++ g i) n lo init
        = init ++ (List.range' lo n).flatMap g := by
  intro n
  induction n with
  | zero => intro lo init; simp [for_range]
  | succ n ih =>
    intro lo init
    simp only [for_range, List.range'_succ, List.flatMap_cons]
    rw [ih, List.append_assoc]

/-- Appending one element per kept element is a filter followed by a map. -/
theorem flatMap_keep_eq_filter_map {α β γ : Type} (f : α → β) (keep : β → Bool) (t : β → γ) :
    ∀ l : List α,
      l.flatMap (fun i => if keep (f i) then [t (f i)] else [])
        = ((l.map f).filter keep).map t := by
  intro l
  induction l with
  | nil => rfl
  | cons a l ih =>
    simp only [List.flatMap_cons, List.map_cons, List.filter_cons]
    rw [ih]
    cases keep (f a) <;> simp

/-- Step 4 of `marian_tok_new`: the special ids of a created instance are `eos_id`,
`pad_id` and `unk_id`. -/
theorem marian_tok_new_special_ids (env : Env) (dir : Option String) (core : MarianCore)
    (h : marian_tok_new env dir = some core) (id : Int) :
    id ∈ core.special_ids ↔ spec_special core id = true := by
  unfold marian_tok_new at h
  split at h
  · cases h
  split at h
  · cases h
  split at h
  · cases h
  split at h
  · cases h
  split at h
  · cases h
  split at h
  · cases h
  split at h
  · cases h
  simp only [Option.some.injEq] at h
  subst h
  simp only [spec_special, spec_unk_id, List.mem_insert_iff, List.not_mem_nil, or_false,
    Bool.decide_or, Bool.or_eq_true, decide_eq_true_eq]
  constructor
  · rintro (h | h | h)
    · right; right; rw [h]; split <;> simp_all
    · right; left; exact h
    · left; exact h
  · rintro (h | h | h)
    · right; right; exact h
    · right; left; exact h
    · left; rw [h]; split <;> simp_all

/-- The token `marian_tok_decode` pushes for a kept id is the token of the claims. -/
theorem decode_token_eq (core : MarianCore) (id : Int) :
    (if id < 0 ∨ id.toNat ≥ core.id2token.length ∨ core.id2token.getD id.toNat "" = "" then
        "<unk>"
      else core.id2token.getD id.toNat "") = spec_token core id := by
  unfold spec_token
  by_cases hneg : id < 0
  · simp [hneg, not_le.mpr hneg]
  · have h0 : 0 ≤ id := by omega
    simp only [hneg, false_or, h0, if_true]
    by_cases hlen : id.toNat < core.id2token.length
    · simp only [List.getD_eq_getElem?_getD, List.getElem?_eq_getElem hlen, Option.getD_some,
        ge_iff_le, not_le.mpr hlen, false_or]
    · simp only [ge_iff_le, not_lt.mp hlen, true_or, if_true,
        List.getElem?_eq_none (not_lt.mp hlen)]


/-- The piece loop of `marian_tok_decode` builds the list of the claims. -/
theorem decode_loop_eq (core : MarianCore)
    (hspecial : ∀ id, id ∈ core.special_ids ↔ spec_special core id = true)
    (ids : Nat → Int) (len skip_special : Int) :
    for_range
        (fun i pieces =>
          let id := ids i
          if skip_special ≠ 0 ∧ id ∈ core.special_ids then pieces
          else if id < 0 ∨ id.toNat ≥ core.id2token.length
              ∨ core.id2token.getD id.toNat "" = "" then
            pieces ++ ["<unk>"]
          else
            pieces ++ [core.id2token.getD id.toNat ""])
        len.toNat 0 []
      = spec_decode_pieces core (array_list ids len) (decide (skip_special ≠ 0)) := by
  have hbody : (fun (i : Nat) (pieces : List String) =>
        let id := ids i
        if skip_special ≠ 0 ∧ id ∈ core.special_ids then pieces
        else if id < 0 ∨ id.toNat ≥ core.id2token.length
            ∨ core.id2token.getD id.toNat "" = "" then
          pieces ++ ["<unk>"]
        else
          pieces ++ [core.id2token.getD id.toNat ""])
      = fun i pieces => pieces ++
          (fun i => if (fun id => !(decide (skip_special ≠ 0) && spec_special core id)) (ids i)
            then [spec_token core (ids i)] else []) i := by
    funext i pieces
    simp only
    rw [← decode_token_eq core (ids i)]
    by_cases hs : skip_special ≠ 0 ∧ ids i ∈ core.special_ids
    · have h2 : spec_special core (ids i) = true := (hspecial _).mp hs.2
      simp [hs.1, hs.2, h2]
    · rw [if_neg hs]
      have h2 : (!(decide (skip_special ≠ 0) && spec_special core (ids i))) = true := by
        by_cases h0 : skip_special ≠ 0
        · have h3 : ¬ ids i ∈ core.special_ids := fun e => hs ⟨h0, e⟩
          have h4 : spec_special core (ids i) = false := by
            cases h5 : spec_special core (ids i)
            · rfl
            · exact absurd ((hspecial _).mpr h5) h3
          simp [h4]
        · simp [h0]
      rw [if_pos h2]
      split <;> rfl
  rw [hbody, for_range_append, List.nil_append, ← List.range_eq_range']
  unfold spec_decode_pieces array_list
  exact flatMap_keep_eq_filter_map ids
    (fun id => !(decide (skip_special ≠ 0) && spec_special core id)) (spec_token core)
    (List.range len.toNat)

/-- What `marian_tok_decode` does on valid arguments: it hands the list of the claims to
the target piece-decoder, unless that list is empty. -/
theorem marian_tok_decode_eq (core : MarianCore)
    (hspecial : ∀ id, id ∈ core.special_ids ↔ spec_special core id = true)
    (ids : Nat → Int) (len skip_special : Int) (out : Nat → Nat) (max_text_len : Int)
    (hlen : 0 < len) (hmax : 0 < max_text_len) :
    marian_tok_decode (some core) (some ids) len skip_special (some out) max_text_len =
      if spec_decode_pieces core (array_list ids len) (decide (skip_special ≠ 0)) = [] then
        .returned 0 (some (store out 0 0))
      else
        match core.sp_target.Decode
          (spec_decode_pieces core (array_list ids len) (decide (skip_special ≠ 0))) with
        | none => .returned (-2) (some out)
        | some result =>
          if ((string_bytes result).length : Int) + 1 > max_text_len then
            .returned (-3) (some out)
          else
            .returned ((string_bytes result).length : Int)
              (some (for_range
                (fun i out => store out i ((string_bytes result ++ [0]).getD i 0))
                ((string_bytes result).length + 1) 0 out)) := by
  unfold marian_tok_decode
  have hv : ¬ (len ≤ 0 ∨ max_text_len ≤ 0) := by omega
  simp only [hv, if_false, decode_loop_eq core hspecial ids len skip_special, gt_iff_lt, hmax,
    if_true]


/-- The `memcpy` of `marian_tok_decode` writes the bytes of the result, then the
terminator, and nothing else. -/
theorem memcpy_cells (result : String) (out : Nat → Nat) :
    (∀ i (h : i < (string_bytes result).length),
        for_range (fun i out => store out i ((string_bytes result ++ [0]).getD i 0))
          ((string_bytes result).length + 1) 0 out i = (string_bytes result)[i])
      ∧ for_range (fun i out => store out i ((string_bytes result ++ [0]).getD i 0))
          ((string_bytes result).length + 1) 0 out (string_bytes result).length = 0
      ∧ ∀ i, (string_bytes result).length < i →
        for_range (fun i out => store out i ((string_bytes result ++ [0]).getD i 0))
          ((string_bytes result).length + 1) 0 out i = out i := by
  have hit : ∀ i, i < (string_bytes result).length + 1 →
      for_range (fun i out => store out i ((string_bytes result ++ [0]).getD i 0))
        ((string_bytes result).length + 1) 0 out i = (string_bytes result ++ [0]).getD i 0 := by
    intro i hi
    have := for_range_store_hit (fun i => i) (fun i => (string_bytes result ++ [0]).getD i 0)
      (fun _ _ e => e) ((string_bytes result).length + 1) 0 out i (Nat.zero_le _) (by omega)
    simpa using this
  refine ⟨?_, ?_, ?_⟩
  · intro i hi
    rw [hit i (by omega)]
    simp [List.getD_eq_getElem?_getD, List.getElem?_append_left hi,
      List.getElem?_eq_getElem hi]
  · rw [hit _ (by omega)]
    simp [List.getD_eq_getElem?_getD]
  · intro i hi
    exact for_range_store_miss (fun i => i) (fun i => (string_bytes result ++ [0]).getD i 0) i
      ((string_bytes result).length + 1) 0 out (fun j _ h2 => by simp only; omega)

/-! ## Claims on `marian_tok_decode` -/

/-- C12 fails: in the demo directory, decoding an id sequence of length 0 with a valid
output buffer of capacity 64 returns the invalid-argument code -1 and writes nothing. -/
theorem decode_length_zero_returns_invalid :
    marian_tok_new (demo_env 512) (some "m") = some (demo_core 512) ∧
    marian_tok_decode (some (demo_core 512)) (some (demo_ids [])) 0 0 (some demo_text_cells) 64
      = .returned (-1) (some demo_text_cells) :=
  ⟨rfl, rfl⟩

/-- C12, amended: for every tokenizer, loaded or not, decoding an id sequence of length 0
(or of a negative length) is rejected as an invalid argument: `marian_tok_decode` returns -1
and leaves the output buffer as it was, whatever the buffer and its capacity. -/
theorem decode_length_zero_rejected (handle : Option MarianCore) (ids : Option (Nat → Int))
    (len skip_special : Int) (out_text : Option (Nat → Nat)) (max_text_len : Int)
    (hlen : len ≤ 0) :
    marian_tok_decode handle ids len skip_special out_text max_text_len
      = .returned (-1) out_text := by
  unfold marian_tok_decode
  split
  · rw [if_pos (Or.inl hlen)]
  · rfl

/-- Witness of the amended C12: length 0 in the demo directory. -/
theorem decode_length_zero_rejected_witness :
    (0 : Int) ≤ 0 ∧
    marian_tok_decode (some (demo_core 512)) (some (demo_ids [])) 0 1 (some demo_text_cells) 64
      = .returned (-1) (some demo_text_cells) :=
  ⟨by decide,
    decode_length_zero_rejected (some (demo_core 512)) (some (demo_ids [])) 0 1
      (some demo_text_cells) 64 (by decide)⟩

/-- C13: for every loaded tokenizer and every non-empty id array all of whose elements
belong to `{eos_id, pad_id, unk_id}`, `marian_tok_decode` with `skip_special = 1` and
`max_text_len >= 1` returns 0 and writes a terminator at `out_text[0]` and nothing else;
the target piece-decoder is not invoked: the outcome is the same whatever decoder stands in
for it. -/
theorem decode_all_special_is_empty (env : Env) (dir : Option String) (core : MarianCore)
    (hload : marian_tok_new env dir = some core)
    (ids : Nat → Int) (len : Int) (out : Nat → Nat) (max_text_len : Int)
    (hlen : 0 < len) (hmax : 1 ≤ max_text_len)
    (hall : ∀ i : Nat, (i : Int) < len →
      ids i = core.cfg.eos_id ∨ ids i = core.cfg.pad_id ∨ ids i = core.unk_id) :
    store out 0 0 0 = 0 ∧
    ∀ sp : SentencePieceProcessor,
      marian_tok_decode (some { core with sp_target := sp }) (some ids) len 1 (some out)
        max_text_len = .returned 0 (some (store out 0 0)) := by
  refine ⟨store_same _ _ _, ?_⟩
  intro sp
  have hunk := marian_tok_new_unk_id env dir core hload
  have hspecial : ∀ id, id ∈ ({ core with sp_target := sp } : MarianCore).special_ids ↔
      spec_special { core with sp_target := sp } id = true :=
    marian_tok_new_special_ids env dir core hload
  rw [marian_tok_decode_eq _ hspecial ids len 1 out max_text_len hlen (by omega)]
  have hnil : spec_decode_pieces { core with sp_target := sp } (array_list ids len)
      (decide ((1 : Int) ≠ 0)) = [] := by
    unfold spec_decode_pieces
    rw [List.map_eq_nil_iff, List.filter_eq_nil_iff]
    intro id hid
    unfold array_list at hid
    rw [List.mem_map] at hid
    obtain ⟨i, hi, rfl⟩ := hid
    rw [List.mem_range] at hi
    have h := hall i (by omega)
    rw [hunk] at h
    have h2 : spec_special { core with sp_target := sp } (ids i) = true := by
      simp only [spec_special, Bool.decide_or, Bool.or_eq_true, decide_eq_true_eq]
      exact h
    simp [h2]
  rw [if_pos hnil]

/-- Witness of C13: the ids `[1, 4, 0]` (unk, pad, eos) in the demo directory. -/
theorem decode_all_special_is_empty_witness :
    marian_tok_new (demo_env 512) (some "m") = some (demo_core 512) ∧
    (0 : Int) < 3 ∧ (1 : Int) ≤ 64 ∧
    (∀ i : Nat, (i : Int) < 3 →
      demo_ids [1, 4, 0] i = (demo_core 512).cfg.eos_id ∨
      demo_ids [1, 4, 0] i = (demo_core 512).cfg.pad_id ∨
      demo_ids [1, 4, 0] i = (demo_core 512).unk_id) ∧
    (store demo_text_cells 0 0 0 = 0 ∧
      ∀ sp : SentencePieceProcessor,
        marian_tok_decode (some { demo_core 512 with sp_target := sp })
          (some (demo_ids [1, 4, 0])) 3 1 (some demo_text_cells) 64
          = .returned 0 (some (store demo_text_cells 0 0))) :=
  have hall : ∀ i : Nat, (i : Int) < 3 →
      demo_ids [1, 4, 0] i = (demo_core 512).cfg.eos_id ∨
      demo_ids [1, 4, 0] i = (demo_core 512).cfg.pad_id ∨
      demo_ids [1, 4, 0] i = (demo_core 512).unk_id := by
    intro i hi
    have h3 : i < 3 := by omega
    interval_cases i <;> decide
  ⟨rfl, by decide, by decide, hall,
    decode_all_special_is_empty (demo_env 512) (some "m") (demo_core 512) rfl
      (demo_ids [1, 4, 0]) 3 demo_text_cells 64 (by decide) (by decide) hall⟩


/-- C15 fails for a text with a piece outside the vocabulary: in the demo directory the
segmentation of `"hello big world"` is lossless, the encoding without EOS is `[2, 1, 3]`
(`big` maps to `unk_id`), and decoding these ids without skipping returns the 17 bytes of
`"hello <unk> world"`, not the 15 bytes of the text. -/
theorem round_trip_loses_unknown_piece :
    marian_tok_new (demo_env 512) (some "m") = some (demo_core 512) ∧
    (demo_core 512).sp_source.Encode "hello big world" = some ["hello", "big", "world"] ∧
    (demo_core 512).sp_target.Decode ["hello", "big", "world"] = some "hello big world" ∧
    marian_tok_encode (some (demo_core 512)) (some "hello big world") (some demo_cells) 8 0
      = .returned 3 (some (store (store (store demo_cells 0 2) 1 1) 2 3)) ∧
    (∃ text, marian_tok_decode (some (demo_core 512))
        (some (store (store (store demo_cells 0 2) 1 1) 2 3)) 3 0 (some demo_text_cells) 64
        = .returned 17 (some text) ∧
      (List.range 18).map text = string_bytes "hello <unk> world" ++ [0]) ∧
    (string_bytes "hello big world").length = 15 :=
  ⟨rfl, rfl, rfl, rfl, ⟨_, rfl, rfl⟩, rfl⟩

/-- The cells of an array that holds the list `l` at its start. -/
theorem array_list_of_cells {α : Type} (p : Nat → α) (l : List α)
    (h : ∀ i (hi : i < l.length), p i = l[i]) : array_list p (l.length : Int) = l := by
  unfold array_list
  apply List.ext_getElem
  · simp
  · intro i h1 h2
    simp only [List.getElem_map, List.getElem_range]
    exact h i h2

/-- C15, amended: round trip. For every loaded tokenizer and every text whose source
segmentation `P` is non-empty, no longer than `model_max_length`, made of pieces that the
vocabulary maps back to themselves (the token of the id of each piece is that piece), and
on which the subword models are lossless (the target piece-decoder applied to `P` returns
the text), `decode(encode(text, add_eos = false), skip_special = false)` with sufficient
buffer capacities returns exactly the text: the encoding has `len(P)` ids, and decoding
them returns the byte count of the text and writes its bytes and a terminator. -/
theorem decode_encode_round_trip (env : Env) (dir : Option String) (core : MarianCore)
    (hload : marian_tok_new env dir = some core)
    (text : String) (P : List String) (hP : core.sp_source.Encode text = some P)
    (hlossless : core.sp_target.Decode P = some text)
    (hne : P ≠ []) (hfit : (P.length : Int) ≤ core.cfg.model_max_length)
    (hvocab : ∀ p, p ∈ P →
      spec_token core (spec_lookup core.token2id (spec_unk_id core.token2id) p) = p)
    (out_ids : Nat → Int) (max_ids : Int) (hcap : (P.length : Int) ≤ max_ids)
    (out_text : Nat → Nat) (max_text_len : Int)
    (hcap_text : ((string_bytes text).length : Int) + 1 ≤ max_text_len) :
    ∃ ids, marian_tok_encode (some core) (some text) (some out_ids) max_ids 0
        = .returned (P.length : Int) (some ids) ∧
      ∃ decoded, marian_tok_decode (some core) (some ids) (P.length : Int) 0 (some out_text)
          max_text_len = .returned ((string_bytes text).length : Int) (some decoded) ∧
        (∀ i (h : i < (string_bytes text).length), decoded i = (string_bytes text)[i]) ∧
        decoded (string_bytes text).length = 0 := by
  have hunk := marian_tok_new_unk_id env dir core hload
  have hpos : 0 < P.length := List.length_pos.mpr hne
  have hseq : (encode_ids core P 0).take core.cfg.model_max_length.toNat
      = P.map (spec_lookup core.token2id (spec_unk_id core.token2id)) := by
    unfold encode_ids
    rw [hunk]
    simp only [ne_eq, not_true_eq_false, if_false, List.append_nil]
    exact List.take_of_length_le (by simp; omega)
  have hl : (P.map (spec_lookup core.token2id (spec_unk_id core.token2id))).length
      = P.length := List.length_map _ _
  have hpieces : spec_decode_pieces core
      (P.map (spec_lookup core.token2id (spec_unk_id core.token2id)))
      (decide ((0 : Int) ≠ 0)) = P := by
    unfold spec_decode_pieces
    simp only [ne_eq, not_true_eq_false, decide_False, Bool.false_and, Bool.not_false,
      List.filter_true, List.map_map]
    conv => rhs; rw [← List.map_id P]
    apply List.map_congr_left
    intro p hp
    exact hvocab p hp
  rw [marian_tok_encode_eq core text P out_ids max_ids 0 (by omega) hP, hseq]
  generalize P.map (spec_lookup core.token2id (spec_unk_id core.token2id)) = seq at hl hpieces ⊢
  have hcode : (seq.length : Int) = (P.length : Int) := by rw [hl]
  rw [if_neg (by omega), if_neg (by omega)]
  refine ⟨_, by rw [hcode], ?_⟩
  have harr := array_list_of_cells
    (for_range (fun i out => store out i (seq.getD i 0)) seq.length 0 out_ids) seq
    (copy_loop_cells seq out_ids).1
  rw [← hcode, marian_tok_decode_eq core (marian_tok_new_special_ids env dir core hload) _ _ 0
    out_text max_text_len (by omega) (by omega), harr, hpieces, if_neg hne, hlossless]
  simp only
  rw [if_neg (by omega)]
  exact ⟨_, rfl, (memcpy_cells text out_text).1, (memcpy_cells text out_text).2.1⟩

/-- Witness of the amended C15: `"hello world"` in the demo directory. -/
theorem decode_encode_round_trip_witness :
    marian_tok_new (demo_env 512) (some "m") = some (demo_core 512) ∧
    (demo_core 512).sp_source.Encode "hello world" = some ["hello", "world"] ∧
    (demo_core 512).sp_target.Decode ["hello", "world"] = some "hello world" ∧
    (["hello", "world"] : List String) ≠ [] ∧
    ((["hello", "world"] : List String).length : Int) ≤ (demo_core 512).cfg.model_max_length ∧
    (∀ p, p ∈ (["hello", "world"] : List String) →
      spec_token (demo_core 512)
        (spec_lookup (demo_core 512).token2id (spec_unk_id (demo_core 512).token2id) p) = p) ∧
    ∃ ids, marian_tok_encode (some (demo_core 512)) (some "hello world") (some demo_cells) 8 0
        = .returned ((["hello", "world"] : List String).length : Int) (some ids) ∧
      ∃ decoded, marian_tok_decode (some (demo_core 512)) (some ids)
          ((["hello", "world"] : List String).length : Int) 0 (some demo_text_cells) 64
          = .returned ((string_bytes "hello world").length : Int) (some decoded) ∧
        (∀ i (h : i < (string_bytes "hello world").length),
          decoded i = (string_bytes "hello world")[i]) ∧
        decoded (string_bytes "hello world").length = 0 :=
  have hvocab : ∀ p, p ∈ (["hello", "world"] : List String) →
      spec_token (demo_core 512)
        (spec_lookup (demo_core 512).token2id (spec_unk_id (demo_core 512).token2id) p)
        = p := by
    intro p hp
    simp only [List.mem_cons, List.mem_singleton, List.not_mem_nil, or_false] at hp
    rcases hp with rfl | rfl <;> rfl
  ⟨rfl, rfl, rfl, by decide, by decide, hvocab,
    decode_encode_round_trip (demo_env 512) (some "m") (demo_core 512) rfl "hello world"
      ["hello", "world"] rfl rfl (by decide) (by decide) hvocab demo_cells 8 (by decide)
      demo_text_cells 64 (by decide)⟩


/-! ## Lemmas on `parse_vocab` -/

/-- On a map with unique keys, `find` returns the id of a token exactly when the pair is
an entry of the map. -/
theorem find_eq_some_iff_mem (m : List (String × Int)) (hm : (m.map Prod.fst).Nodup)
    (tok : String) (id : Int) : find m tok = some id ↔ (tok, id) ∈ m := by
  induction m with
  | nil => simp [find]
  | cons kv rest ih =>
    obtain ⟨k, v⟩ := kv
    simp only [List.map_cons, List.nodup_cons] at hm
    simp only [find, List.mem_cons, Prod.mk.injEq]
    by_cases hk : k = tok
    · subst hk
      rw [if_pos rfl]
      constructor
      · intro h
        left
        exact ⟨rfl, (Option.some.inj h).symm⟩
      · rintro (⟨-, h⟩ | h)
        · rw [h]
        · exact absurd (List.mem_map_of_mem Prod.fst h) hm.1
    · rw [if_neg hk, ih hm.2]
      constructor
      · exact fun h => Or.inr h
      · rintro (⟨h, -⟩ | h)
        · exact absurd h.symm hk
        · exact h

/-- Assigning to a key the map does not have appends the entry. -/
theorem assign_of_not_mem_keys (m : List (String × Int)) (tok : String) (id : Int)
    (h : tok ∉ m.map Prod.fst) : assign m tok id = m ++ [(tok, id)] := by
  induction m with
  | nil => rfl
  | cons kv rest ih =>
    obtain ⟨k, v⟩ := kv
    simp only [List.map_cons, List.mem_cons, not_or] at h
    simp only [assign]
    rw [if_neg (fun e => h.1 e.symm), ih h.2]
    rfl

/-- The keys of the converted entries are the keys of the entries. -/
theorem convert_entries_keys :
    ∀ (entries : List (String × Json)) (ids : List (String × Int)),
      convert_entries entries = some ids → ids.map Prod.fst = entries.map Prod.fst := by
  intro entries
  induction entries with
  | nil =>
    intro ids h
    simp only [convert_entries, Option.some.injEq] at h
    subst h
    rfl
  | cons e rest ih =>
    intro ids h
    obtain ⟨tok, value⟩ := e
    simp only [convert_entries] at h
    split at h
    · rename_i id r h1 h2
      simp only [Option.some.injEq] at h
      subst h
      simp only [List.map_cons, ih r h2]
    · cases h

/-- The first loop of `parse_vocab` on entries with keys that are new and pairwise
different: it appends the converted entries and folds their ids into `max_id`. -/
theorem parse_vocab_fill_eq :
    ∀ (entries : List (String × Json)) (token2id : List (String × Int)) (max_id : Int),
      (token2id.map Prod.fst ++ entries.map Prod.fst).Nodup →
      parse_vocab_fill entries token2id max_id =
        (convert_entries entries).map (fun ids =>
          (token2id ++ ids,
            ids.foldl (fun max_id kv => if kv.2 > max_id then kv.2 else max_id) max_id)) := by
  intro entries
  induction entries with
  | nil =>
    intro token2id max_id _
    simp [parse_vocab_fill, convert_entries]
  | cons e rest ih =>
    intro token2id max_id hnd
    obtain ⟨tok, value⟩ := e
    simp only [parse_vocab_fill, convert_entries]
    cases hv : value.get_long_long with
    | none => simp
    | some id =>
      have hnew : tok ∉ token2id.map Prod.fst := by
        intro hmem
        rw [List.nodup_append] at hnd
        exact hnd.2.2 hmem (by simp)
      simp only
      rw [assign_of_not_mem_keys token2id tok id hnew, ih]
      · cases hc : convert_entries rest <;> simp
      · simp only [List.map_append, List.map_cons, List.map_nil, List.append_assoc,
          List.singleton_append]
        exact hnd


/-- The value of `max_id` after the first loop: at least the start value, at least every
id, and either the start value or one of the ids. -/
theorem foldl_max_id (ids : List (String × Int)) :
    ∀ max_id : Int,
      max_id ≤ ids.foldl (fun max_id kv => if kv.2 > max_id then kv.2 else max_id) max_id ∧
      (∀ kv, kv ∈ ids →
        kv.2 ≤ ids.foldl (fun max_id kv => if kv.2 > max_id then kv.2 else max_id) max_id) ∧
      (ids.foldl (fun max_id kv => if kv.2 > max_id then kv.2 else max_id) max_id = max_id ∨
        ∃ kv, kv ∈ ids ∧
          kv.2 = ids.foldl (fun max_id kv => if kv.2 > max_id then kv.2 else max_id) max_id) := by
  induction ids with
  | nil =>
    intro max_id
    exact ⟨Int.le_refl _, fun kv h => (by cases h), Or.inl rfl⟩
  | cons kv rest ih =>
    intro max_id
    simp only [List.foldl_cons]
    obtain ⟨h1, h2, h3⟩ := ih (if kv.2 > max_id then kv.2 else max_id)
    have hstep : max_id ≤ (if kv.2 > max_id then kv.2 else max_id) ∧
        kv.2 ≤ (if kv.2 > max_id then kv.2 else max_id) := by
      split <;> omega
    refine ⟨by omega, ?_, ?_⟩
    · intro kv' hkv'
      rcases List.mem_cons.mp hkv' with rfl | hmem
      · omega
      · exact h2 kv' hmem
    · rcases h3 with h3 | ⟨kv', hmem, hkv'⟩
      · by_cases hgt : kv.2 > max_id
        · right
          refine ⟨kv, List.mem_cons_self _ _, ?_⟩
          rw [h3, if_pos hgt]
        · left
          rw [h3, if_neg hgt]
      · exact Or.inr ⟨kv', List.mem_cons_of_mem _ hmem, hkv'⟩

/-- The second loop of `parse_vocab` keeps the length of the reverse sequence, and leaves
in every slot a token of the visited entries with that id, or, when no visited entry has
that id, what the slot held before. -/
theorem parse_vocab_reverse_slots :
    ∀ (visited : List (String × Int)) (id2token : List String),
      (parse_vocab_reverse visited id2token).length = id2token.length ∧
      ∀ i (h : i < id2token.length) (h' : i < (parse_vocab_reverse visited id2token).length),
        (∃ tok, (tok, (i : Int)) ∈ visited ∧ (parse_vocab_reverse visited id2token)[i] = tok) ∨
        ((∀ tok, (tok, (i : Int)) ∉ visited) ∧
          (parse_vocab_reverse visited id2token)[i] = id2token[i]) := by
  intro visited
  induction visited with
  | nil =>
    intro id2token
    exact ⟨rfl, fun i h h' => Or.inr ⟨fun tok hm => (by cases hm), rfl⟩⟩
  | cons kv rest ih =>
    intro id2token
    obtain ⟨tok, id⟩ := kv
    simp only [parse_vocab_reverse]
    by_cases hin : id ≥ 0 ∧ id < (id2token.length : Int)
    · simp only [if_pos hin]
      obtain ⟨hlen, hslots⟩ := ih (id2token.set id.toNat tok)
      rw [List.length_set] at hlen
      refine ⟨hlen, ?_⟩
      intro i h h'
      rcases hslots i (by rw [List.length_set]; exact h) h' with ⟨t, hmem, ht⟩ | ⟨hno, hkeep⟩
      · exact Or.inl ⟨t, List.mem_cons_of_mem _ hmem, ht⟩
      · rw [List.getElem_set] at hkeep
        by_cases hi : id.toNat = i
        · left
          refine ⟨tok, ?_, ?_⟩
          · have : (i : Int) = id := by omega
            rw [this]
            exact List.mem_cons_self _ _
          · rw [hkeep, if_pos hi]
        · right
          refine ⟨?_, ?_⟩
          · intro t hmem
            rcases List.mem_cons.mp hmem with heq | hmem
            · simp only [Prod.mk.injEq] at heq
              omega
            · exact hno t hmem
          · rw [hkeep, if_neg hi]
    · simp only [if_neg hin]
      obtain ⟨hlen, hslots⟩ := ih id2token
      refine ⟨hlen, ?_⟩
      intro i h h'
      rcases hslots i h h' with ⟨t, hmem, ht⟩ | ⟨hno, hkeep⟩
      · exact Or.inl ⟨t, List.mem_cons_of_mem _ hmem, ht⟩
      · right
        refine ⟨?_, hkeep⟩
        intro t hmem
        rcases List.mem_cons.mp hmem with heq | hmem
        · simp only [Prod.mk.injEq] at heq
          omega
        · exact hno t hmem

/-- What `parse_vocab` does on a document whose members have pairwise different keys. -/
theorem parse_vocab_eq (env : Env) (json_str : String) (j : Json)
    (entries : List (String × Json))
    (hj : env.json_parse json_str = some j) (he : j.entries = some entries)
    (hkeys : (entries.map Prod.fst).Nodup) :
    parse_vocab env json_str =
      match convert_entries entries with
      | none => none
      | some token2id =>
        if (max_id_of token2id + 1).toNat ≤ env.max_size then
          some (token2id, parse_vocab_reverse (env.hash_order token2id)
            (List.replicate (max_id_of token2id + 1).toNat ""))
        else none := by
  unfold parse_vocab
  simp only [hj, he]
  rw [parse_vocab_fill_eq entries [] (-1) (by simpa using hkeys)]
  cases hc : convert_entries entries with
  | none => rfl
  | some ids =>
    simp only [Option.map_some', List.nil_append]
    rfl


/-- The conversion of the entries succeeds when every value converts, and then holds
exactly the converted entries. -/
theorem convert_entries_of_convertible :
    ∀ entries : List (String × Json),
      (∀ kv, kv ∈ entries → ∃ id, kv.2.get_long_long = some id) →
      ∃ ids, convert_entries entries = some ids ∧
        (∀ tok value id, (tok, value) ∈ entries → value.get_long_long = some id →
          (tok, id) ∈ ids) ∧
        ∀ tok id, (tok, id) ∈ ids →
          ∃ value, (tok, value) ∈ entries ∧ value.get_long_long = some id := by
  intro entries
  induction entries with
  | nil =>
    intro _
    exact ⟨[], rfl, fun _ _ _ h => (by cases h), fun _ _ h => (by cases h)⟩
  | cons e rest ih =>
    intro hconv
    obtain ⟨tok, value⟩ := e
    obtain ⟨id, hid⟩ := hconv (tok, value) (List.mem_cons_self _ _)
    obtain ⟨ids, hids, h1, h2⟩ := ih (fun kv hkv => hconv kv (List.mem_cons_of_mem _ hkv))
    refine ⟨(tok, id) :: ids, ?_, ?_, ?_⟩
    · simp only [convert_entries]
      simp only at hid
      rw [hid, hids]
    · intro t v i hmem hv
      rcases List.mem_cons.mp hmem with heq | hmem
      · simp only [Prod.mk.injEq] at heq
        obtain ⟨rfl, rfl⟩ := heq
        simp only at hid
        rw [hid] at hv
        cases hv
        exact List.mem_cons_self _ _
      · exact List.mem_cons_of_mem _ (h1 t v i hmem hv)
    · intro t i hmem
      rcases List.mem_cons.mp hmem with heq | hmem
      · simp only [Prod.mk.injEq] at heq
        obtain ⟨rfl, rfl⟩ := heq
        exact ⟨value, List.mem_cons_self _ _, hid⟩
      · obtain ⟨v, hv1, hv2⟩ := h2 t i hmem
        exact ⟨v, List.mem_cons_of_mem _ hv1, hv2⟩

/-- The load of a vocabulary object succeeds when its keys are pairwise different, every
value converts and the reverse table for the largest id can be allocated. -/
theorem parse_vocab_of_convertible (env : Env) (json_str : String)
    (members : List (String × Json))
    (hj : env.json_parse json_str = some (.object members))
    (hkeys : (members.map Prod.fst).Nodup)
    (hconv : ∀ kv, kv ∈ members → ∃ id, kv.2.get_long_long = some id)
    (halloc : ∀ kv id, kv ∈ members → kv.2.get_long_long = some id →
      id + 1 ≤ (env.max_size : Int)) :
    ∃ token2id, convert_entries members = some token2id ∧
      (token2id.map Prod.fst).Nodup ∧
      parse_vocab env json_str = some (token2id,
        parse_vocab_reverse (env.hash_order token2id)
          (List.replicate (max_id_of token2id + 1).toNat "")) := by
  obtain ⟨ids, hids, -, hback⟩ := convert_entries_of_convertible members hconv
  have hnd : (ids.map Prod.fst).Nodup := by
    rw [convert_entries_keys members ids hids]
    exact hkeys
  refine ⟨ids, hids, hnd, ?_⟩
  rw [parse_vocab_eq env json_str _ members hj rfl hkeys, hids]
  simp only
  obtain ⟨h1, -, h3⟩ := foldl_max_id ids (-1)
  have hfit : (max_id_of ids + 1).toNat ≤ env.max_size := by
    unfold max_id_of
    rcases h3 with h3 | ⟨kv, hmem, hkv⟩
    · rw [h3]
      exact Nat.zero_le _
    · obtain ⟨v, hv1, hv2⟩ := hback kv.1 kv.2 hmem
      have := halloc (kv.1, v) kv.2 hv1 hv2
      omega
  rw [if_pos hfit]


/-! ## Claims on `parse_vocab` -/

/-- C16 fails for a vocabulary whose ids are all below -1: the object `{"a": -5}` loads,
the largest id occurring in `token2id` is -5, and the reverse sequence has length 0, not
`1 + (-5)`. -/
theorem vocab_all_negative_ids_length :
    parse_vocab
        (demo_parser_env [("\x7b\"a\": -5\x7d", .object [("a", .number_integer (-5))])])
        "\x7b\"a\": -5\x7d"
      = some ([("a", -5)], []) ∧
    ((([] : List String).length : Int) ≠ 1 + (-5)) :=
  ⟨rfl, by decide⟩

/-- C16, amended: after every successful vocabulary load, the length of the reverse
sequence `id2token` equals 1 + the largest id of `token2id` whenever some id is
non-negative, and 0 otherwise: no id of `token2id` reaches the length, and the length is 0
or some token has the id `length - 1`; it is `1 + max_id` for the `max_id` of the loader,
which starts from -1. For the empty JSON object the load succeeds with an empty forward
mapping and a reverse sequence of length 0. -/
theorem vocab_reverse_length (env : Env) (json_str : String)
    (hunique : ∀ members, env.json_parse json_str = some (.object members) →
      (members.map Prod.fst).Nodup) :
    (∀ token2id id2token, parse_vocab env json_str = some (token2id, id2token) →
      (id2token.length : Int) = 1 + max_id_of token2id ∧
      (∀ tok id, (tok, id) ∈ token2id → id < (id2token.length : Int)) ∧
      (id2token.length = 0 ∨ ∃ tok, (tok, (id2token.length : Int) - 1) ∈ token2id)) ∧
    (env.json_parse json_str = some (.object []) →
      parse_vocab env json_str = some ([], [])) := by
  constructor
  · intro token2id id2token h
    cases hj : env.json_parse json_str with
    | none => simp [parse_vocab, hj] at h
    | some j =>
      cases he : j.entries with
      | none => simp [parse_vocab, hj, he] at h
      | some entries =>
        have hkeys : (entries.map Prod.fst).Nodup := by
          cases j with
          | object members =>
            simp only [Json.entries, Option.some.injEq] at he
            subst he
            exact hunique members hj
          | null =>
            simp only [Json.entries, Option.some.injEq] at he
            subst he
            exact List.nodup_nil
          | array elems =>
            cases elems with
            | nil =>
              simp only [Json.entries, Option.some.injEq] at he
              subst he
              exact List.nodup_nil
            | cons _ _ => simp [Json.entries] at he
          | boolean _ => simp [Json.entries] at he
          | number_integer _ => simp [Json.entries] at he
          | number_float _ => simp [Json.entries] at he
          | string _ => simp [Json.entries] at he
        rw [parse_vocab_eq env json_str j entries hj he hkeys] at h
        cases hc : convert_entries entries with
        | none => simp [hc] at h
        | some ids =>
          simp only [hc] at h
          split at h
          · simp only [Option.some.injEq, Prod.mk.injEq] at h
            obtain ⟨rfl, rfl⟩ := h
            obtain ⟨h1, h2, h3⟩ := foldl_max_id ids (-1)
            have hlen : ((parse_vocab_reverse (env.hash_order ids)
                (List.replicate (max_id_of ids + 1).toNat "")).length : Int)
                = 1 + max_id_of ids := by
              rw [(parse_vocab_reverse_slots _ _).1, List.length_replicate]
              unfold max_id_of
              omega
            refine ⟨hlen, ?_, ?_⟩
            · intro tok id hmem
              have := h2 (tok, id) hmem
              rw [hlen]
              unfold max_id_of
              simp only at this
              omega
            · rcases h3 with h3 | ⟨kv, hmem, hkv⟩
              · left
                have : max_id_of ids = -1 := h3
                omega
              · right
                refine ⟨kv.1, ?_⟩
                have : max_id_of ids = kv.2 := hkv.symm
                rw [hlen, this]
                have e : (1 : Int) + kv.2 - 1 = kv.2 := by omega
                rw [e]
                exact hmem
          · cases h
  · intro hj
    rw [parse_vocab_eq env json_str _ [] hj rfl List.nodup_nil]
    have hnil : parse_vocab_reverse (env.hash_order []) [] = [] :=
      List.eq_nil_of_length_eq_zero (parse_vocab_reverse_slots _ _).1
    simp [convert_entries, max_id_of, hnil]

/-- Witness of the amended C16: the vocabulary of the demo directory, with ids 0 to 4. -/
theorem vocab_reverse_length_witness :
    (∀ members, (demo_env 512).json_parse demo_vocab_json = some (.object members) →
      (members.map Prod.fst).Nodup) ∧
    parse_vocab (demo_env 512) demo_vocab_json
      = some ((demo_core 512).token2id, (demo_core 512).id2token) ∧
    (((demo_core 512).id2token.length : Int) = 1 + max_id_of (demo_core 512).token2id ∧
      (∀ tok id, (tok, id) ∈ (demo_core 512).token2id →
        id < ((demo_core 512).id2token.length : Int)) ∧
      ((demo_core 512).id2token.length = 0 ∨
        ∃ tok, (tok, ((demo_core 512).id2token.length : Int) - 1)
          ∈ (demo_core 512).token2id)) :=
  have hunique : ∀ members,
      (demo_env 512).json_parse demo_vocab_json = some (.object members) →
      (members.map Prod.fst).Nodup := by
    intro members h
    have h2 : some (Json.object [("</s>", .number_integer 0), ("<pad>", .number_integer 4),
        ("<unk>", .number_integer 1), ("hello", .number_integer 2),
        ("world", .number_integer 3)]) = some (Json.object members) := h
    simp only [Option.some.injEq, Json.object.injEq] at h2
    subst h2
    decide
  ⟨hunique, rfl,
    (vocab_reverse_length (demo_env 512) demo_vocab_json hunique).1 _ _ rfl⟩


/-- C17 fails: the vocabulary object `{"a": 0, "b": -3}` maps a token to a negative id and
loads; `b` keeps the id -3 in the forward mapping and gets no slot of the reverse
sequence. -/
theorem vocab_with_negative_id_loads :
    parse_vocab
        (demo_parser_env [("\x7b\"a\": 0, \"b\": -3\x7d",
          .object [("a", .number_integer 0), ("b", .number_integer (-3))])])
        "\x7b\"a\": 0, \"b\": -3\x7d"
      = some ([("a", 0), ("b", -3)], ["a"]) ∧
    find [("a", 0), ("b", -3)] "b" = some (-3) :=
  ⟨rfl, rfl⟩

/-- C17, amended: a token mapped to a negative integer id does not make the vocabulary
load fail. For every vocabulary JSON object with integer values of either sign, the load
succeeds whenever the reverse table for the largest id can be allocated, and the forward
mapping binds every token, also one with a negative id, to its id as a `long long`. -/
theorem vocab_integer_ids_load (env : Env) (json_str : String)
    (members : List (String × Json))
    (hj : env.json_parse json_str = some (.object members))
    (hkeys : (members.map Prod.fst).Nodup)
    (hint : ∀ kv, kv ∈ members → ∃ n, kv.2 = .number_integer n)
    (halloc : ∀ kv id, kv ∈ members → kv.2.get_long_long = some id →
      id + 1 ≤ (env.max_size : Int)) :
    ∃ token2id id2token, parse_vocab env json_str = some (token2id, id2token) ∧
      ∀ tok n, (tok, Json.number_integer n) ∈ members →
        find token2id tok = some (to_long_long n) := by
  have hconv : ∀ kv, kv ∈ members → ∃ id, kv.2.get_long_long = some id := by
    intro kv hkv
    obtain ⟨n, hn⟩ := hint kv hkv
    exact ⟨to_long_long n, by rw [hn]; rfl⟩
  obtain ⟨token2id, hids, hnd, hparse⟩ :=
    parse_vocab_of_convertible env json_str members hj hkeys hconv halloc
  refine ⟨token2id, _, hparse, ?_⟩
  intro tok n hmem
  obtain ⟨ids, hids', h1, -⟩ := convert_entries_of_convertible members hconv
  rw [hids] at hids'
  cases hids'
  rw [find_eq_some_iff_mem token2id hnd]
  exact h1 tok (.number_integer n) (to_long_long n) hmem rfl

/-- Witness of the amended C17: the object `{"a": 0, "b": -3}`. -/
theorem vocab_integer_ids_load_witness :
    (demo_parser_env [("\x7b\"a\": 0, \"b\": -3\x7d",
        .object [("a", .number_integer 0), ("b", .number_integer (-3))])]).json_parse
        "\x7b\"a\": 0, \"b\": -3\x7d"
      = some (.object [("a", .number_integer 0), ("b", .number_integer (-3))]) ∧
    ∃ token2id id2token,
      parse_vocab
          (demo_parser_env [("\x7b\"a\": 0, \"b\": -3\x7d",
            .object [("a", .number_integer 0), ("b", .number_integer (-3))])])
          "\x7b\"a\": 0, \"b\": -3\x7d"
        = some (token2id, id2token) ∧
      ∀ tok n, (tok, Json.number_integer n)
          ∈ [("a", Json.number_integer 0), ("b", Json.number_integer (-3))] →
        find token2id tok = some (to_long_long n) :=
  ⟨rfl,
    vocab_integer_ids_load
      (demo_parser_env [("\x7b\"a\": 0, \"b\": -3\x7d",
        .object [("a", .number_integer 0), ("b", .number_integer (-3))])])
      "\x7b\"a\": 0, \"b\": -3\x7d"
      [("a", .number_integer 0), ("b", .number_integer (-3))] rfl (by decide)
      (by
        intro kv hkv
        simp only [List.mem_cons, List.mem_singleton, List.not_mem_nil, or_false] at hkv
        rcases hkv with rfl | rfl
        · exact ⟨0, rfl⟩
        · exact ⟨-3, rfl⟩)
      (by
        intro kv id hkv hid
        simp only [List.mem_cons, List.mem_singleton, List.not_mem_nil, or_false] at hkv
        rcases hkv with rfl | rfl
        · cases hid
          decide
        · cases hid
          decide)⟩

/-- C20 fails for an id the reverse table cannot be allocated for: the flat object
`{"a": 4611686018427387904}` has a non-negative integer id, and `parse_vocab` returns
`false`, because `id2token.assign(max_id + 1, "")` throws for more than `max_size`
elements. -/
theorem vocab_with_huge_id_fails :
    parse_vocab
        (demo_parser_env [("\x7b\"a\": 4611686018427387904\x7d",
          .object [("a", .number_integer 4611686018427387904)])])
        "\x7b\"a\": 4611686018427387904\x7d"
      = none ∧
    (0 : Int) ≤ 4611686018427387904 :=
  ⟨rfl, by decide⟩

/-- C20, amended: vocabulary load with duplicate ids succeeds and stays consistent. For
every flat object of token -> integer id whose largest id leaves the reverse table
allocatable, including objects where two different tokens share an id, `parse_vocab`
returns true, and for every index `i` of `id2token` the slot is either some token `t` with
`token2id[t] = i` or, when no token has id `i`, the empty string. -/
theorem vocab_duplicate_ids_consistent (env : Env) (json_str : String)
    (members : List (String × Json))
    (hj : env.json_parse json_str = some (.object members))
    (hkeys : (members.map Prod.fst).Nodup)
    (hint : ∀ kv, kv ∈ members → ∃ n, kv.2 = .number_integer n)
    (halloc : ∀ kv id, kv ∈ members → kv.2.get_long_long = some id →
      id + 1 ≤ (env.max_size : Int))
    (horder : ∀ m, (env.hash_order m).Perm m) :
    ∃ token2id id2token, parse_vocab env json_str = some (token2id, id2token) ∧
      ∀ i (h : i < id2token.length),
        (∃ tok, find token2id tok = some (i : Int) ∧ id2token[i] = tok) ∨
        ((∀ tok, find token2id tok ≠ some (i : Int)) ∧ id2token[i] = "") := by
  have hconv : ∀ kv, kv ∈ members → ∃ id, kv.2.get_long_long = some id := by
    intro kv hkv
    obtain ⟨n, hn⟩ := hint kv hkv
    exact ⟨to_long_long n, by rw [hn]; rfl⟩
  obtain ⟨token2id, -, hnd, hparse⟩ :=
    parse_vocab_of_convertible env json_str members hj hkeys hconv halloc
  refine ⟨token2id, _, hparse, ?_⟩
  intro i h
  obtain ⟨hlen, hslots⟩ := parse_vocab_reverse_slots (env.hash_order token2id)
    (List.replicate (max_id_of token2id + 1).toNat "")
  have hi : i < (List.replicate (max_id_of token2id + 1).toNat "").length := by
    rw [← hlen]
    exact h
  rcases hslots i hi h with ⟨tok, hmem, htok⟩ | ⟨hno, hkeep⟩
  · left
    refine ⟨tok, ?_, htok⟩
    rw [find_eq_some_iff_mem token2id hnd]
    exact (horder token2id).mem_iff.mp hmem
  · right
    refine ⟨?_, ?_⟩
    · intro tok hfind
      rw [find_eq_some_iff_mem token2id hnd] at hfind
      exact hno tok ((horder token2id).mem_iff.mpr hfind)
    · rw [hkeep]
      simp


/-- Witness of the amended C20: in `{"a": 0, "b": 0, "c": 2}` the tokens `a` and `b` share
the id 0; the load succeeds with the reverse sequence `["b", "", "c"]`. -/
theorem vocab_duplicate_ids_consistent_witness :
    (demo_parser_env [(demo_duplicate_vocab_json, .object demo_duplicate_vocab)]).json_parse
        demo_duplicate_vocab_json = some (.object demo_duplicate_vocab) ∧
    (demo_duplicate_vocab.map Prod.fst).Nodup ∧
    parse_vocab (demo_parser_env [(demo_duplicate_vocab_json, .object demo_duplicate_vocab)])
        demo_duplicate_vocab_json
      = some ([("a", 0), ("b", 0), ("c", 2)], ["b", "", "c"]) ∧
    ∃ token2id id2token,
      parse_vocab (demo_parser_env [(demo_duplicate_vocab_json, .object demo_duplicate_vocab)])
          demo_duplicate_vocab_json = some (token2id, id2token) ∧
      ∀ i (h : i < id2token.length),
        (∃ tok, find token2id tok = some (i : Int) ∧ id2token[i] = tok) ∨
        ((∀ tok, find token2id tok ≠ some (i : Int)) ∧ id2token[i] = "") :=
  ⟨rfl, by decide, rfl,
    vocab_duplicate_ids_consistent
      (demo_parser_env [(demo_duplicate_vocab_json, .object demo_duplicate_vocab)])
      demo_duplicate_vocab_json demo_duplicate_vocab rfl (by decide)
      (by
        intro kv hkv
        simp only [demo_duplicate_vocab, List.mem_cons, List.mem_singleton, List.not_mem_nil,
          or_false] at hkv
        rcases hkv with rfl | rfl | rfl
        · exact ⟨0, rfl⟩
        · exact ⟨0, rfl⟩
        · exact ⟨2, rfl⟩)
      (by
        intro kv id hkv hid
        simp only [demo_duplicate_vocab, List.mem_cons, List.mem_singleton, List.not_mem_nil,
          or_false] at hkv
        rcases hkv with rfl | rfl | rfl <;> cases hid <;> decide)
      (fun m => List.Perm.refl m)⟩


/-! ## Claims on `parse_config` -/

/-- C18: for every configuration JSON document, `parse_config` fails (returns `false`)
whenever any of the fields `vocab_size`, `eos_token_id`, `pad_token_id` or
`decoder_start_token_id` is absent, regardless of which other fields are present. -/
theorem parse_config_requires_fields (env : Env) (json_str : String) (j : Json)
    (hj : env.json_parse json_str = some j)
    (habsent : j.contains "vocab_size" = false ∨ j.contains "eos_token_id" = false ∨
      j.contains "pad_token_id" = false ∨ j.contains "decoder_start_token_id" = false) :
    parse_config env json_str = none := by
  have hat : ∀ key, j.contains key = false → j.at_key key = none := by
    intro key h
    cases j with
    | object members =>
      cases hl : members.lookup key with
      | none => simp [Json.at_key, hl]
      | some v => simp [Json.contains, hl] at h
    | null => rfl
    | boolean _ => rfl
    | number_integer _ => rfl
    | number_float _ => rfl
    | string _ => rfl
    | array _ => rfl
  unfold parse_config
  simp only [hj]
  rcases habsent with h | h | h | h
  · simp [hat _ h]
  · split
    · rfl
    · split
      · rfl
      · simp [hat _ h]
  · split
    · rfl
    · split
      · rfl
      · split
        · rfl
        · split
          · rfl
          · simp [hat _ h]
  · split
    · rfl
    · split
      · rfl
      · split
        · rfl
        · split
          · rfl
          · split
            · rfl
            · simp [hat _ h]

/-- Witness of C18: a configuration with every required field but `pad_token_id`. -/
theorem parse_config_requires_fields_witness :
    (demo_parser_env [(demo_config_without_pad_json, demo_config_without_pad)]).json_parse
        demo_config_without_pad_json = some demo_config_without_pad ∧
    demo_config_without_pad.contains "pad_token_id" = false ∧
    parse_config (demo_parser_env [(demo_config_without_pad_json, demo_config_without_pad)])
      demo_config_without_pad_json = none :=
  ⟨rfl, rfl,
    parse_config_requires_fields
      (demo_parser_env [(demo_config_without_pad_json, demo_config_without_pad)])
      demo_config_without_pad_json demo_config_without_pad rfl (Or.inr (Or.inr (Or.inl rfl)))⟩


theorem to_int_of_fits (n : Int) (h1 : -(2 : Int) ^ 31 ≤ n) (h2 : n < 2 ^ 31) :
    to_int n = n := by
  unfold to_int
  norm_num at h1 h2 ⊢
  omega

theorem to_long_long_of_fits (n : Int) (h1 : -(2 : Int) ^ 63 ≤ n) (h2 : n < 2 ^ 63) :
    to_long_long n = n := by
  unfold to_long_long
  norm_num at h1 h2 ⊢
  omega

/-- A field that fits is a given integer, or is absent and optional. -/
theorem field_fits_cases (members : List (String × Json)) (key : String) (required : Bool)
    (lo hi : Int) (h : field_fits members key required lo hi = true) :
    (members.lookup key = none ∧ required = false ∧ spec_field members key = none) ∨
    ∃ n, members.lookup key = some (.number_integer n) ∧ lo ≤ n ∧ n < hi ∧
      spec_field members key = some n := by
  unfold field_fits at h
  unfold spec_field
  split at h
  · rename_i hl
    left
    rw [hl]
    exact ⟨rfl, by simpa using h, rfl⟩
  · rename_i n hl
    right
    rw [hl]
    simp only [decide_eq_true_eq] at h
    exact ⟨n, rfl, h.1, h.2, rfl⟩
  · cases h

theorem at_key_get_int_of_fits (members : List (String × Json)) (key : String) (d : Int)
    (h : field_fits members key true (-(2 : Int) ^ 31) (2 ^ 31) = true) :
    ((Json.object members).at_key key).bind Json.get_int
      = some ((spec_field members key).getD d) := by
  rcases field_fits_cases members key true _ _ h with ⟨-, h2, -⟩ | ⟨n, h1, h2, h3, h4⟩
  · cases h2
  · simp only [Json.at_key, h1, Option.some_bind, Json.get_int, h4, Option.getD_some,
      to_int_of_fits n h2 h3]

theorem at_key_get_long_long_of_fits (members : List (String × Json)) (key : String) (d : Int)
    (h : field_fits members key true (-(2 : Int) ^ 63) (2 ^ 63) = true) :
    ((Json.object members).at_key key).bind Json.get_long_long
      = some ((spec_field members key).getD d) := by
  rcases field_fits_cases members key true _ _ h with ⟨-, h2, -⟩ | ⟨n, h1, h2, h3, h4⟩
  · cases h2
  · simp only [Json.at_key, h1, Option.some_bind, Json.get_long_long, h4, Option.getD_some,
      to_long_long_of_fits n h2 h3]

theorem value_int_of_fits (members : List (String × Json)) (key : String) (d : Int)
    (h : field_fits members key false (-(2 : Int) ^ 31) (2 ^ 31) = true) :
    (Json.object members).value_int key d = some ((spec_field members key).getD d) := by
  rcases field_fits_cases members key false _ _ h with ⟨h1, -, h4⟩ | ⟨n, h1, h2, h3, h4⟩
  · simp only [Json.value_int, h1, h4, Option.getD_none]
  · simp only [Json.value_int, h1, Json.get_int, h4, Option.getD_some, to_int_of_fits n h2 h3]

theorem value_long_long_of_fits (members : List (String × Json)) (key : String) (d : Int)
    (h : field_fits members key false (-(2 : Int) ^ 63) (2 ^ 63) = true) :
    (Json.object members).value_long_long key d = some ((spec_field members key).getD d) := by
  rcases field_fits_cases members key false _ _ h with ⟨h1, -, h4⟩ | ⟨n, h1, h2, h3, h4⟩
  · simp only [Json.value_long_long, h1, h4, Option.getD_none]
  · simp only [Json.value_long_long, h1, Json.get_long_long, h4, Option.getD_some,
      to_long_long_of_fits n h2 h3]

/-- A conversion loop over a list whose elements all convert. -/
theorem mapM_eq_some_map {α β : Type} (f : α → Option β) (g : α → β) :
    ∀ l : List α, (∀ x, x ∈ l → f x = some (g x)) → l.mapM f = some (l.map g) := by
  intro l
  induction l with
  | nil => intro _; rfl
  | cons a l ih =>
    intro h
    rw [List.mapM_cons, h a (List.mem_cons_self _ _),
      ih (fun x hx => h x (List.mem_cons_of_mem _ hx))]
    rfl


/-- The loop over `bad_words_ids` copies a field that fits as it is given. -/
theorem parse_bad_words_ids_of_fit (members : List (String × Json))
    (h : bad_words_fit members = true) :
    parse_bad_words_ids (.object members) = some (spec_bad_words_ids members) := by
  unfold bad_words_fit at h
  unfold parse_bad_words_ids spec_bad_words_ids
  split at h
  · rename_i hl
    simp [Json.contains, hl]
  · rename_i seqs hl
    simp only [Json.contains, hl, Option.isSome_some, if_true, Json.at_key, Option.getD_some,
      Json.elements]
    rw [List.all_eq_true] at h
    apply mapM_eq_some_map
    intro seq hseq
    have hs := h seq hseq
    split at hs
    · rename_i xs
      simp only [Json.elements]
      rw [List.all_eq_true] at hs
      apply mapM_eq_some_map
      intro x hx
      have hxs := hs x hx
      split at hxs
      · rename_i n
        simp only [decide_eq_true_eq] at hxs
        simp only [Json.get_long_long, to_long_long_of_fits n hxs.1 hxs.2]
      · cases hxs
    · cases hs
  · cases h

/-! ## Claims on `parse_config`, continued -/

set_option maxRecDepth 8000

/-- C19 fails in two ways. A given value outside the C type of its field is not stored:
the configuration `{"vocab_size": 4294967296, "eos_token_id": 0, "pad_token_id": 4,
"decoder_start_token_id": 4}` has the four required integer fields and omits the optional
ones; `parse_config` succeeds with the defaults, but stores 0 as `vocab_size` (and as the
`decoder_vocab_size` that defaults to it), not the given `2 ^ 32`. And an optional field
that is present with a value of another kind makes the parse fail: with
`"max_length": "long"` next to the four required fields `parse_config` returns `false`. -/
theorem parse_config_wraps_wide_value :
    parse_config (demo_parser_env [(demo_wide_config_json, .object demo_wide_config)])
        demo_wide_config_json
      = some
          { vocab_size := 0
            decoder_vocab_size := 0
            eos_id := 0
            bos_id := 0
            pad_id := 4
            decoder_start_id := 4
            max_length := 512
            model_max_length := 512
            bad_words_ids := [] } ∧
    spec_field demo_wide_config "vocab_size" = some 4294967296 ∧
    (spec_parse_config demo_wide_config).vocab_size = 4294967296 ∧
    parse_config
        (demo_parser_env [(demo_string_config_json, .object demo_string_config)])
        demo_string_config_json
      = none :=
  ⟨rfl, rfl, rfl, rfl⟩

/-- C19, amended: for every configuration JSON object that contains the four required
integer fields and in which every field that is present has a value of its kind that fits
the C type of the field (`int` for `vocab_size`, `decoder_vocab_size`, `max_length` and
`model_max_length`, `long long` for the ids), `parse_config` succeeds; the fields that are
present are stored with the given values, `bad_words_ids` preserving the order of
sequences and of ids within each sequence, and the omitted fields take the defaults
`decoder_vocab_size = vocab_size`, `bos_id = eos_id`, `max_length = 512`,
`model_max_length = max_length`, `bad_words_ids` empty. -/
theorem parse_config_defaults (env : Env) (json_str : String)
    (members : List (String × Json))
    (hj : env.json_parse json_str = some (.object members))
    (hfits : config_fits members = true) :
    parse_config env json_str = some (spec_parse_config members) := by
  simp only [config_fits, Bool.and_eq_true] at hfits
  obtain ⟨⟨⟨⟨⟨⟨⟨⟨h1, h2⟩, h3⟩, h4⟩, h5⟩, h6⟩, h7⟩, h8⟩, h9⟩ := hfits
  unfold parse_config
  simp only [hj, at_key_get_int_of_fits members "vocab_size" 0 h1,
    value_int_of_fits members "decoder_vocab_size" _ h2,
    at_key_get_long_long_of_fits members "eos_token_id" 0 h3,
    value_long_long_of_fits members "bos_token_id" _ h4,
    at_key_get_long_long_of_fits members "pad_token_id" 0 h5,
    at_key_get_long_long_of_fits members "decoder_start_token_id" 0 h6,
    value_int_of_fits members "max_length" _ h7,
    value_int_of_fits members "model_max_length" _ h8,
    parse_bad_words_ids_of_fit members h9]
  rfl

/-- Witness of the amended C19: a configuration with every field present is stored as
given, and one with the four required fields only takes every default. -/
theorem parse_config_defaults_witness :
    (demo_parser_env [(demo_full_config_json, .object demo_full_config)]).json_parse
        demo_full_config_json = some (.object demo_full_config) ∧
    config_fits demo_full_config = true ∧
    spec_parse_config demo_full_config
      = { vocab_size := 5
          decoder_vocab_size := 6
          eos_id := 0
          bos_id := 7
          pad_id := 4
          decoder_start_id := 4
          max_length := 64
          model_max_length := 32
          bad_words_ids := [[4], [3, 2]] } ∧
    spec_parse_config demo_required_config
      = { vocab_size := 5
          decoder_vocab_size := 5
          eos_id := 0
          bos_id := 0
          pad_id := 4
          decoder_start_id := 4
          max_length := 512
          model_max_length := 512
          bad_words_ids := [] } ∧
    parse_config (demo_parser_env [(demo_full_config_json, .object demo_full_config)])
        demo_full_config_json = some (spec_parse_config demo_full_config) :=
  ⟨rfl, rfl, rfl, rfl,
    parse_config_defaults (demo_parser_env [(demo_full_config_json, .object demo_full_config)])
      demo_full_config_json demo_full_config rfl rfl⟩


/-! ## Claim on the mask of an encoded batch -/

/-- C21 fails for a batch with more cells than an `int` can index. With 65537 texts
`"hello"`, `max_len = 32768` and `add_eos = 1` the batch call succeeds, every length
written is 2, which lies in `[0, max_len]`, and the mask call on these lengths returns 0;
but in both functions `row_offset = 65536 * 32768` is `2^31`, which wraps to `-2^31` in
`int`, so that at position 0 of row 65536, which is below the length of the row, neither
`out_mask` holds 1 nor `out_ids` an id of the sequence: both cells still hold the callers'
values, and so does the cell at position 2, where the claim has a 0 and `pad_id = 4`. -/
theorem mask_of_batch_past_int_range :
    ∃ ids' lens' mask',
      marian_tok_encode_batch (some (demo_core 512)) (some demo_texts_hello) 65537 32768
        (some demo_cells) (some demo_cells) 1 = .returned 2 (some ids', some lens') ∧
      (∀ b : Nat, (b : Int) < 65537 → lens' b = 2) ∧
      marian_tok_build_attention_mask (some lens') 65537 32768 (some demo_cells)
        = (0, some mask') ∧
      to_int (65536 * 32768) = -2147483648 ∧
      mask' (65536 * 32768) = -2147483649 ∧ ids' (65536 * 32768) = -2147483649 ∧
      mask' (65536 * 32768 + 2) = -2147483651 ∧ ids' (65536 * 32768 + 2) = -2147483651 ∧
      (demo_core 512).cfg.pad_id = 4 := by
  obtain ⟨ids', lens', hcall, hlen, hids⟩ := demo_batch_past_int_range
  obtain ⟨mask', hmcall, hframe⟩ := marian_tok_build_attention_mask_frame lens'
    demo_cells 65537 32768 (by decide) (by decide)
  have hmask : ∀ j : Nat, j < 32768 →
      mask' (65536 * 32768 + j) = demo_cells (65536 * 32768 + j) := by
    intro j hj
    refine hframe _ (fun r j' hr hj' e => ?_)
    unfold to_int at e
    push_cast at e
    omega
  refine ⟨ids', lens', mask', hcall, hlen, hmcall, by decide, ?_, ?_, ?_, ?_, rfl⟩
  · rw [hmask 0 (by decide)]
    decide
  · rw [hids 0 (by decide)]
    decide
  · rw [hmask 2 (by decide)]
    decide
  · rw [hids 2 (by decide)]
    decide

/-- Mask/batch consistency for a batch whose cells an `int` can index,
`batch_size * max_len <= 2^31`. For every successful `marian_tok_encode_batch` call with
stride `max_len`, every `out_seq_lens[b]` written lies in `[0, max_len]`, and
`marian_tok_build_attention_mask` on these lengths with the same `batch_size` and `max_len`
returns 0 with a mask in which, for every non-null row `b` and position `j < max_len`,
`out_mask[b*max_len + j]` is 1 exactly when `j < out_seq_lens[b]`, where `out_ids` holds
the `j`-th id of the encoded sequence of the row, and 0 exactly when
`out_seq_lens[b] <= j`, where `out_ids` holds the `pad_id` of the padding loop. -/
theorem mask_matches_encoded_batch (handle : Option MarianCore)
    (texts : Option (Nat → Option String)) (batch_size max_len : Int)
    (out_ids out_seq_lens : Option (Nat → Int)) (add_eos code : Int)
    (mem : Option (Nat → Int) × Option (Nat → Int))
    (hret : marian_tok_encode_batch handle texts batch_size max_len out_ids out_seq_lens
      add_eos = .returned code mem)
    (hcode : 0 ≤ code) (hfit : batch_size * max_len ≤ 2 ^ 31) (out_mask : Nat → Int) :
    ∃ (core : MarianCore) (txt : Nat → Option String) (ids' lens' mask' : Nat → Int),
      handle = some core ∧ texts = some txt ∧ mem = (some ids', some lens') ∧
      (∀ b : Nat, (b : Int) < batch_size → 0 ≤ lens' b ∧ lens' b ≤ max_len) ∧
      marian_tok_build_attention_mask (some lens') batch_size max_len (some out_mask)
        = (0, some mask') ∧
      ∀ (b : Nat) (t : String), (b : Int) < batch_size → txt b = some t →
        ∀ j : Nat, (j : Int) < max_len →
          (mask' ((b : Int) * max_len + (j : Int)).toNat = 1 ↔ (j : Int) < lens' b) ∧
          (mask' ((b : Int) * max_len + (j : Int)).toNat = 0 ↔ lens' b ≤ (j : Int)) ∧
          ((j : Int) < lens' b →
            ∃ P, core.sp_source.Encode t = some P ∧
              ∃ h : j < (truncated_ids core P add_eos).length,
                ids' ((b : Int) * max_len + (j : Int)).toNat
                  = (truncated_ids core P add_eos)[j]) ∧
          (lens' b ≤ (j : Int) →
            ids' ((b : Int) * max_len + (j : Int)).toNat = core.cfg.pad_id) := by
  obtain ⟨core, txt, ids', lens', rfl, rfl, rfl, hB, hL, hdone, -, -⟩ :=
    marian_tok_encode_batch_success handle texts batch_size max_len out_ids out_seq_lens
      add_eos code mem hret hcode hfit
  have hbounds : ∀ b : Nat, (b : Int) < batch_size → 0 ≤ lens' b ∧ lens' b ≤ max_len := by
    intro b hb
    cases ht : txt b with
    | none =>
      rw [(hdone b hb).1 ht]
      omega
    | some t =>
      obtain ⟨P, -, -, hfit, hlen, -⟩ := (hdone b hb).2 t ht
      rw [hlen]
      omega
  obtain ⟨mask', hcall, hmask⟩ := marian_tok_build_attention_mask_rows lens' out_mask
    batch_size max_len hB hL hfit
  refine ⟨core, txt, ids', lens', mask', rfl, rfl, rfl, hbounds, hcall, ?_⟩
  · intro b t hb ht j hj
    obtain ⟨h0, h1⟩ := hbounds b hb
    rw [hmask b j hb hj, row_index b j max_len (by omega)]
    have hclamp : min (max (lens' b) 0) max_len = lens' b := by omega
    unfold spec_mask
    rw [hclamp]
    obtain ⟨P, hP, -, -, hlen, hcells, hpad⟩ := (hdone b hb).2 t ht
    refine ⟨?_, ?_, ?_, ?_⟩
    · by_cases hlt : (j : Int) < lens' b
      · simp [hlt]
      · simp [hlt]
    · by_cases hlt : (j : Int) < lens' b
      · simp [hlt]
      · simp only [if_neg hlt, true_iff]
        omega
    · intro hlt
      have hj' : j < (truncated_ids core P add_eos).length := by omega
      exact ⟨P, hP, hj', hcells j hj'⟩
    · intro hle
      exact hpad j (by omega) (by omega)

/-- The batch `["hello", null, "world"]` with `max_len = 8` and EOS has the lengths
`[2, 0, 2]`; the mask of row 0 is `[1, 1, 0, 0, 0, 0, 0, 0]`. -/
theorem mask_matches_encoded_batch_witness :
    (∃ ids' lens' mask',
      marian_tok_encode_batch (some (demo_core 512)) (some demo_texts) 3 8
        (some demo_cells) (some demo_cells) 1 = .returned 2 (some ids', some lens') ∧
      (List.range 3).map lens' = [2, 0, 2] ∧
      marian_tok_build_attention_mask (some lens') 3 8 (some demo_cells)
        = (0, some mask') ∧
      (List.range 8).map mask' = [1, 1, 0, 0, 0, 0, 0, 0]) ∧
    ∃ mem,
      marian_tok_encode_batch (some (demo_core 512)) (some demo_texts) 3 8
        (some demo_cells) (some demo_cells) 1 = .returned 2 mem ∧
      (0 : Int) ≤ 2 ∧ (3 : Int) * 8 ≤ 2 ^ 31 ∧
      ∃ (core : MarianCore) (txt : Nat → Option String) (ids' lens' mask' : Nat → Int),
        some (demo_core 512) = some core ∧ some demo_texts = some txt ∧
        mem = (some ids', some lens') ∧
        (∀ b : Nat, (b : Int) < 3 → 0 ≤ lens' b ∧ lens' b ≤ 8) ∧
        marian_tok_build_attention_mask (some lens') 3 8 (some demo_cells)
          = (0, some mask') ∧
        ∀ (b : Nat) (t : String), (b : Int) < 3 → txt b = some t →
          ∀ j : Nat, (j : Int) < 8 →
            (mask' ((b : Int) * 8 + (j : Int)).toNat = 1 ↔ (j : Int) < lens' b) ∧
            (mask' ((b : Int) * 8 + (j : Int)).toNat = 0 ↔ lens' b ≤ (j : Int)) ∧
            ((j : Int) < lens' b →
              ∃ P, core.sp_source.Encode t = some P ∧
                ∃ h : j < (truncated_ids core P 1).length,
                  ids' ((b : Int) * 8 + (j : Int)).toNat = (truncated_ids core P 1)[j]) ∧
            (lens' b ≤ (j : Int) →
              ids' ((b : Int) * 8 + (j : Int)).toNat = core.cfg.pad_id) :=
  ⟨⟨_, _, _, rfl, rfl, rfl, rfl⟩, _, rfl, by decide, by decide,
    mask_matches_encoded_batch (some (demo_core 512)) (some demo_texts) 3 8 (some demo_cells)
      (some demo_cells) 1 2 _ rfl (by decide) (by decide) demo_cells⟩

end Marian
